import Mathlib

/-!
# The DuckDB connection gate of `runtime/drivers/duckdb/duckdb.go`

A shallow embedding of the access gate of the `connection` type: the pools built by
`Driver.Open`, `acquireMetaConn`, `acquireOLAPConn`, `acquireConn` with its release
closure, and `checkErr`.

Conventions of the embedding:

* A Go `error` is an `Option String`: `none` is `nil`, `some s` is an error whose
  `Error()` text is `s`.
* Everything the code asks of the engine, the file system or a `context.Context` is an
  explicit argument giving the result of that call (`GoError` results of `reopenDB`,
  `c.db.Connx`, `conn.Close` and of a cancellable semaphore wait).
* The handle `c.db` itself is not part of the state: what `c.reopenDB()` and
  `c.db.Connx(ctx)` return is given with the call.
* The sections the code runs under `c.dbCond.L` are single functions on the state.
* `reopens` and `broadcasts` are history counters added to the state: they count the calls
  of `c.reopenDB()` and of `c.dbCond.Broadcast()` and are read by no operation.

The file also embeds `Driver.Open`, `Driver.Drop` and `reopenDB` of the same package as
lists of effects on the file system and the engine, the graph of `runtime/pkg/dag2/dag.go`,
and the SQL builder of `runtime/queries/metricsview_aggregation.go`:

* A `*vertex` of `dag2` is an index into the heap of vertices carried by the `DAG`, so that
  two maps can hold the same vertex; a Go map is the list of its entries and is ranged over
  in the order of the list; a panic is the result `Run.panic`; errors are told apart by
  their text.
* The helpers of `queries` that are not among the sources are the fields of `SQLHelpers`.
-/

namespace Duckdb

/-- A Go `error`: `none` is `nil`, `some s` an error with text `s`. -/
abbrev GoError := Option String

/-- Go `strings.HasPrefix(s, p)`, on the characters of the two strings. -/
def hasPrefix (s p : String) : Bool := p.data.isPrefixOf s.data

/-- Two's complement wrap-around of a Go `int` (64 bits) result. -/
def wrapInt64 (x : Int) : Int := (x + 2 ^ 63) % 2 ^ 64 - 2 ^ 63

/-- The fields of `config` read by the gate: `DBFilePath` and `PoolSize`. -/
structure Config where
  DBFilePath : String
  PoolSize : Int
  deriving DecidableEq, Repr

/-- A counting semaphore `golang.org/x/sync/semaphore.Weighted`: `size` is the capacity
given to `NewWeighted`, `cur` the weight currently held. -/
structure Weighted where
  size : Int
  cur : Int
  deriving DecidableEq, Repr

/-- The constructor `semaphore.NewWeighted(n)`. -/
def NewWeighted (n : Int) : Weighted := { size := n, cur := 0 }

/-- The call `Weighted.Acquire(ctx, 1)` when it does not fail: granted when one more unit fits,
otherwise the caller stays blocked (`none`). -/
def Weighted.Acquire (s : Weighted) : Option Weighted :=
  if s.cur + 1 ≤ s.size then some { s with cur := s.cur + 1 } else none

/-- The call `Weighted.Release(1)`, made only by a holder. -/
def Weighted.Release (s : Weighted) : Weighted := { s with cur := s.cur - 1 }

/-- Modelled from the spec: `priorityqueue.Semaphore` (package `runtime/pkg/priorityqueue`,
not among the sources), "a blocking counting admission primitive" of a given capacity.
Only the counting is modelled: `size` is the capacity given to `NewSemaphore`, `held` the
number of slots taken; which blocked waiter gets a freed slot is left open. -/
structure Semaphore where
  size : Int
  held : Int
  deriving DecidableEq, Repr

/-- Modelled from the spec: `priorityqueue.NewSemaphore(size)`, a pool of capacity `size`
with no slot taken. -/
def NewSemaphore (size : Int) : Semaphore := { size := size, held := 0 }

/-- Modelled from the spec: `Semaphore.Acquire(ctx, priority)` when it does not fail: a
slot is granted when one is free, otherwise the caller stays blocked (`none`). -/
def Semaphore.Acquire (s : Semaphore) : Option Semaphore :=
  if s.held < s.size then some { s with held := s.held + 1 } else none

/-- Modelled from the spec: `Semaphore.Release()`, giving one slot back. -/
def Semaphore.Release (s : Semaphore) : Semaphore := { s with held := s.held - 1 }

/-- The lock `sync.RWMutex`: the number of read holders and whether the write side is
held. -/
structure RWMutex where
  readers : Nat
  writer : Bool
  deriving DecidableEq, Repr

/-- The call `RWMutex.Lock()`: granted when nobody holds either side, otherwise blocked
(`none`). -/
def RWMutex.Lock (m : RWMutex) : Option RWMutex :=
  if m.readers = 0 ∧ m.writer = false then some { m with writer := true } else none

/-- The call `RWMutex.RLock()`: granted when the write side is not held, otherwise blocked
(`none`). Go also makes a reader wait behind a writer that is itself waiting, which only
removes interleavings. -/
def RWMutex.RLock (m : RWMutex) : Option RWMutex :=
  if m.writer = false then some { m with readers := m.readers + 1 } else none

/-- The call `RWMutex.Unlock()`, made only by the write holder. -/
def RWMutex.Unlock (m : RWMutex) : RWMutex := { m with writer := false }

/-- The call `RWMutex.RUnlock()`, made only by a read holder. -/
def RWMutex.RUnlock (m : RWMutex) : RWMutex := { m with readers := m.readers - 1 }

/-- The fields of the Go struct `connection` that the gate uses, with the two history
counters `reopens` and `broadcasts`. `dbConnCount` is a Go `int` that starts at zero and
moves by one per call; it is kept as an unbounded integer. -/
structure connection where
  config : Config
  metaSem : Weighted
  olapSem : Semaphore
  longRunningSem : Weighted
  txMu : RWMutex
  dbConnCount : Int
  dbReopen : Bool
  dbErr : GoError
  reopens : Nat
  broadcasts : Nat
  deriving DecidableEq, Repr

/-- The pool sizing of `Driver.Open`: `olapSemSize := cfg.PoolSize - 1` in Go `int`
arithmetic, raised to 1 when below 1. -/
def olapSemSize (cfg : Config) : Int :=
  let olapSemSize := wrapInt64 (cfg.PoolSize - 1)
  if olapSemSize < 1 then 1 else olapSemSize

/-- The `connection` literal built by `Driver.Open`, before the first `reopenDB`. -/
def Open (cfg : Config) : connection :=
  { config := cfg
    metaSem := NewWeighted 1
    olapSem := NewSemaphore (olapSemSize cfg)
    longRunningSem := NewWeighted 1
    txMu := { readers := 0, writer := false }
    dbConnCount := 0
    dbReopen := false
    dbErr := none
    reopens := 0
    broadcasts := 0 }

/-- A call of `c.reopenDB()` whose result is `r`: for the gate only the returned error
matters; the call is counted in `reopens`. -/
def reopenDB (c : connection) (r : GoError) : connection × GoError :=
  ({ c with reopens := c.reopens + 1 }, r)

/-- The outcome of the locked loop at the head of `acquireConn`. -/
inductive GateResult where
  /-- The branch `dbErr != nil`: unlock and return `dbErr`. -/
  | failed (err : String)
  /-- The flag `dbReopen` is set: the caller is parked in `c.dbCond.Wait()`. -/
  | parked
  /-- The loop was left by `break`: `c.dbConnCount++`, unlock. -/
  | admitted (c : connection)
  deriving DecidableEq, Repr

/-- One pass of the loop at the head of `acquireConn`, run under `c.dbCond.L`, from taking
the lock (or waking up in `Wait`) to the next `Unlock` or `Wait`. -/
def acquireGate (c : connection) : GateResult :=
  match c.dbErr with
  | some e => .failed e
  | none =>
    if !c.dbReopen then .admitted { c with dbConnCount := c.dbConnCount + 1 }
    else .parked

/-- The closure `releaseTx` of `acquireConn`: `Unlock` for a transactional holder, `RUnlock`
otherwise. -/
def releaseTx (c : connection) (tx : Bool) : connection :=
  if tx then { c with txMu := c.txMu.Unlock } else { c with txMu := c.txMu.RUnlock }

/-- The locked section of the release closure of `acquireConn`, entered with the error
`err` of `conn.Close()`: decrement, and when the count is zero with a reopen pending clear
the flag, reopen (result `r`), store the result in `dbErr` and broadcast. Returns the new
state and the error the closure returns. -/
def releaseGate (c : connection) (err r : GoError) : connection × GoError :=
  let c1 : connection := { c with dbConnCount := c.dbConnCount - 1 }
  if c1.dbConnCount = 0 ∧ c1.dbReopen = true then
    let c2 : connection := { c1 with dbReopen := false }
    let (c3, err) := reopenDB c2 r
    ({ c3 with dbErr := err, broadcasts := c3.broadcasts + 1 }, err)
  else (c1, err)

/-- The release closure returned by `acquireConn` for a call with flag `tx`:
`conn.Close()` (result `closeErr`), `releaseTx()`, then the locked section. -/
def release (c : connection) (tx : Bool) (closeErr r : GoError) : connection × GoError :=
  releaseGate (releaseTx c tx) closeErr r

/-- The method `checkErr`: a non-nil error whose text starts with one of the two signatures sets
`dbReopen` under the lock; the error is returned as it came. -/
def checkErr (c : connection) (err : GoError) : connection × GoError :=
  match err with
  | some e =>
    if hasPrefix e "INTERNAL Error:" || hasPrefix e "FATAL Error" then
      ({ c with dbReopen := true }, err)
    else (c, err)
  | none => (c, err)

/-- The lock step of `acquireConn`: `c.txMu.Lock()` for a transactional call,
`c.txMu.RLock()` otherwise; `none` while the lock cannot be granted. -/
def lockTx (c : connection) (tx : Bool) : Option connection :=
  if tx then (c.txMu.Lock).map (fun m => { c with txMu := m })
  else (c.txMu.RLock).map (fun m => { c with txMu := m })

/-- Whether `acquireConn` reopens under the write lock: `tx` and `DBFilePath != ""`. -/
def needsTxReopen (c : connection) (tx : Bool) : Bool :=
  tx && c.config.DBFilePath != ""

/-- The transactional reopen of `acquireConn`, run holding the write lock: `reopenDB`
(result `r`); on an error `c.txMu.Unlock()` and the error is returned. -/
def txReopen (c : connection) (r : GoError) : connection × GoError :=
  let (c1, err) := reopenDB c r
  match err with
  | some e => ({ c1 with txMu := c1.txMu.Unlock }, some e)
  | none => (c1, none)

/-- The step `conn, err := c.db.Connx(ctx)` of `acquireConn` with result `r`: on an error
`releaseTx()` and the error is returned. -/
def connx (c : connection) (tx : Bool) (r : GoError) : connection × GoError :=
  match r with
  | some e => (releaseTx c tx, some e)
  | none => (c, none)

/-- How far a call of `acquireConn` got. -/
inductive Acquired where
  /-- Returned `(nil, nil, err)`. -/
  | err (e : String)
  /-- Returned `(conn, release, nil)`. -/
  | conn
  /-- Parked in `c.dbCond.Wait()`. -/
  | waitGate
  /-- Blocked in `c.txMu.Lock()` or `c.txMu.RLock()`. -/
  | waitTx
  deriving DecidableEq, Repr

/-- The tail of `acquireConn` from `c.db.Connx(ctx)` on. -/
def acquireConn.finish (c : connection) (tx : Bool) (connxR : GoError) :
    connection × Acquired :=
  match connx c tx connxR with
  | (c1, some e) => (c1, .err e)
  | (c1, none) => (c1, .conn)

/-- A call `c.acquireConn(ctx, tx)` run on its own: `reopenR` is the result of the
transactional `reopenDB` (if the call makes one) and `connxR` the result of
`c.db.Connx(ctx)`. The state returned is the one the call leaves behind, or the one at which
it is blocked. -/
def acquireConn (c : connection) (tx : Bool) (reopenR connxR : GoError) :
    connection × Acquired :=
  match acquireGate c with
  | .failed e => (c, .err e)
  | .parked => (c, .waitGate)
  | .admitted c1 =>
    match lockTx c1 tx with
    | none => (c1, .waitTx)
    | some c2 =>
      if needsTxReopen c2 tx then
        match txReopen c2 reopenR with
        | (c3, some e) => (c3, .err e)
        | (c3, none) => acquireConn.finish c3 tx connxR
      else acquireConn.finish c2 tx connxR

/-- The arguments of a call: `acquireMetaConn(ctx)` or
`acquireOLAPConn(ctx, priority, longRunning, tx)`. -/
inductive Call where
  | meta
  | olap (priority : Int) (longRunning tx : Bool)
  deriving DecidableEq, Repr

/-- The `tx` flag handed to `acquireConn`: `false` from `acquireMetaConn`. -/
def Call.tx : Call → Bool
  | .meta => false
  | .olap _ _ tx => tx

/-- Whether the call takes the long-running semaphore. -/
def Call.longRunning : Call → Bool
  | .meta => false
  | .olap _ lr _ => lr

/-- Whether the call is an `acquireOLAPConn`. -/
def Call.isOLAP : Call → Bool
  | .meta => false
  | .olap _ _ _ => true

/-- The semaphore step of the two wrappers when it does not fail: `c.metaSem.Acquire(ctx, 1)`
in `acquireMetaConn`, `c.olapSem.Acquire(ctx, priority)` in `acquireOLAPConn`. -/
def semAcquire (c : connection) : Call → Option connection
  | .meta => (c.metaSem.Acquire).map (fun w => { c with metaSem := w })
  | .olap _ _ _ => (c.olapSem.Acquire).map (fun w => { c with olapSem := w })

/-- The release `c.metaSem.Release(1)` in `acquireMetaConn`, `c.olapSem.Release()` in
`acquireOLAPConn`. -/
def semRelease (c : connection) : Call → connection
  | .meta => { c with metaSem := c.metaSem.Release }
  | .olap _ _ _ => { c with olapSem := c.olapSem.Release }

/-- Where a caller stands in `acquireMetaConn` / `acquireOLAPConn`, in `acquireConn` called
from there, and in the release closures they return. -/
inductive Pc where
  /-- Has not called yet. -/
  | idle
  /-- Returned the connection found in the context, with the no-op release. -/
  | bypassed
  /-- In `acquireOLAPConn(ctx, priority, true, tx)`, at
  `c.longRunningSem.Acquire(ctx, 1)`. -/
  | lrAcquire (priority : Int) (tx : Bool)
  /-- At `c.metaSem.Acquire(ctx, 1)` or `c.olapSem.Acquire(ctx, priority)`. -/
  | semAcquire (k : Call)
  /-- In `acquireConn`, about to run the locked loop (first pass, or woken in `Wait`). -/
  | gate (k : Call)
  /-- In `acquireConn`, inside `c.dbCond.Wait()`. -/
  | parked (k : Call)
  /-- In `acquireConn` after `c.dbConnCount++`, at `c.txMu.Lock()` / `c.txMu.RLock()`. -/
  | txLock (k : Call)
  /-- In `acquireConn` holding the write lock, at the transactional `c.reopenDB()`. -/
  | txReopen (k : Call)
  /-- In `acquireConn` holding its side of `txMu`, at `c.db.Connx(ctx)`. -/
  | connx (k : Call)
  /-- The wrapper returned `(conn, release, nil)`; `release` has not been called. -/
  | holding (k : Call)
  /-- In the release closure of `acquireConn`, at `conn.Close()` and `releaseTx()`. -/
  | relClose (k : Call)
  /-- In the release closure of `acquireConn`, at its locked section, with the error of
  `conn.Close()`. -/
  | relGate (k : Call) (err : GoError)
  /-- In a wrapper, at `c.metaSem.Release(1)` / `c.olapSem.Release()`, about to return
  `err` (from the release closure, or after `acquireConn` failed). -/
  | relSem (k : Call) (err : GoError)
  /-- In `acquireOLAPConn`, at `c.longRunningSem.Release(1)`, about to return `err`. -/
  | relLR (err : GoError)
  /-- The call, or its release closure, returned `err`; nothing is held. -/
  | done (err : GoError)
  deriving DecidableEq, Repr

/-- The first blocking operation of a wrapper call that found no connection in its
context: the long-running semaphore for `acquireOLAPConn` with `longRunning`, otherwise the
semaphore of the wrapper. -/
def Call.entry : Call → Pc
  | .olap priority true tx => .lrAcquire priority tx
  | k => .semAcquire k

/-- The shared `connection` and the position of every caller. -/
structure Sys where
  c : connection
  threads : List Pc
  deriving DecidableEq, Repr

/-- What `c.dbCond.Broadcast()` does to one caller: a parked one is woken. -/
def wake : Pc → Pc
  | .parked k => .gate k
  | p => p

/-- The next thing that happens. `r` is the result of the external call made in the step
(context cancellation of a semaphore wait, `reopenDB`, `Connx`, `conn.Close`), when the
step makes one. -/
inductive Action where
  /-- Caller `i` calls a wrapper with arguments `k`; `bypass` says whether its context
  carries a connection. -/
  | start (i : Nat) (k : Call) (bypass : Bool)
  /-- Caller `i` runs up to its next blocking or shared-state operation. -/
  | run (i : Nat) (r : GoError)
  /-- Caller `i` calls the release callback it was given. -/
  | callRelease (i : Nat)
  /-- Somebody calls `c.checkErr(err)`. -/
  | checkErr (err : GoError)
  deriving DecidableEq, Repr

/-- The state after caller `i` moved to `p`, leaving the connection as `c`. -/
def Sys.move (s : Sys) (i : Nat) (c : connection) (p : Pc) : Sys :=
  { c := c, threads := s.threads.set i p }

/-- One step of caller `i` standing at `p`, with external result `r`: the new connection
state, the new position of the caller, and whether `Broadcast` was called. `none` when the
caller cannot move (blocked on a semaphore, on `txMu` or in `Wait`, or not inside a
call). -/
def stepAt (c : connection) (r : GoError) : Pc → Option (connection × Pc × Bool)
  | .lrAcquire priority tx =>
    -- acquireOLAPConn: err := c.longRunningSem.Acquire(ctx, 1); if err != nil return err
    match r with
    | some e => some (c, .done (some e), false)
    | none =>
      (c.longRunningSem.Acquire).map
        (fun w => ({ c with longRunningSem := w }, .semAcquire (.olap priority true tx), false))
  | .semAcquire k =>
    -- err := c.metaSem.Acquire(ctx, 1) / c.olapSem.Acquire(ctx, priority);
    -- on an error the long-running semaphore is released if it was taken
    match r with
    | some e => some (c, if k.longRunning then .relLR (some e) else .done (some e), false)
    | none => (semAcquire c k).map (fun c1 => (c1, .gate k, false))
  | .gate k =>
    -- acquireConn: the locked loop
    match acquireGate c with
    | .failed e => some (c, .relSem k (some e), false)
    | .parked => some (c, .parked k, false)
    | .admitted c1 => some (c1, .txLock k, false)
  | .txLock k =>
    -- acquireConn: c.txMu.Lock() / c.txMu.RLock()
    (lockTx c k.tx).map
      (fun c1 => (c1, if needsTxReopen c1 k.tx then .txReopen k else .connx k, false))
  | .txReopen k =>
    -- acquireConn: err := c.reopenDB(); on an error Unlock and return it
    match txReopen c r with
    | (c1, some e) => some (c1, .relSem k (some e), false)
    | (c1, none) => some (c1, .connx k, false)
  | .connx k =>
    -- acquireConn: conn, err := c.db.Connx(ctx); on an error releaseTx and return it
    match connx c k.tx r with
    | (c1, some e) => some (c1, .relSem k (some e), false)
    | (c1, none) => some (c1, .holding k, false)
  | .relClose k =>
    -- release closure of acquireConn: err := conn.Close(); releaseTx()
    some (releaseTx c k.tx, .relGate k r, false)
  | .relGate k err =>
    -- release closure of acquireConn: the locked section
    let (c1, e) := releaseGate c err r
    some (c1, .relSem k e, decide (c1.broadcasts ≠ c.broadcasts))
  | .relSem k err =>
    -- wrapper: c.metaSem.Release(1) / c.olapSem.Release(), then the long-running
    -- semaphore if it was taken, then return err
    some (semRelease c k, if k.longRunning then .relLR err else .done err, false)
  | .relLR err =>
    -- acquireOLAPConn: c.longRunningSem.Release(1); return err
    some ({ c with longRunningSem := c.longRunningSem.Release }, .done err, false)
  | .idle => none
  | .bypassed => none
  | .parked _ => none
  | .holding _ => none
  | .done _ => none

/-- The transition function of the system; `none` when the action is not possible in the
state. -/
def step (s : Sys) : Action → Option Sys
  | .start i k bypass =>
    match s.threads.get? i with
    | some .idle =>
      -- conn := connFromContext(ctx); if conn != nil return it with a no-op release
      if bypass then some (s.move i s.c .bypassed)
      else some (s.move i s.c k.entry)
    | _ => none
  | .run i r =>
    match s.threads.get? i with
    | some p =>
      match stepAt s.c r p with
      | some (c1, p1, bc) =>
        some { c := c1, threads := ((if bc then s.threads.map wake else s.threads).set i p1) }
      | none => none
    | none => none
  | .callRelease i =>
    match s.threads.get? i with
    | some (.holding k) => some (s.move i s.c (.relClose k))
    | some .bypassed => some (s.move i s.c (.done none))
    | _ => none
  | .checkErr err => some { s with c := (checkErr s.c err).1 }

/-- Run a list of actions; `none` as soon as one of them is not possible. -/
def runActions (s : Sys) : List Action → Option Sys
  | [] => some s
  | a :: as => (step s a).bind (fun s1 => runActions s1 as)

/-- The system right after `Driver.Open` built the connection, with `n` callers that have
not called yet. -/
def Sys.init (cfg : Config) (n : Nat) : Sys :=
  { c := Open cfg, threads := List.replicate n .idle }

/-- The states the system can get to from `Sys.init`. -/
def Reachable (s : Sys) : Prop :=
  ∃ cfg n acts, runActions (Sys.init cfg n) acts = some s

/-- The text `text` begins with the signature `sig`. -/
def beginsWith (text sig : String) : Prop := ∃ rest : String, text = sig ++ rest

/-- The fatal signature of `checkErr` in the words of the specification: the error is not
nil and its text begins with "INTERNAL Error:" or with "FATAL Error". -/
def fatalSignature (err : GoError) : Prop :=
  ∃ e, err = some e ∧ (beginsWith e "INTERNAL Error:" ∨ beginsWith e "FATAL Error")

/-- A file-backed configuration with pool size 3, used for concrete runs. -/
def cfgFile : Config := { DBFilePath := "main.db", PoolSize := 3 }

/-- The smallest Go `int`. -/
def minInt64 : Int := -9223372036854775808

/-- An operation on the gate with no `checkErr` in between: one pass of the loop of
`acquireConn`, or a call of a release closure. -/
inductive GateOp where
  | acquire
  | release (tx : Bool) (closeErr r : GoError)
  deriving DecidableEq, Repr

/-- Whether the operation is a call of a release closure. -/
def GateOp.isRelease : GateOp → Bool
  | .acquire => false
  | .release _ _ _ => true

/-- The state after one gate operation: a pass of the loop changes the state only when it
admits the caller. -/
def gateOp (c : connection) : GateOp → connection
  | .acquire =>
    match acquireGate c with
    | .admitted c1 => c1
    | _ => c
  | .release tx closeErr r => (release c tx closeErr r).1

/-- The state after a list of gate operations. -/
def gateRun (c : connection) (ops : List GateOp) : connection := ops.foldl gateOp c

/-- The sum of a weight over all callers. -/
def total (w : Pc → Nat) (ts : List Pc) : Nat := (ts.map w).sum

/-- Weight 1 for a caller that `c.dbConnCount++` has counted and that has neither failed
inside `acquireConn` nor run the decrement of its release closure. -/
def counted : Pc → Nat
  | .txLock _ => 1
  | .txReopen _ => 1
  | .connx _ => 1
  | .holding _ => 1
  | .relClose _ => 1
  | .relGate _ _ => 1
  | _ => 0

/-- Weight 1 for a caller of `acquireOLAPConn` between the return of
`c.olapSem.Acquire` without error and its `c.olapSem.Release()`. -/
def olapSlot : Pc → Nat
  | .gate k => if k.isOLAP then 1 else 0
  | .parked k => if k.isOLAP then 1 else 0
  | .txLock k => if k.isOLAP then 1 else 0
  | .txReopen k => if k.isOLAP then 1 else 0
  | .connx k => if k.isOLAP then 1 else 0
  | .holding k => if k.isOLAP then 1 else 0
  | .relClose k => if k.isOLAP then 1 else 0
  | .relGate k _ => if k.isOLAP then 1 else 0
  | .relSem k _ => if k.isOLAP then 1 else 0
  | _ => 0

/-- Weight 1 for a caller of `acquireMetaConn` between the return of `c.metaSem.Acquire`
without error and its `c.metaSem.Release(1)`. -/
def metaSlot : Pc → Nat
  | .gate k => if k.isOLAP then 0 else 1
  | .parked k => if k.isOLAP then 0 else 1
  | .txLock k => if k.isOLAP then 0 else 1
  | .txReopen k => if k.isOLAP then 0 else 1
  | .connx k => if k.isOLAP then 0 else 1
  | .holding k => if k.isOLAP then 0 else 1
  | .relClose k => if k.isOLAP then 0 else 1
  | .relGate k _ => if k.isOLAP then 0 else 1
  | .relSem k _ => if k.isOLAP then 0 else 1
  | _ => 0

/-- Weight 1 for a caller of `acquireOLAPConn` with `longRunning` between the return of
`c.longRunningSem.Acquire` without error and its `c.longRunningSem.Release(1)`. -/
def lrSlot : Pc → Nat
  | .semAcquire k => if k.longRunning then 1 else 0
  | .gate k => if k.longRunning then 1 else 0
  | .parked k => if k.longRunning then 1 else 0
  | .txLock k => if k.longRunning then 1 else 0
  | .txReopen k => if k.longRunning then 1 else 0
  | .connx k => if k.longRunning then 1 else 0
  | .holding k => if k.longRunning then 1 else 0
  | .relClose k => if k.longRunning then 1 else 0
  | .relGate k _ => if k.longRunning then 1 else 0
  | .relSem k _ => if k.longRunning then 1 else 0
  | .relLR _ => 1
  | _ => 0

/-- Weight 1 for a caller of `acquireOLAPConn` that was admitted: the call returned a
connection and its release callback has not been called. -/
def admittedOLAP : Pc → Nat
  | .holding k => if k.isOLAP then 1 else 0
  | _ => 0

/-- The invariant of the gate: every caller counted by `counted` is included in
`dbConnCount`, and once `dbErr` is set no caller is counted. -/
def GateInv (s : Sys) : Prop :=
  (total counted s.threads : Int) ≤ s.c.dbConnCount ∧
  (s.c.dbErr ≠ none → total counted s.threads = 0)

/-- A state reached in a concrete run: the only holder saw a fatal error, released, and the
reopen made by its release closure failed with "reopen failed". -/
def sysFailed : Sys :=
  { c := { Open cfgFile with dbErr := some "reopen failed", reopens := 1, broadcasts := 1 }
    threads := [.done (some "reopen failed"), .idle] }

/-- The actions of the run that leads to `sysFailed`. -/
def runToFailed : List Action :=
  [.start 0 .meta false, .run 0 none, .run 0 none, .run 0 none, .run 0 none,
   .checkErr (some "INTERNAL Error: x"), .callRelease 0, .run 0 none,
   .run 0 (some "reopen failed"), .run 0 none]

/-- The invariant of the three semaphores: each one holds exactly one unit for every caller
standing between its acquisition and its release, and the OLAP pool is within its
capacity. -/
def SlotInv (s : Sys) : Prop :=
  s.c.olapSem.held = (total olapSlot s.threads : Int) ∧
  s.c.metaSem.cur = (total metaSlot s.threads : Int) ∧
  s.c.longRunningSem.cur = (total lrSlot s.threads : Int) ∧
  s.c.olapSem.held ≤ s.c.olapSem.size

/-- A state in which no caller has called yet and no semaphore is held; the capacities and
the gate fields are arbitrary. -/
def Quiescent (s : Sys) : Prop :=
  s.threads = List.replicate s.threads.length .idle ∧
  s.c.olapSem.held = 0 ∧ s.c.metaSem.cur = 0 ∧ s.c.longRunningSem.cur = 0

/-- A state in which the last holder (caller 0, a meta call) stands at the locked section
of its release closure while a reopen is pending and caller 1 is parked at the gate. -/
def sysDraining : Sys :=
  { c := { Open cfgFile with
             dbConnCount := 1, dbReopen := true,
             metaSem := { size := 1, cur := 1 }, olapSem := { size := 2, held := 1 } }
    threads := [.relGate .meta none, .parked (.olap 0 false false)] }

/-- The actions of a run in which two `acquireOLAPConn` calls are admitted, the first one
long-running, while a third caller waits for a slot of the pool of capacity 2. -/
def runTwoOLAP : List Action :=
  [.start 0 (.olap 1 true false) false, .run 0 none, .run 0 none, .run 0 none, .run 0 none,
   .run 0 none,
   .start 1 (.olap 5 false false) false, .run 1 none, .run 1 none, .run 1 none, .run 1 none,
   .start 2 (.olap 9 false false) false]

/-- The state at the end of `runTwoOLAP` from `Sys.init cfgFile 3`. -/
def sysTwoOLAP : Sys :=
  { c := { Open cfgFile with
             dbConnCount := 2, txMu := { readers := 2, writer := false },
             olapSem := { size := 2, held := 2 }, longRunningSem := { size := 1, cur := 1 } }
    threads := [.holding (.olap 1 true false), .holding (.olap 5 false false),
                .semAcquire (.olap 9 false false)] }

/-- The number of reopen requests waiting to be served: 1 while `dbReopen` is set. -/
def pending (c : connection) : Nat := if c.dbReopen then 1 else 0

/-- Weight 1 for a caller holding the write side of `txMu`: from `c.txMu.Lock()` granted,
through the transactional reopen and `c.db.Connx`, until `releaseTx()` in its release
closure or on an error path. -/
def writeHolder : Pc → Nat
  | .txReopen _ => 1
  | .connx k => if k.tx then 1 else 0
  | .holding k => if k.tx then 1 else 0
  | .relClose k => if k.tx then 1 else 0
  | _ => 0

/-- Weight 1 for a caller holding the read side of `txMu`: from `c.txMu.RLock()` granted
until `releaseTx()`. -/
def readHolder : Pc → Nat
  | .connx k => if k.tx then 0 else 1
  | .holding k => if k.tx then 0 else 1
  | .relClose k => if k.tx then 0 else 1
  | _ => 0

/-- Weight 1 for a position no call gets to: at the transactional reopen without `tx`. -/
def strayReopen : Pc → Nat
  | .txReopen k => if k.tx then 0 else 1
  | _ => 0

/-- The write side of `txMu` as a number: 1 when held. -/
def writerBit (c : connection) : Nat := if c.txMu.writer then 1 else 0

/-- The invariant of the transaction lock: its write side is held exactly by the callers
counted by `writeHolder` (so by at most one), its read side by those counted by
`readHolder`, never both sides at once, and no caller is at a stray position. -/
def TxInv (s : Sys) : Prop :=
  writerBit s.c = total writeHolder s.threads ∧
  s.c.txMu.readers = total readHolder s.threads ∧
  (s.c.txMu.writer = true → s.c.txMu.readers = 0) ∧
  total strayReopen s.threads = 0

/-- Weight 1 while the caller holds a connection obtained through `acquireConn`: from the
return of `c.db.Connx(ctx)` without error until `conn.Close()` in its release closure. -/
def holdsConn : Pc → Nat
  | .holding _ => 1
  | .relClose _ => 1
  | _ => 0

/-- Every caller standing at the transactional reopen is on a file-backed handle. -/
def FileInv (s : Sys) : Prop :=
  ∀ i k, s.threads.get? i = some (.txReopen k) → s.c.config.DBFilePath ≠ ""

/-- The actions of a run in which caller 0 acquires transactionally on the file-backed
handle and caller 1, a meta call, gets as far as `c.txMu.RLock()`. -/
def runTxHolder : List Action :=
  [.start 0 (.olap 0 false true) false, .run 0 none, .run 0 none, .run 0 none, .run 0 none,
   .run 0 none, .start 1 .meta false, .run 1 none, .run 1 none]

/-- The state at the end of `runTxHolder` from `Sys.init cfgFile 2`. -/
def sysTxHolder : Sys :=
  { c := { Open cfgFile with
             dbConnCount := 2, reopens := 1, txMu := { readers := 0, writer := true },
             olapSem := { size := 2, held := 1 }, metaSem := { size := 1, cur := 1 } }
    threads := [.holding (.olap 0 false true), .txLock .meta] }

/-- The state of `runTxHolder` one step before caller 0 reopens: it holds the write lock
and stands at the transactional `reopenDB`. -/
def sysTxReopen : Sys :=
  { c := { Open cfgFile with
             dbConnCount := 1, txMu := { readers := 0, writer := true },
             olapSem := { size := 2, held := 1 } }
    threads := [.txReopen (.olap 0 false true), .idle] }

/-- A `*sqlx.Conn`, identified by a number. -/
abbrev Conn := Nat

/-- What a call of a wrapper meets outside the `connection`: `ctxConn` is the result of
`connFromContext(ctx)` (a helper that is not among the sources), `lrErr` and `semErr` the
errors with which the cancellable waits for the long-running semaphore and for the
wrapper's semaphore end (nil when the context is not cancelled first), `reopenR` and
`connxR` the results of the transactional `reopenDB` and of `c.db.Connx(ctx)`, and
`newConn` the connection that `Connx` hands out. -/
structure CallEnv where
  ctxConn : Option Conn
  lrErr : GoError
  semErr : GoError
  reopenR : GoError
  connxR : GoError
  newConn : Conn
  deriving DecidableEq, Repr

/-- A release callback returned by a wrapper: the no-op `func() error { return nil }` of
the bypass, or the closure built after `acquireConn` succeeded for the call `k`. -/
inductive Release where
  | noop
  | closure (k : Call)
  deriving DecidableEq, Repr

/-- What a wrapper call came to: it returned `(conn, release, nil)`, it returned
`(nil, nil, err)`, or it is blocked in one of its waits. -/
inductive Returned where
  | ok (conn : Conn) (release : Release)
  | err (e : String)
  | blocked
  deriving DecidableEq, Repr

/-- The part of a wrapper after its semaphore was taken: `acquireConn`, and on an error the
semaphore releases in reverse order. -/
def acquireWrapped (c : connection) (env : CallEnv) (k : Call) : connection × Returned :=
  match acquireConn c k.tx env.reopenR env.connxR with
  | (c1, .err e) =>
    let c2 := semRelease c1 k
    (if k.longRunning then { c2 with longRunningSem := c2.longRunningSem.Release } else c2,
      .err e)
  | (c1, .conn) => (c1, .ok env.newConn (.closure k))
  | (c1, .waitGate) => (c1, .blocked)
  | (c1, .waitTx) => (c1, .blocked)

/-- A call `c.acquireMetaConn(ctx)` run on its own. -/
def acquireMetaConn (c : connection) (env : CallEnv) : connection × Returned :=
  match env.ctxConn with
  | some conn => (c, .ok conn .noop)
  | none =>
    match env.semErr with
    | some e => (c, .err e)
    | none =>
      match semAcquire c .meta with
      | none => (c, .blocked)
      | some c1 => acquireWrapped c1 env .meta

/-- The part of `acquireOLAPConn` from `c.olapSem.Acquire(ctx, priority)` on. -/
def acquireOLAPConn.olap (c : connection) (env : CallEnv) (priority : Int)
    (longRunning tx : Bool) : connection × Returned :=
  match env.semErr with
  | some e =>
    (if longRunning then { c with longRunningSem := c.longRunningSem.Release } else c, .err e)
  | none =>
    match semAcquire c (.olap priority longRunning tx) with
    | none => (c, .blocked)
    | some c1 => acquireWrapped c1 env (.olap priority longRunning tx)

/-- A call `c.acquireOLAPConn(ctx, priority, longRunning, tx)` run on its own. -/
def acquireOLAPConn (c : connection) (env : CallEnv) (priority : Int)
    (longRunning tx : Bool) : connection × Returned :=
  match env.ctxConn with
  | some conn => (c, .ok conn .noop)
  | none =>
    if longRunning then
      match env.lrErr with
      | some e => (c, .err e)
      | none =>
        match c.longRunningSem.Acquire with
        | none => (c, .blocked)
        | some w =>
          acquireOLAPConn.olap { c with longRunningSem := w } env priority longRunning tx
    else acquireOLAPConn.olap c env priority longRunning tx

/-- Calling a release callback: the no-op returns nil; the closure of a wrapper calls
`releaseConn()` (conn.Close() with result `closeErr`, a possible reopen with result `r`),
releases the wrapper's semaphore, then the long-running one if it was taken, and returns
the error of `releaseConn()`. -/
def runRelease (c : connection) (rel : Release) (closeErr r : GoError) :
    connection × GoError :=
  match rel with
  | .noop => (c, none)
  | .closure k =>
    let (c1, err) := release c k.tx closeErr r
    let c2 := semRelease c1 k
    (if k.longRunning then { c2 with longRunningSem := c2.longRunningSem.Release } else c2,
      err)

/-- A call environment whose context carries connection 7. -/
def envBypass : CallEnv :=
  { ctxConn := some 7, lrErr := none, semErr := none, reopenR := none, connxR := none,
    newConn := 8 }

/-- Go `strings.Contains(s, sub)`, on the characters of the two strings. -/
def contains (s sub : String) : Bool := decide (List.IsInfix sub.data s.data)

/-- Go `filepath.Join(a, b)` for a path element `b`: the two joined by the separator. -/
def joinPath (a b : String) : String := if a = "" then b else a ++ "/" ++ b

/-- The configuration read by `Driver.Open` and `reopenDB`: the fields of `config` used
there, on top of those the gate reads. -/
structure OpenConfig extends Config where
  DSN : String
  AllowHostAccess : Bool
  ErrorOnIncompatibleVersion : Bool
  ExtTableStorage : Bool
  ExtStoragePath : String
  deriving DecidableEq, Repr

/-- The helpers of package `duckdb` called by `reopenDB` that are not among the sources
(`safeSQLString`, `safeSQLName`, `dbName`), and the `%q` verb of `fmt`, taken as given
functions. -/
structure Helpers where
  safeSQLString : String → String
  safeSQLName : String → String
  dbName : String → String → String
  quote : String → String

/-- What the code does to the file system and to the engine, in the order it does it. -/
inductive Effect where
  /-- Go `os.Stat(path)`. -/
  | stat (path : String)
  /-- Go `os.Remove(path)`. -/
  | remove (path : String)
  /-- Go `os.RemoveAll(path)`. -/
  | removeAll (path : String)
  /-- Go `os.Mkdir(path, fs.ModePerm)`. -/
  | mkdir (path : String)
  /-- The call `c.db.Close()`. -/
  | closeDB
  /-- The call `duckdb.NewConnector(dsn, ...)` with the boot queries of its callback. -/
  | newConnector (dsn : String) (bootQueries : List String)
  /-- The calls `otelsql.OpenDB`, `sqlx.NewDb` and `db.SetMaxOpenConns(n)`. -/
  | openDB (maxOpenConns : Int)
  /-- The call `Connx(context.Background())` on the handle. -/
  | connx
  /-- The call `conn.Close()` on the connection so obtained. -/
  | connClose
  /-- Go `os.ReadDir(path)`. -/
  | readDir (path : String)
  /-- The call `c.tableVersion(name)`, which reads the version marker of a table. -/
  | tableVersion (name : String)
  /-- The call `conn.ExecContext(context.Background(), sql)`. -/
  | exec (sql : String)
  deriving DecidableEq, Repr

/-- What `c.tableVersion(name)` returns (the helper is not among the sources): an error,
no marker (`exist` false), or the version named by the marker. -/
inductive Marker where
  | unreadable (err : String)
  | absent
  | version (v : String)
  deriving DecidableEq, Repr

/-- An entry of the storage root as `reopenDB` meets it: its name, whether it is a
directory, what `tableVersion` returns for it, whether the backing file named by its marker
exists (which the code never looks at), and what the engine answers to its ATTACH. -/
structure DirEntry where
  name : String
  isDir : Bool
  marker : Marker
  hasBackingFile : Bool
  attachErr : GoError
  deriving DecidableEq, Repr

/-- The statement `fmt.Sprintf("ATTACH %s AS %s", safeSQLString(dbFile), safeSQLName(db))`
that `reopenDB` issues for table `name` at version `v`, with
`dbFile = <root>/<name>/<v>.db` and `db = dbName(name, v)`. -/
def attachStmt (h : Helpers) (root name v : String) : String :=
  "ATTACH " ++ h.safeSQLString (joinPath (joinPath root name) (v ++ ".db")) ++ " AS " ++
    h.safeSQLName (h.dbName name v)

/-- The statement `fmt.Sprintf("DROP VIEW IF EXISTS %s", safeSQLName(name))`. -/
def dropViewStmt (h : Helpers) (name : String) : String :=
  "DROP VIEW IF EXISTS " ++ h.safeSQLName name

/-- One pass of the loop of `reopenDB` over the storage root, for the entry `e`. -/
def attachEntry (h : Helpers) (root : String) (e : DirEntry) : List Effect :=
  if !e.isDir then []
  else
    match e.marker with
    | .unreadable _ => [.tableVersion e.name, .removeAll (joinPath root e.name)]
    | .absent => [.tableVersion e.name, .removeAll (joinPath root e.name)]
    | .version v =>
      match e.attachErr with
      | none => [.tableVersion e.name, .exec (attachStmt h root e.name v)]
      | some _ =>
        [.tableVersion e.name, .exec (attachStmt h root e.name v),
         .exec (dropViewStmt h e.name), .removeAll (joinPath root e.name)]

/-- The loop `for _, entry := range entries` of `reopenDB`. -/
def scanEntries (h : Helpers) (root : String) : List DirEntry → List Effect
  | [] => []
  | e :: es => attachEntry h root e ++ scanEntries h root es

/-- The list `bootQueries` of `reopenDB`. -/
def bootQueries (cfg : OpenConfig) : List String :=
  ["INSTALL 'json'", "LOAD 'json'", "INSTALL 'icu'", "LOAD 'icu'", "INSTALL 'parquet'",
   "LOAD 'parquet'", "INSTALL 'httpfs'", "LOAD 'httpfs'", "INSTALL 'sqlite'",
   "LOAD 'sqlite'", "SET max_expression_depth TO 250", "SET timezone='UTC'"] ++
  (if !cfg.AllowHostAccess then ["SET preserve_insertion_order TO false"] else [])

/-- The error `reopenDB` returns when `duckdb.NewConnector` fails with text `err`. -/
def connectorError (h : Helpers) (cfg : OpenConfig) (err : String) : String :=
  if contains err "Trying to read a database file with version number" then
    "database file " ++ h.quote cfg.DSN ++
      " was created with an older, incompatible version of Rill (please remove it and try again)"
  else if contains err "Could not set lock on file" then
    "failed to open database (is Rill already running?): " ++ err
  else err

/-- What one call of `reopenDB` meets outside: the results of `c.db.Close()`, of
`duckdb.NewConnector`, of `db.Connx` and of `os.ReadDir(c.config.ExtStoragePath)`. -/
structure ReopenEnv where
  closeErr : GoError
  connectorErr : GoError
  connxErr : GoError
  readDir : Except String (List DirEntry)

/-- The outcome of one call of `reopenDB`: what it did, the error it returns, and whether
`c.db` is non-nil afterwards. -/
structure ReopenOut where
  effects : List Effect
  err : GoError
  dbOpen : Bool

/-- The storage recovery at the end of `reopenDB`, run in external-table-storage mode after
the new handle is in place. -/
def storageRecovery (h : Helpers) (cfg : OpenConfig) (env : ReopenEnv) :
    List Effect × GoError :=
  match env.connxErr with
  | some e => ([.connx], some e)
  | none =>
    match env.readDir with
    | .error e => ([.connx, .readDir cfg.ExtStoragePath, .connClose], some e)
    | .ok entries =>
      ([.connx, .readDir cfg.ExtStoragePath] ++ scanEntries h cfg.ExtStoragePath entries ++
        [.connClose], none)

/-- The part of `reopenDB` from `duckdb.NewConnector` on, with what was done before. -/
def reopenDB.connect (h : Helpers) (cfg : OpenConfig) (env : ReopenEnv)
    (done : List Effect) : ReopenOut :=
  match env.connectorErr with
  | some e =>
    { effects := done ++ [.newConnector cfg.DSN (bootQueries cfg)],
      err := some (connectorError h cfg e), dbOpen := false }
  | none =>
    let opened := done ++ [.newConnector cfg.DSN (bootQueries cfg), .openDB cfg.PoolSize]
    if !cfg.ExtTableStorage then { effects := opened, err := none, dbOpen := true }
    else
      let (fx, err) := storageRecovery h cfg env
      { effects := opened ++ fx, err := err, dbOpen := true }

/-- A call of `c.reopenDB()` in full, where `dbOpen` says whether `c.db` is non-nil at the
call. -/
def reopenDB.steps (h : Helpers) (cfg : OpenConfig) (dbOpen : Bool) (env : ReopenEnv) :
    ReopenOut :=
  if dbOpen then
    match env.closeErr with
    | some e => { effects := [.closeDB], err := some e, dbOpen := true }
    | none => reopenDB.connect h cfg env [.closeDB]
  else reopenDB.connect h cfg env []

/-- The size `100*int64(datasize.MB)` of `Driver.Open`, in bytes (`datasize.MB` is
`1 << 20`). -/
def walThreshold : Int := 100 * 1048576

/-- The clean-up at the head of `Driver.Open`, where `walStat` is the size reported by
`os.Stat(walPath)`, or `none` when `Stat` returns an error. -/
def walHygiene (cfg : OpenConfig) (walStat : Option Int) : List Effect :=
  if cfg.DBFilePath != "" then
    [.removeAll (cfg.DBFilePath ++ ".tmp"), .stat (cfg.DBFilePath ++ ".wal")] ++
      (match walStat with
       | some size =>
         if size >= walThreshold then [.remove (cfg.DBFilePath ++ ".wal")] else []
       | none => [])
  else []

/-- What `Driver.Open` meets outside: the result of `os.Stat` on the `.wal` file, the
error of `os.Mkdir` with whether it is `fs.ErrExist`, what the first and the second
`reopenDB` meet, and the result of the `c.db.Connx` made at the end. -/
structure OpenEnv where
  walStat : Option Int
  mkdirErr : Option (String × Bool)
  first : ReopenEnv
  second : ReopenEnv
  probeErr : GoError

/-- How `Driver.Open` ends: it returns the handle, it returns an error, or it calls
`os.Exit(1)`. -/
inductive Opened where
  | handle
  | err (e : String)
  | exit
  deriving DecidableEq, Repr

/-- The removals `Driver.Open` makes before it opens a second time. -/
def resetFiles (cfg : OpenConfig) : List Effect :=
  [.removeAll (cfg.DBFilePath ++ ".tmp"), .remove (cfg.DBFilePath ++ ".wal"),
   .remove cfg.DBFilePath]

/-- The end of `Driver.Open` after a successful `reopenDB`: the `c.db.Connx` made to
report unsupported macOS versions. -/
def Driver.Open.probe (probeErr : GoError) : List Effect × Opened :=
  match probeErr with
  | some e => if contains e "Symbol not found" then ([.connx], .exit) else ([.connx], .err e)
  | none => ([.connx, .connClose], .handle)

/-- The part of `Driver.Open` from the first `c.reopenDB()` on. -/
def Driver.Open.reopen (h : Helpers) (cfg : OpenConfig) (env : OpenEnv) :
    List Effect × Opened :=
  let out1 := reopenDB.steps h cfg false env.first
  match out1.err with
  | none =>
    let (fx, res) := Driver.Open.probe env.probeErr
    (out1.effects ++ fx, res)
  | some e =>
    if cfg.ErrorOnIncompatibleVersion ||
        !contains e "created with an older, incompatible version of Rill" then
      (out1.effects, .err e)
    else
      let out2 := reopenDB.steps h cfg out1.dbOpen env.second
      match out2.err with
      | some e2 => (out1.effects ++ resetFiles cfg ++ out2.effects, .err e2)
      | none =>
        let (fx, res) := Driver.Open.probe env.probeErr
        (out1.effects ++ resetFiles cfg ++ out2.effects ++ fx, res)

/-- The method `Driver.Open` in full: `newConfig` is the result of `newConfig(cfgMap)` (not
among the sources). Returns what it did and how it ended. -/
def Driver.Open (h : Helpers) (shared : Bool) (newConfig : Except String OpenConfig)
    (env : OpenEnv) : List Effect × Opened :=
  if shared then ([], .err "duckdb driver can't be shared")
  else
    match newConfig with
    | .error e => ([], .err e)
    | .ok cfg =>
      let hygiene := walHygiene cfg env.walStat
      if cfg.ExtTableStorage then
        match env.mkdirErr with
        | some (e, false) => (hygiene ++ [.mkdir cfg.ExtStoragePath], .err e)
        | _ =>
          let (fx, res) := Driver.Open.reopen h cfg env
          (hygiene ++ [.mkdir cfg.ExtStoragePath] ++ fx, res)
      else
        let (fx, res) := Driver.Open.reopen h cfg env
        (hygiene ++ fx, res)

/-- Sample helpers for concrete runs: quoting with single or double quotes and a database
name made of table name and version. -/
def sampleHelpers : Helpers :=
  { safeSQLString := fun s => "'" ++ s ++ "'"
    safeSQLName := fun s => "\"" ++ s ++ "\""
    dbName := fun name v => name ++ "_" ++ v
    quote := fun s => "\"" ++ s ++ "\"" }

/-- A file-backed configuration with external table storage under `/data/main`. -/
def cfgExt : OpenConfig :=
  { DBFilePath := "/data/main.db", PoolSize := 4, DSN := "/data/main.db?max_memory=4GB",
    AllowHostAccess := false, ErrorOnIncompatibleVersion := false,
    ExtTableStorage := true, ExtStoragePath := "/data/main" }

/-- A `reopenDB` environment in which every call succeeds and the storage root is empty. -/
def envQuiet : ReopenEnv :=
  { closeErr := none, connectorErr := none, connxErr := none, readDir := .ok [] }

/-- A table directory whose marker names version 1700000000000 but whose backing file is
missing, and to whose ATTACH the engine answers without error (it creates the file). -/
def entryMissingFile : DirEntry :=
  { name := "orders", isDir := true, marker := .version "1700000000000",
    hasBackingFile := false, attachErr := none }

/-- A table directory with a marker and its backing file, written by an engine version the
current one cannot read: the ATTACH fails. -/
def entryOldFormat : DirEntry :=
  { name := "events", isDir := true, marker := .version "1600000000000",
    hasBackingFile := true, attachErr := some "IO Error: unsupported storage version" }

/-- A table directory without a version marker. -/
def entryOrphan : DirEntry :=
  { name := "orphan", isDir := true, marker := .absent, hasBackingFile := false,
    attachErr := none }

/-- A table directory with a marker and a backing file that the engine attaches. -/
def entryGood : DirEntry :=
  { name := "users", isDir := true, marker := .version "1700000000001",
    hasBackingFile := true, attachErr := none }

/-- An `Open` environment whose first open fails on a file that is not a database. -/
def envCorrupt : OpenEnv :=
  { walStat := none, mkdirErr := none,
    first := { envQuiet with connectorErr := some "IO Error: not a valid DuckDB file" },
    second := envQuiet, probeErr := none }

/-- The text of an engine error with the version-mismatch signature. -/
def versionMismatch : String :=
  "IO Error: Trying to read a database file with version number 39"

/-- An `Open` environment whose first open fails with the version-mismatch signature and
whose second open fails as well. -/
def envIncompatible : OpenEnv :=
  { walStat := none, mkdirErr := none,
    first := { envQuiet with connectorErr := some versionMismatch },
    second := { envQuiet with connectorErr := some "IO Error: disk full" },
    probeErr := none }

/-- A connection state with one live connection and a reopen pending. -/
def connPending : connection := { Open cfgFile with dbConnCount := 1, dbReopen := true }

/-- Modelled from the spec: a "PriorityWaiter", an admission request blocked on the full
OLAP pool, carrying the caller and its integer priority. -/
structure Waiter where
  caller : Nat
  priority : Int
  deriving DecidableEq, Repr

/-- Modelled from the spec: `priorityqueue.Semaphore` with its wait queue (package
`runtime/pkg/priorityqueue`, not among the sources), "a blocking counting admission
primitive whose wait queue is priority-ordered, not FIFO": the free slots and the blocked
waiters in order of arrival, earliest first. -/
structure PrioritySemaphore where
  free : Nat
  waiters : List Waiter
  deriving DecidableEq, Repr

/-- Modelled from the spec: `priorityqueue.NewSemaphore(size)` with its wait queue. -/
def PrioritySemaphore.new (size : Nat) : PrioritySemaphore := { free := size, waiters := [] }

/-- Modelled from the spec: "the highest-priority blocked waiter is admitted, ties broken
by earliest arrival": the waiter chosen from a queue in arrival order. -/
def nextWaiter : List Waiter → Option Waiter
  | [] => none
  | w :: ws =>
    match nextWaiter ws with
    | none => some w
    | some b => if b.priority ≤ w.priority then some w else some b

/-- Modelled from the spec: `Semaphore.Acquire(ctx, priority)` by `caller`: a free slot is
taken at once (`true`), otherwise the caller joins the wait queue (`false`). -/
def PrioritySemaphore.Acquire (s : PrioritySemaphore) (caller : Nat) (priority : Int) :
    PrioritySemaphore × Bool :=
  if 0 < s.free then ({ s with free := s.free - 1 }, true)
  else ({ s with waiters := s.waiters ++ [{ caller := caller, priority := priority }] }, false)

/-- Modelled from the spec: `Semaphore.Release()`: "when a slot frees, the highest-priority
blocked waiter is admitted"; with nobody waiting the slot becomes free. Returns the waiter
admitted, if any. -/
def PrioritySemaphore.Release (s : PrioritySemaphore) : PrioritySemaphore × Option Waiter :=
  match nextWaiter s.waiters with
  | none => ({ s with free := s.free + 1 }, none)
  | some w => ({ s with waiters := s.waiters.erase w }, some w)

/-- The call `c.olapSem.Acquire(ctx, priority)` that `acquireOLAPConn` makes for `caller`,
on the pool with its wait queue: the priority is the one the wrapper was called with.
`acquireMetaConn` does not use this pool. -/
def olapSemAcquire (s : PrioritySemaphore) (caller : Nat) : Call → PrioritySemaphore × Bool
  | .olap priority _ _ => s.Acquire caller priority
  | .meta => (s, true)

/-- The OLAP pool of capacity 1 after caller 0 took the slot and callers 1 (priority 1)
and 2 (priority 5) called `acquireOLAPConn` in this order. -/
def poolTwoWaiters : PrioritySemaphore :=
  (olapSemAcquire
    (olapSemAcquire
      (olapSemAcquire (PrioritySemaphore.new 1) 0 (.olap 0 false false)).1
      1 (.olap 1 false false)).1
    2 (.olap 5 true false)).1

/-- The regular files of the file system that `Driver.Drop` works on: the path and the
contents of each. -/
structure FileSystem where
  files : List (String × String)
  deriving DecidableEq, Repr

/-- Whether a file exists at `path`. -/
def FileSystem.has (fs : FileSystem) (path : String) : Bool :=
  fs.files.any (fun f => f.1 == path)

/-- Go `os.WriteFile(path, data, perm)` when it succeeds: the file at `path` now holds
`data`. -/
def os.WriteFile (fs : FileSystem) (path data : String) : FileSystem :=
  { files := (path, data) :: fs.files.filter (fun f => f.1 != path) }

/-- Go `os.Remove(path)` on a file: `fail` is the error the operating system answers with
when it refuses (nil when it does not); a file that is not there is an error as well.
The file is gone exactly when nil is returned. -/
def os.Remove (fs : FileSystem) (path : String) (fail : GoError) : FileSystem × GoError :=
  match fail with
  | some e => (fs, some e)
  | none =>
    if fs.has path then ({ files := fs.files.filter (fun f => f.1 != path) }, none)
    else (fs, some ("remove " ++ path ++ ": no such file or directory"))

/-- Whether `file` is `path` itself or lies in the directory `path`. -/
def under (path file : String) : Bool := file == path || hasPrefix file (path ++ "/")

/-- Go `os.RemoveAll(path)`: removes `path` and everything below it and returns nil, also
when there is nothing at `path`. When the operating system refuses (`fail` not nil) the
files below `path` chosen by `kept` are still there. -/
def os.RemoveAll (fs : FileSystem) (path : String) (fail : GoError) (kept : String → Bool) :
    FileSystem × GoError :=
  match fail with
  | some e => ({ files := fs.files.filter (fun f => !under path f.1 || kept f.1) }, some e)
  | none => ({ files := fs.files.filter (fun f => !under path f.1) }, none)

/-- What `Driver.Drop` meets outside: the answers of the operating system to the removal
of the external storage directory, of the database file, of its `.wal` file and of its
`.tmp` directory, and the files a refused `os.RemoveAll` leaves behind. -/
structure DropEnv where
  extErr : GoError
  dbErr : GoError
  walErr : GoError
  tmpErr : GoError
  kept : String → Bool

/-- The method `Driver.Drop`: `newConfig` is the result of `newConfig(cfgMap)` (not among
the sources). Returns what it did, the file system it leaves, and the error it returns. -/
def Driver.Drop (newConfig : Except String OpenConfig) (env : DropEnv) (fs : FileSystem) :
    List Effect × FileSystem × GoError :=
  match newConfig with
  | .error e => ([], fs, some e)
  | .ok cfg =>
    if cfg.ExtStoragePath != "" then
      let (fs1, err) := os.RemoveAll fs cfg.ExtStoragePath env.extErr env.kept
      ([.removeAll cfg.ExtStoragePath], fs1, err)
    else if cfg.DBFilePath != "" then
      match os.Remove fs cfg.DBFilePath env.dbErr with
      | (fs1, some e) => ([.remove cfg.DBFilePath], fs1, some e)
      | (fs1, none) =>
        -- Hacky approach to remove the wal file; also remove the temp dir
        let fs2 := (os.Remove fs1 (cfg.DBFilePath ++ ".wal") env.walErr).1
        let fs3 := (os.RemoveAll fs2 (cfg.DBFilePath ++ ".tmp") env.tmpErr env.kept).1
        ([.remove cfg.DBFilePath, .remove (cfg.DBFilePath ++ ".wal"),
          .removeAll (cfg.DBFilePath ++ ".tmp")], fs3, none)
    else ([], fs, none)

/-- A file-backed configuration without external table storage. -/
def cfgPlain : OpenConfig :=
  { DBFilePath := "/data/main.db", PoolSize := 4, DSN := "/data/main.db",
    AllowHostAccess := true, ErrorOnIncompatibleVersion := false, ExtTableStorage := false,
    ExtStoragePath := "" }

/-- A file system whose database file can no longer be opened, with a `.wal` file and a
file in the `.tmp` directory next to it. -/
def fsCorrupted : FileSystem :=
  { files := [("/data/main.db", "corrupted"), ("/data/main.db.wal", "w"),
              ("/data/main.db.tmp/spill", "t"), ("/data/other.db", "o")] }

/-- An operating system that refuses to remove the `.wal` file and the `.tmp` directory. -/
def envSideFailures : DropEnv :=
  { extErr := none, dbErr := none, walErr := some "permission denied",
    tmpErr := some "permission denied", kept := fun _ => true }

/-- The three things an OLAP acquisition holds, in the order `acquireOLAPConn` asks for
them: a slot of the long-running semaphore, a slot of the OLAP semaphore, and the
connection of `acquireConn`. -/
inductive Stage where
  | longRunning
  | olap
  | conn
  deriving DecidableEq, Repr

/-- A stage is taken (a unit of a semaphore, or a unit of `dbConnCount` in `acquireConn`),
or it is given back. -/
inductive StageEvent where
  | acquire (s : Stage)
  | release (s : Stage)
  deriving DecidableEq, Repr

/-- The callback that `reopenDB` hands to `duckdb.NewConnector`, run over the list
`bootQueries`: `exec qry` is what `execer.ExecContext(context.Background(), qry, nil)`
returns for the statement (each statement of the list is run at most once). Returns the
statements that were run and the error of the callback. -/
def bootCallback (exec : String → GoError) : List String → List String × GoError
  | [] => ([], none)
  | qry :: rest =>
    match exec qry with
    | some e => ([qry], some e)
    | none => (qry :: (bootCallback exec rest).1, (bootCallback exec rest).2)

/-- An engine that fails to load the `icu` extension. -/
def execNoICU (qry : String) : GoError :=
  if qry = "LOAD 'icu'" then some "IO Error: Extension icu not found" else none

/-- The dialects of `drivers.Dialect` that `queries` tells apart: DuckDB, Druid, and any
other value of the type. -/
inductive Dialect where
  | DuckDB
  | Druid
  | other (code : Nat)
  deriving DecidableEq, Repr

/-- The values of the enum `runtimev1.TimeGrain`. -/
inductive TimeGrain where
  | UNSPECIFIED
  | MILLISECOND
  | SECOND
  | MINUTE
  | HOUR
  | DAY
  | WEEK
  | MONTH
  | QUARTER
  | YEAR
  deriving DecidableEq, Repr

/-- The values of the enum `runtimev1.BuiltinMeasure`; `unknown` is any number that is
none of the three named ones. -/
inductive BuiltinMeasure where
  | UNSPECIFIED
  | COUNT
  | COUNT_DISTINCT
  | unknown (code : Int)
  deriving DecidableEq, Repr

/-- A `structpb.Value`, as far as the query builder looks at it. -/
inductive Value where
  | string (s : String)
  | number (n : Int)
  | null
  deriving DecidableEq, Repr

/-- The method `GetStringValue` of `structpb.Value`: the string of a string value, the
empty string for every other kind. -/
def Value.GetStringValue : Value → String
  | .string s => s
  | _ => ""

/-- A `timestamppb.Timestamp`. -/
structure Timestamp where
  seconds : Int
  nanos : Int
  deriving DecidableEq, Repr

/-- An element of the `[]any` argument list that goes with a SQL text. -/
inductive Arg where
  | str (s : String)
  | time (t : Timestamp)
  | value (v : Value)
  deriving DecidableEq, Repr

/-- The fields of `runtimev1.MetricsView` that the builder and its helpers read: the model,
the time dimension, and the named dimensions and measures with their column and
expression. -/
structure MetricsView where
  Model : String
  TimeDimension : String
  Dimensions : List (String × String)
  Measures : List (String × String)
  deriving DecidableEq, Repr

/-- A `runtimev1.MetricsViewAggregationDimension`. -/
structure MetricsViewAggregationDimension where
  Name : String
  TimeGrain : Duckdb.TimeGrain
  TimeZone : String
  deriving DecidableEq, Repr

/-- A `runtimev1.MetricsViewAggregationMeasure`. -/
structure MetricsViewAggregationMeasure where
  Name : String
  BuiltinMeasure : Duckdb.BuiltinMeasure
  BuiltinMeasureArgs : List Value
  deriving DecidableEq, Repr

/-- A `runtimev1.MetricsViewAggregationSort`. -/
structure MetricsViewAggregationSort where
  Name : String
  Desc : Bool
  deriving DecidableEq, Repr

/-- A `runtimev1.MetricsViewFilter`: the include and the exclude conditions, each a name
with its values. -/
structure MetricsViewFilter where
  Include : List (String × List Value)
  Exclude : List (String × List Value)
  deriving DecidableEq, Repr

/-- The fields of the query `MetricsViewAggregation` that `buildMetricsAggregationSQL` and
`buildTimestampExpr` read. -/
structure MetricsViewAggregation where
  Dimensions : List MetricsViewAggregationDimension
  Measures : List MetricsViewAggregationMeasure
  /-- The field `Sort` of the query (a reserved word here). -/
  Sorting : List MetricsViewAggregationSort
  TimeStart : Option Timestamp
  TimeEnd : Option Timestamp
  Filter : Option MetricsViewFilter
  Limit : Option Int
  Offset : Int
  MetricsView : Duckdb.MetricsView
  deriving DecidableEq, Repr

/-- The helpers of package `queries` and of its imports that the builder calls and that are
not among the sources, taken as given functions: `safeName`,
`metricsViewDimensionToSafeColumn`, `metricsViewMeasureExpression`,
`convertToDateTruncSpecifier`, `convertToDruidTimeFloorSpecifier`,
`buildFilterClauseForMetricsViewFilter` (with the security policy it is handed), and the
texts that the verbs of `fmt` give for a builtin measure (`String()`), for a value (`%v`)
and for a dialect (`%q`). -/
structure SQLHelpers where
  safeName : String → String
  metricsViewDimensionToSafeColumn : MetricsView → String → Except String String
  metricsViewMeasureExpression : MetricsView → String → Except String String
  convertToDateTruncSpecifier : TimeGrain → String
  convertToDruidTimeFloorSpecifier : TimeGrain → String
  buildFilterClauseForMetricsViewFilter :
    MetricsView → MetricsViewFilter → Dialect → Except String (String × List Arg)
  measureString : BuiltinMeasure → String
  showValue : Value → String
  quoteDialect : Dialect → String

/-- Go `strings.Join(elems, sep)`. -/
def strings.Join : List String → String → String
  | [], _ => ""
  | [a], _ => a
  | a :: b :: rest, sep => a ++ sep ++ strings.Join (b :: rest) sep

/-- The head of `buildTimestampExpr`: the name of the time dimension of the metrics view
itself, or the column that `metricsViewDimensionToSafeColumn` finds for the dimension. -/
def buildTimestampExpr.colName (h : SQLHelpers) (q : MetricsViewAggregation)
    (dim : MetricsViewAggregationDimension) : Except String String :=
  if dim.Name = q.MetricsView.TimeDimension then .ok dim.Name
  else h.metricsViewDimensionToSafeColumn q.MetricsView dim.Name

/-- The method `buildTimestampExpr`: the truncation expression of a time dimension with
its arguments, or an error. -/
def buildTimestampExpr (h : SQLHelpers) (q : MetricsViewAggregation)
    (dim : MetricsViewAggregationDimension) (dialect : Dialect) :
    Except String (String × List Arg) :=
  match buildTimestampExpr.colName h q dim with
  | .error e => .error e
  | .ok colName =>
    match dialect with
    | .DuckDB =>
      if dim.TimeZone = "" ∨ dim.TimeZone = "UTC" then
        .ok ("date_trunc('" ++ h.convertToDateTruncSpecifier dim.TimeGrain ++ "', " ++
          h.safeName colName ++ ")", [])
      else
        .ok ("timezone(?, date_trunc('" ++ h.convertToDateTruncSpecifier dim.TimeGrain ++
          "', timezone(?, " ++ h.safeName colName ++ "::TIMESTAMPTZ)))",
          [.str dim.TimeZone, .str dim.TimeZone])
    | .Druid =>
      if dim.TimeZone = "" ∨ dim.TimeZone = "UTC" then
        .ok ("date_trunc('" ++ h.convertToDateTruncSpecifier dim.TimeGrain ++ "', " ++
          h.safeName colName ++ ")", [])
      else
        .ok ("time_floor(" ++ h.safeName colName ++ ", '" ++
          h.convertToDruidTimeFloorSpecifier dim.TimeGrain ++
          "', null, CAST(? AS VARCHAR)))", [.str dim.TimeZone])
    | .other _ => .error ("unsupported dialect " ++ h.quoteDialect dialect)

/-- The loop of `buildMetricsAggregationSQL` over `q.Dimensions`, from the select columns,
group columns and arguments collected so far. -/
def dimensionCols (h : SQLHelpers) (q : MetricsViewAggregation) (mv : MetricsView)
    (dialect : Dialect) :
    List MetricsViewAggregationDimension → List String → List String → List Arg →
      Except String (List String × List String × List Arg)
  | [], selectCols, groupCols, args => .ok (selectCols, groupCols, args)
  | d :: ds, selectCols, groupCols, args =>
    if d.TimeGrain = .UNSPECIFIED then
      -- Handle regular dimensions
      match h.metricsViewDimensionToSafeColumn mv d.Name with
      | .error e => .error e
      | .ok col =>
        dimensionCols h q mv dialect ds (selectCols ++ [col ++ " as " ++ h.safeName d.Name])
          (groupCols ++ [col]) args
    else
      -- Handle time dimension
      match buildTimestampExpr h q d dialect with
      | .error e => .error e
      | .ok (expr, exprArgs) =>
        dimensionCols h q mv dialect ds (selectCols ++ [expr ++ " as " ++ h.safeName d.Name])
          (groupCols ++ [expr]) (args ++ exprArgs)

/-- The loop of `buildMetricsAggregationSQL` over `q.Measures`, from the select columns
collected so far. -/
def measureCols (h : SQLHelpers) (mv : MetricsView) :
    List MetricsViewAggregationMeasure → List String → Except String (List String)
  | [], selectCols => .ok selectCols
  | m :: ms, selectCols =>
    match m.BuiltinMeasure with
    | .UNSPECIFIED =>
      match h.metricsViewMeasureExpression mv m.Name with
      | .error e => .error e
      | .ok expr => measureCols h mv ms (selectCols ++ [expr ++ " as " ++ h.safeName m.Name])
    | .COUNT => measureCols h mv ms (selectCols ++ ["COUNT(*) as " ++ h.safeName m.Name])
    | .COUNT_DISTINCT =>
      match m.BuiltinMeasureArgs with
      | [v] =>
        let arg := v.GetStringValue
        if arg = "" then
          .error ("builtin measure '" ++ h.measureString m.BuiltinMeasure ++
            "' expects non-empty string argument, got '" ++ h.showValue v ++ "'")
        else
          measureCols h mv ms
            (selectCols ++
              ["COUNT(DISTINCT " ++ h.safeName arg ++ ") as " ++ h.safeName m.Name])
      | _ =>
        .error ("builtin measure '" ++ h.measureString m.BuiltinMeasure ++
          "' expects 1 argument")
    | .unknown code => .error ("unknown builtin measure '" ++ toString code ++ "'")

/-- The sort criterion that `buildMetricsAggregationSQL` builds for one element of
`q.Sort`. -/
def sortCriterion (h : SQLHelpers) (dialect : Dialect) (s : MetricsViewAggregationSort) :
    String :=
  h.safeName s.Name ++ (if s.Desc then " DESC" else "") ++
    (if dialect = .DuckDB then " NULLS LAST" else "")

/-- The time range part of the where clause of `buildMetricsAggregationSQL`, with its
arguments. -/
def timeRangeClause (h : SQLHelpers) (q : MetricsViewAggregation) (mv : MetricsView) :
    String × List Arg :=
  if mv.TimeDimension ≠ "" then
    let (w1, a1) : String × List Arg :=
      match q.TimeStart with
      | some t => (" AND " ++ h.safeName mv.TimeDimension ++ " >= ?", [.time t])
      | none => ("", [])
    match q.TimeEnd with
    | some t => (w1 ++ " AND " ++ h.safeName mv.TimeDimension ++ " < ?", a1 ++ [.time t])
    | none => (w1, a1)
  else ("", [])

/-- The limit clause of `buildMetricsAggregationSQL`: a limit of 0 is read as 100. -/
def limitClause (q : MetricsViewAggregation) : String :=
  match q.Limit with
  | some l => "LIMIT " ++ toString (if l = 0 then 100 else l)
  | none => ""

/-- The method `buildMetricsAggregationSQL`: the SQL text and its arguments, or an
error. -/
def buildMetricsAggregationSQL (h : SQLHelpers) (q : MetricsViewAggregation)
    (mv : MetricsView) (dialect : Dialect) : Except String (String × List Arg) :=
  if q.Dimensions.length = 0 ∧ q.Measures.length = 0 then
    .error "no dimensions or measures specified"
  else
    match dimensionCols h q mv dialect q.Dimensions [] [] [] with
    | .error e => .error e
    | .ok (selectCols0, groupCols, args0) =>
      match measureCols h mv q.Measures selectCols0 with
      | .error e => .error e
      | .ok selectCols =>
        let groupClause :=
          if groupCols.length > 0 then "GROUP BY " ++ strings.Join groupCols ", " else ""
        let (where1, args1) := timeRangeClause h q mv
        let filtered : Except String (String × List Arg) :=
          match q.Filter with
          | some f =>
            match h.buildFilterClauseForMetricsViewFilter mv f dialect with
            | .error e => .error e
            | .ok (clause, clauseArgs) => .ok (where1 ++ " " ++ clause, args1 ++ clauseArgs)
          | none => .ok (where1, args1)
        match filtered with
        | .error e => .error e
        | .ok (where2, args2) =>
          let whereClause := if where2.length > 0 then "WHERE 1=1" ++ where2 else where2
          let sortingCriteria := q.Sorting.map (sortCriterion h dialect)
          let orderClause :=
            if sortingCriteria.length > 0 then "ORDER BY " ++ strings.Join sortingCriteria ", "
            else ""
          .ok ("SELECT " ++ strings.Join selectCols ", " ++ " FROM " ++ h.safeName mv.Model ++
            " " ++ whereClause ++ " " ++ groupClause ++ " " ++ orderClause ++ " " ++
            limitClause q ++ " OFFSET " ++ toString q.Offset, args0 ++ args2)

/-- The number of `?` placeholders in a SQL text. -/
def placeholders (sql : String) : Nat := sql.data.count '?'

/-- The nesting depth after reading the characters of a text from depth `d`: `none` when
a closing parenthesis comes with nothing open. -/
def parenDepth : List Char → Nat → Option Nat
  | [], d => some d
  | c :: cs, d =>
    if c = '(' then parenDepth cs (d + 1)
    else if c = ')' then
      match d with
      | 0 => none
      | d + 1 => parenDepth cs d
    else parenDepth cs d

/-- A text has balanced parentheses: every closing one closes an open one, and none is
left open. -/
def balanced (s : String) : Prop := parenDepth s.data 0 = some 0

instance (s : String) : Decidable (balanced s) := by
  unfold balanced
  infer_instance

/-- Sample helpers of the query builder: names in double quotes, the column of a dimension
and the expression of a measure looked up in the metrics view. -/
def sampleSQLHelpers : SQLHelpers :=
  { safeName := fun s => "\"" ++ s ++ "\""
    metricsViewDimensionToSafeColumn := fun mv name =>
      match mv.Dimensions.lookup name with
      | some col => .ok ("\"" ++ col ++ "\"")
      | none => .error ("dimension '" ++ name ++ "' not found")
    metricsViewMeasureExpression := fun mv name =>
      match mv.Measures.lookup name with
      | some expr => .ok expr
      | none => .error ("measure '" ++ name ++ "' not found")
    convertToDateTruncSpecifier := fun g =>
      match g with
      | .HOUR => "HOUR"
      | .DAY => "DAY"
      | _ => "MONTH"
    convertToDruidTimeFloorSpecifier := fun g =>
      match g with
      | .HOUR => "PT1H"
      | .DAY => "P1D"
      | _ => "P1M"
    buildFilterClauseForMetricsViewFilter := fun _ _ _ => .ok ("", [])
    measureString := fun _ => "BUILTIN_MEASURE"
    showValue := fun _ => "value"
    quoteDialect := fun _ => "\"unspecified\"" }

/-- A metrics view over the model `ad_bids` with time dimension `timestamp`. -/
def mvAdBids : MetricsView :=
  { Model := "ad_bids", TimeDimension := "timestamp",
    Dimensions := [("publisher", "publisher"), ("domain", "domain")],
    Measures := [("bid_price", "avg(bid_price)")] }

/-- The time dimension `timestamp` truncated to days in the zone of Copenhagen. -/
def dimCopenhagen : MetricsViewAggregationDimension :=
  { Name := "timestamp", TimeGrain := .DAY, TimeZone := "Europe/Copenhagen" }

/-- An aggregation by day in the zone of Copenhagen, without measures, filter, time range,
sort or limit. -/
def queryByDay : MetricsViewAggregation :=
  { Dimensions := [dimCopenhagen], Measures := [], Sorting := [], TimeStart := none,
    TimeEnd := none, Filter := none, Limit := none, Offset := 0, MetricsView := mvAdBids }

/-- The number of arguments that `buildTimestampExpr` returns for a dimension: none for a
regular dimension and for a time dimension in the empty zone or in UTC, otherwise two for
DuckDB and one for Druid. -/
def zoneArgs (dialect : Dialect) (d : MetricsViewAggregationDimension) : Nat :=
  if d.TimeGrain = .UNSPECIFIED then 0
  else if d.TimeZone = "" ∨ d.TimeZone = "UTC" then 0
  else
    match dialect with
    | .DuckDB => 2
    | .Druid => 1
    | .other _ => 0

/-- The identifiers of a query contain no `?`: the texts that the helpers give for the
names, columns, expressions and grains the builder asks them about have no placeholder. -/
structure QuestionFree (h : SQLHelpers) (q : MetricsViewAggregation) (mv : MetricsView) :
    Prop where
  model : placeholders (h.safeName mv.Model) = 0
  timeDimension : placeholders (h.safeName mv.TimeDimension) = 0
  dimName : ∀ d ∈ q.Dimensions, placeholders (h.safeName d.Name) = 0
  dimColumn : ∀ d ∈ q.Dimensions, ∀ c,
    h.metricsViewDimensionToSafeColumn mv d.Name = .ok c → placeholders c = 0
  timeColumn : ∀ d ∈ q.Dimensions, ∀ c,
    buildTimestampExpr.colName h q d = .ok c → placeholders (h.safeName c) = 0
  truncSpecifier : ∀ d ∈ q.Dimensions,
    placeholders (h.convertToDateTruncSpecifier d.TimeGrain) = 0
  floorSpecifier : ∀ d ∈ q.Dimensions,
    placeholders (h.convertToDruidTimeFloorSpecifier d.TimeGrain) = 0
  measureName : ∀ m ∈ q.Measures, placeholders (h.safeName m.Name) = 0
  measureExpr : ∀ m ∈ q.Measures, ∀ e,
    h.metricsViewMeasureExpression mv m.Name = .ok e → placeholders e = 0
  measureArg : ∀ m ∈ q.Measures, ∀ v ∈ m.BuiltinMeasureArgs,
    placeholders (h.safeName v.GetStringValue) = 0
  sortName : ∀ s ∈ q.Sorting, placeholders (h.safeName s.Name) = 0

/-- The SQL text built for `queryByDay` on DuckDB. -/
def sqlByDay : String :=
  "SELECT timezone(?, date_trunc('DAY', timezone(?, \"timestamp\"::TIMESTAMPTZ))) as \"timestamp\" FROM \"ad_bids\"  GROUP BY timezone(?, date_trunc('DAY', timezone(?, \"timestamp\"::TIMESTAMPTZ)))   OFFSET 0"

/-- A `*vertex[K, V]`: the index of the vertex in the heap of the DAG. -/
abbrev Ptr := Nat

/-- The struct `vertex[K, V]` of package `dag2`. A Go map is the list of its entries, each
key once; the maps `parents` and `children` hold pointers. -/
structure vertex (K V : Type) where
  val : V
  /-- True if added directly, false if only referenced by other vertices. -/
  present : Bool
  parents : List (K × Ptr)
  children : List (K × Ptr)
  deriving DecidableEq, Repr

/-- The struct `DAG[K, V]` of package `dag2`, with the vertices its maps point to: `heap`
holds every vertex allocated so far, and a pointer is an index into it. -/
structure DAG (K V : Type) where
  hash : V → K
  vertices : List (K × Ptr)
  heap : List (vertex K V)

/-- How a call on a DAG ends: it returns, it panics, or (in `visit` only) the recursion
depth allowed to it is used up before it returns. -/
inductive Run (α : Type) where
  | ok (a : α)
  | panic
  | timeout
  deriving DecidableEq, Repr

/-- Go `m[k] = a` on a map: the entry of `k` is replaced, or a new entry is added. -/
def mapSet {K α : Type} [DecidableEq K] : List (K × α) → K → α → List (K × α)
  | [], k, a => [(k, a)]
  | (k1, a1) :: rest, k, a =>
    if k1 = k then (k, a) :: rest else (k1, a1) :: mapSet rest k a

/-- Go `delete(m, k)` on a map. -/
def mapDelete {K α : Type} [DecidableEq K] (m : List (K × α)) (k : K) : List (K × α) :=
  m.filter (fun e => decide (e.1 ≠ k))

/-- Go `v, ok := m[k]` on a map. -/
def mapGet {K α : Type} [DecidableEq K] : List (K × α) → K → Option α
  | [], _ => none
  | (k1, a1) :: rest, k => if k1 = k then some a1 else mapGet rest k

/-- Go `dag2.New(hash)`. -/
def DAG.New {K V : Type} (hash : V → K) : DAG K V :=
  { hash := hash, vertices := [], heap := [] }

/-- The vertex a pointer points to. -/
def DAG.deref {K V : Type} (d : DAG K V) (p : Ptr) : Option (vertex K V) := d.heap.get? p

/-- Go `v, ok := d.vertices[k]`: the pointer stored for the key and the vertex it points
to. -/
def DAG.lookup {K V : Type} [DecidableEq K] (d : DAG K V) (k : K) :
    Option (Ptr × vertex K V) :=
  match mapGet d.vertices k with
  | none => none
  | some p => (d.deref p).map (fun v => (p, v))

/-- An assignment to the fields of the vertex behind the pointer `p`. -/
def DAG.modify {K V : Type} (d : DAG K V) (p : Ptr) (f : vertex K V → vertex K V) :
    DAG K V :=
  match d.heap.get? p with
  | none => d
  | some v => { d with heap := d.heap.set p (f v) }

/-- Go `d.vertices[k] = p`. -/
def DAG.setVertex {K V : Type} [DecidableEq K] (d : DAG K V) (k : K) (p : Ptr) : DAG K V :=
  { d with vertices := mapSet d.vertices k p }

/-- Go `delete(d.vertices, k)`. -/
def DAG.deleteVertex {K V : Type} [DecidableEq K] (d : DAG K V) (k : K) : DAG K V :=
  { d with vertices := mapDelete d.vertices k }

/-- Go `&vertex[K, V]{val: val}`: a new vertex, with the pointer to it. -/
def DAG.alloc {K V : Type} (d : DAG K V) (val : V) : DAG K V × Ptr :=
  ({ d with heap := d.heap ++ [{ val := val, present := false, parents := [], children := [] }] },
    d.heap.length)

/-- The error `ErrSkip` of package `dag2`; `errors.Is(err, ErrSkip)` is the comparison of
the texts. -/
def ErrSkip : String := "dag: skip"

/-- The error `ErrStop` of package `dag2`. -/
def ErrStop : String := "dag: stop"

/-- The loop `for ck, c := range v.children` of `visit` over the entries `cs`. `fn` is the
visitor with the state it works on, `visited` the keys `k` with `visited[k]` set, and `rec`
the recursive call `d.visit(c, visited, fn)`, which is `none` when it does not return. A
pointer that points nowhere (there is none in a DAG) is passed over. Returns the keys
visited, the state of the visitor and the error. -/
def visitChildren {K V σ : Type} [DecidableEq K] (heap : List (vertex K V))
    (fn : σ → K → V → σ × GoError)
    (rec : List (K × Ptr) → List K → σ → Option (List K × σ × GoError)) :
    List (K × Ptr) → List K → σ → Option (List K × σ × GoError)
  | [], visited, s => some (visited, s, none)
  | (ck, c) :: rest, visited, s =>
    if ck ∈ visited then visitChildren heap fn rec rest visited s
    else
      match heap.get? c with
      | none => visitChildren heap fn rec rest visited s
      | some cv =>
        match fn s ck cv.val with
        | (s1, none) =>
          match rec cv.children (ck :: visited) s1 with
          | none => none
          | some (visited2, s2, none) => visitChildren heap fn rec rest visited2 s2
          | some (visited2, s2, some e) =>
            if e = ErrSkip then visitChildren heap fn rec rest visited2 s2
            else some (visited2, s2, some e)
        | (s1, some e) =>
          if e = ErrSkip then visitChildren heap fn rec rest (ck :: visited) s1
          else some (ck :: visited, s1, some e)

/-- The method `visit`, on the children of the vertex it is called with, allowed `depth`
nested calls: `none` when that depth does not suffice. -/
def visit {K V σ : Type} [DecidableEq K] (heap : List (vertex K V))
    (fn : σ → K → V → σ × GoError) :
    Nat → List (K × Ptr) → List K → σ → Option (List K × σ × GoError)
  | 0 => fun _ _ _ => none
  | depth + 1 => visitChildren heap fn (visit heap fn depth)

/-- The keys of all child entries in the heap. -/
def childKeys {K V : Type} (heap : List (vertex K V)) : List K :=
  heap.flatMap (fun v => v.children.map Prod.fst)

/-- The depth allowed to `visit` in a call from `Visit` or `Add`: one more than the number
of child entries in the heap. -/
def DAG.depth {K V : Type} (d : DAG K V) : Nat := (childKeys d.heap).length + 1

/-- The method `Visit`: `fn` is the visitor with the state `s` it starts from. Returns the
state the visitor leaves and the error of `Visit`. -/
def DAG.Visit {K V σ : Type} [DecidableEq K] (d : DAG K V) (val : V)
    (fn : σ → K → V → σ × GoError) (s : σ) : Run (σ × GoError) :=
  match d.lookup (d.hash val) with
  | none => .panic
  | some (_, v) =>
    if !v.present then .panic
    else if v.children.length = 0 then .ok (s, none)
    else
      match visit d.heap fn d.depth v.children [] s with
      | none => .timeout
      | some (_, s1, err) => .ok (s1, err)

/-- The method `Descendents`. -/
def DAG.Descendents {K V : Type} [DecidableEq K] (d : DAG K V) (val : V) : Run (List V) :=
  match d.Visit val (fun (children : List V) _ v => (children ++ [v], none)) [] with
  | .ok (children, _) => .ok children
  | .panic => .panic
  | .timeout => .timeout

/-- An entry of the map `parents` that `Add` builds before it links: a vertex found in
`d.vertices`, or a new vertex `&vertex[K, V]{val: pv}` that is not in the DAG yet. -/
inductive ParentRef (V : Type) where
  | found (p : Ptr)
  | fresh (val : V)
  deriving DecidableEq, Repr

/-- The loop of `Add` that builds the map `parents` (not linked yet). -/
def DAG.buildParents {K V : Type} [DecidableEq K] (d : DAG K V) :
    List V → List (K × ParentRef V) → List (K × ParentRef V)
  | [], parents => parents
  | pv :: rest, parents =>
    let pk := d.hash pv
    match mapGet d.vertices pk with
    | some p => d.buildParents rest (mapSet parents pk (.found p))
    | none => d.buildParents rest (mapSet parents pk (.fresh pv))

/-- The new vertices of the map `parents` are put on the heap: the map with a pointer for
every entry. -/
def DAG.allocParents {K V : Type} (d : DAG K V) :
    List (K × ParentRef V) → DAG K V × List (K × Ptr)
  | [] => (d, [])
  | (pk, .found p) :: rest =>
    let (d1, ps) := d.allocParents rest
    (d1, (pk, p) :: ps)
  | (pk, .fresh pv) :: rest =>
    let (d1, p) := d.alloc pv
    let (d2, ps) := d1.allocParents rest
    (d2, (pk, p) :: ps)

/-- The loop `for pk, p := range parents` at the end of `Add`, for the vertex `v` with
key `k`. -/
def DAG.linkParents {K V : Type} [DecidableEq K] (d : DAG K V) (k : K) (v : Ptr) :
    List (K × Ptr) → DAG K V
  | [] => d
  | (pk, p) :: rest =>
    -- d.vertices[pk] = p; p.children[k] = v
    ((d.setVertex pk p).modify p
      (fun pv => { pv with children := mapSet pv.children k v })).linkParents k v rest

/-- The cycle check of `Add` for a vertex with children `cs`: whether `visit` finds a
descendant whose key is in the map `parents`; `none` when `visit` does not return. -/
def DAG.findsCycle {K V : Type} [DecidableEq K] (d : DAG K V) (cs : List (K × Ptr))
    (parents : List (K × ParentRef V)) : Option Bool :=
  (visit d.heap
    (fun (_ : Bool) ck _ =>
      if (mapGet parents ck).isSome then (true, some ErrStop) else (false, none))
    d.depth cs [] false).map (fun r => r.2.1)

/-- The method `Add`: returns its result and the DAG it leaves. -/
def DAG.Add {K V : Type} [DecidableEq K] (d : DAG K V) (val : V) (parentVals : List V) :
    Run (Bool × DAG K V) :=
  let k := d.hash val
  let stored := d.lookup k
  let v : vertex K V :=
    match stored with
    | some (_, v) => v
    | none => { val := val, present := false, parents := [], children := [] }
  if v.present then .panic
  else
    -- the pointer v, on the heap now if the vertex is new
    let place (d0 : DAG K V) : DAG K V × Ptr :=
      match stored with
      | some (p, _) => (d0, p)
      | none => d0.alloc val
    if parentVals.length = 0 then
      -- If no parents, no need to link or check for cyclic refs.
      let (d1, vp) := place d
      .ok (true, (d1.setVertex k vp).modify vp (fun v => { v with present := true }))
    else
      let parents := d.buildParents parentVals []
      -- Check for cycles (there may be existing non-present references to it).
      let cyclic : Option Bool :=
        if v.children.length > 0 then d.findsCycle v.children parents else some false
      match cyclic with
      | none => .timeout
      | some true => .ok (false, d)
      | some false =>
        -- Link everything
        let (d1, vp) := place d
        let (d2, ps) := d1.allocParents parents
        let d3 := (d2.setVertex k vp).modify vp
          (fun v => { v with present := true, parents := ps })
        .ok (true, d3.linkParents k vp ps)

/-- The loop `for pk, p := range v.parents` of `Remove`, for the vertex with key `k`. -/
def DAG.unlinkParents {K V : Type} [DecidableEq K] (d : DAG K V) (k : K) :
    List (K × Ptr) → DAG K V
  | [] => d
  | (pk, p) :: rest =>
    match d.deref p with
    | none => d.unlinkParents k rest
    | some pv =>
      if pv.children.length = 1 ∧ pv.present = false then
        (d.deleteVertex pk).unlinkParents k rest
      else
        (d.modify p (fun pv => { pv with children := mapDelete pv.children k })).unlinkParents
          k rest

/-- The method `Remove`: returns the DAG it leaves. -/
def DAG.Remove {K V : Type} [DecidableEq K] (d : DAG K V) (val : V) : Run (DAG K V) :=
  let k := d.hash val
  match d.lookup k with
  | none => .panic
  | some (vp, v) =>
    if !v.present then .panic
    else
      let d1 := d.unlinkParents k v.parents
      match d1.deref vp with
      | none => .ok d1
      | some v1 =>
        if v1.children.length > 0 then .ok (d1.modify vp (fun v => { v with present := false }))
        else .ok (d1.deleteVertex k)

/-- The method `Roots`. -/
def DAG.Roots {K V : Type} (d : DAG K V) : List V :=
  d.vertices.filterMap (fun e =>
    match d.deref e.2 with
    | none => none
    | some v => if v.present ∧ v.parents.length = 0 then some v.val else none)

/-- The method `Parents`. -/
def DAG.Parents {K V : Type} [DecidableEq K] (d : DAG K V) (val : V) (present : Bool) :
    Run (List V) :=
  match d.lookup (d.hash val) with
  | none => .panic
  | some (_, v) =>
    if !v.present then .panic
    else
      .ok (v.parents.filterMap (fun e =>
        match d.deref e.2 with
        | none => none
        | some p => if !present ∨ p.present then some p.val else none))

/-- The method `Children`. -/
def DAG.Children {K V : Type} [DecidableEq K] (d : DAG K V) (val : V) : Run (List V) :=
  match d.lookup (d.hash val) with
  | none => .panic
  | some (_, v) =>
    if !v.present then .panic
    else .ok (v.children.filterMap (fun e => (d.deref e.2).map (fun c => c.val)))

/-- A call that changes the DAG: `Add(val, parentVals...)` or `Remove(val)`. -/
inductive DagCall (V : Type) where
  | Add (val : V) (parentVals : List V)
  | Remove (val : V)
  deriving DecidableEq, Repr

/-- A sequence of calls of `Add` and `Remove` on a DAG: the results of the calls of `Add`
and the DAG that is left, or the panic of the first call that panics. -/
def DAG.calls {K V : Type} [DecidableEq K] (d : DAG K V) :
    List (DagCall V) → Run (List Bool × DAG K V)
  | [] => .ok ([], d)
  | .Add val parentVals :: rest =>
    match d.Add val parentVals with
    | .ok (b, d1) =>
      match d1.calls rest with
      | .ok (bs, d2) => .ok (b :: bs, d2)
      | .panic => .panic
      | .timeout => .timeout
    | .panic => .panic
    | .timeout => .timeout
  | .Remove val :: rest =>
    match d.Remove val with
    | .ok d1 => d1.calls rest
    | .panic => .panic
    | .timeout => .timeout

/-- The edges of the graph a DAG stands for: from the key of every vertex in `d.vertices`
to the key of each of its children. -/
def DAG.edges {K V : Type} (d : DAG K V) : List (K × K) :=
  d.vertices.flatMap (fun e =>
    match d.deref e.2 with
    | none => []
    | some v => v.children.map (fun c => (e.1, c.1)))

/-- The number of keys of child entries in the heap that are not among the visited ones:
what bounds the depth of the calls of `visit`. -/
def unvisited {K V : Type} [DecidableEq K] (heap : List (vertex K V)) (visited : List K) :
    Nat :=
  ((childKeys heap).toFinset \ visited.toFinset).card

/-- The test `ok && v.present` that `Add`, `Remove`, `Parents`, `Children` and `Visit` make
on the key of their argument. -/
def DAG.isPresent {K V : Type} [DecidableEq K] (d : DAG K V) (k : K) : Bool :=
  match d.lookup k with
  | some (_, v) => v.present
  | none => false

/-- Whether a call panicked. -/
def Run.isPanic {α : Type} : Run α → Bool
  | .panic => true
  | _ => false

/-- The result of a call of `Add`, when it returned. -/
def Run.result {α β : Type} : Run (α × β) → Option α
  | .ok (a, _) => some a
  | _ => none

/-- The DAG that a call, or a sequence of calls, leaves. -/
def Run.dag {α K V : Type} : Run (α × DAG K V) → Option (DAG K V)
  | .ok (_, d) => some d
  | _ => none

/-- The empty DAG over the numbers, each its own key. -/
def dagEmpty : DAG Nat Nat := DAG.New id

/-- Vertex 1 added with itself as its only parent, then added again without parents. -/
def callsSelfParent : List (DagCall Nat) := [.Add 1 [1], .Add 1 []]

/-- Vertex 1, vertex 2 below it, vertex 3 below vertex 2; then vertex 2 is removed and
added again without parents. -/
def callsReAdd : List (DagCall Nat) :=
  [.Add 1 [], .Add 2 [1], .Add 3 [2], .Remove 2, .Add 2 []]

/-- Vertex 2 below the reference 1, vertex 3 below vertex 2; vertex 2 is removed, vertex 1
added, vertex 2 added again without parents and removed again. -/
def callsStaleParent : List (DagCall Nat) :=
  [.Add 2 [1], .Add 3 [2], .Remove 2, .Add 1 [], .Add 2 [], .Remove 2]

/-- The DAG with vertex 1 added below the reference 2. -/
def dagOneEdge : DAG Nat Nat :=
  { hash := id
    vertices := [(1, 0), (2, 1)]
    heap := [{ val := 1, present := true, parents := [(2, 1)], children := [] },
             { val := 2, present := false, parents := [], children := [(1, 0)] }] }

/-- The DAG that a sequence of calls on the empty DAG leaves (the empty DAG when one of
them does not return). -/
def dagAfter (cs : List (DagCall Nat)) : DAG Nat Nat :=
  match dagEmpty.calls cs with
  | .ok (_, d) => d
  | _ => dagEmpty

/-- Vertex 1 is stored twice: the vertex added below vertex 5 (with vertex 6 below it) loses
its entry in the map of vertices when vertex 2, added again without parents, is removed
through its stale parents map; vertex 1 is then added anew below vertex 7, with vertex 8
below it. Vertices 5 and 7 are the children of vertex 9. -/
def callsAliasedKey : List (DagCall Nat) :=
  [.Add 2 [1], .Add 3 [2], .Remove 2, .Add 9 [], .Add 5 [9], .Add 1 [5], .Add 6 [1],
   .Add 2 [], .Remove 2, .Add 7 [9], .Add 1 [7], .Add 8 [1]]

/-- The DAG after the first three calls of `callsAliasedKey`: vertex 2 is a reference with
vertex 3 below it, and the vertex it was added below is no longer in the map of vertices. -/
def dagAliased3 : DAG Nat Nat :=
  { hash := id
    vertices := [(2, 0), (3, 2)]
    heap := [{ val := 2, present := false, parents := [(1, 1)], children := [(3, 2)] },
             { val := 1, present := false, parents := [], children := [(2, 0)] },
             { val := 3, present := true, parents := [(2, 0)], children := [] }] }

/-- The DAG after the first six calls of `callsAliasedKey`: vertex 1 is below vertex 5 and
vertex 5 below vertex 9. -/
def dagAliased6 : DAG Nat Nat :=
  { hash := id
    vertices := [(2, 0), (3, 2), (9, 3), (5, 4), (1, 5)]
    heap := [{ val := 2, present := false, parents := [(1, 1)], children := [(3, 2)] },
             { val := 1, present := false, parents := [], children := [(2, 0)] },
             { val := 3, present := true, parents := [(2, 0)], children := [] },
             { val := 9, present := true, parents := [], children := [(5, 4)] },
             { val := 5, present := true, parents := [(9, 3)], children := [(1, 5)] },
             { val := 1, present := true, parents := [(5, 4)], children := [] }] }

/-- The DAG after the first nine calls of `callsAliasedKey`: vertex 1, still a child of
vertex 5 and with vertex 6 below it, is no longer in the map of vertices. -/
def dagAliased9 : DAG Nat Nat :=
  { hash := id
    vertices := [(2, 0), (3, 2), (9, 3), (5, 4), (6, 6)]
    heap := [{ val := 2, present := false, parents := [(1, 1)], children := [(3, 2)] },
             { val := 1, present := false, parents := [], children := [(2, 0)] },
             { val := 3, present := true, parents := [(2, 0)], children := [] },
             { val := 9, present := true, parents := [], children := [(5, 4)] },
             { val := 5, present := true, parents := [(9, 3)], children := [(1, 5)] },
             { val := 1, present := true, parents := [(5, 4)], children := [(6, 6)] },
             { val := 6, present := true, parents := [(1, 5)], children := [] }] }

/-- The DAG after all calls of `callsAliasedKey`: two vertices with key 1, one below vertex
5 and one below vertex 7. -/
def dagAliased : DAG Nat Nat :=
  { hash := id
    vertices := [(2, 0), (3, 2), (9, 3), (5, 4), (6, 6), (7, 7), (1, 8), (8, 9)]
    heap := [{ val := 2, present := false, parents := [(1, 1)], children := [(3, 2)] },
             { val := 1, present := false, parents := [], children := [(2, 0)] },
             { val := 3, present := true, parents := [(2, 0)], children := [] },
             { val := 9, present := true, parents := [], children := [(5, 4), (7, 7)] },
             { val := 5, present := true, parents := [(9, 3)], children := [(1, 5)] },
             { val := 1, present := true, parents := [(5, 4)], children := [(6, 6)] },
             { val := 6, present := true, parents := [(1, 5)], children := [] },
             { val := 7, present := true, parents := [(9, 3)], children := [(1, 8)] },
             { val := 1, present := true, parents := [(7, 7)], children := [(8, 9)] },
             { val := 8, present := true, parents := [(1, 8)], children := [] }] }

/-- The stages that one step takes or gives back, read off the connection before and after
it: a unit of `longRunningSem`, a slot of `olapSem`, a unit of `dbConnCount`. -/
def stageChange (c c1 : connection) : List StageEvent :=
  (if c1.longRunningSem.cur - c.longRunningSem.cur = 1 then [.acquire .longRunning] else []) ++
  (if c1.olapSem.held - c.olapSem.held = 1 then [.acquire .olap] else []) ++
  (if c1.dbConnCount - c.dbConnCount = 1 then [.acquire .conn] else []) ++
  (if c.dbConnCount - c1.dbConnCount = 1 then [.release .conn] else []) ++
  (if c.olapSem.held - c1.olapSem.held = 1 then [.release .olap] else []) ++
  (if c.longRunningSem.cur - c1.longRunningSem.cur = 1 then [.release .longRunning] else [])

/-- A caller running with nobody else moving: from the position `p` it takes the steps of
`stepAt`, one for each of the external results given, until it cannot move. Returns the
stages taken and given back, in the order of the steps, the connection it leaves and the
position it stops at. -/
def soloRun (c : connection) (p : Pc) : List GoError → List StageEvent × connection × Pc
  | [] => ([], c, p)
  | r :: rs =>
    match stepAt c r p with
    | none => ([], c, p)
    | some (c1, p1, _) => (stageChange c c1 ++ (soloRun c1 p1 rs).1, (soloRun c1 p1 rs).2)

/-- The external results that a call `acquireOLAPConn(ctx, priority, longRunning, tx)` in
the environment `env` meets, one for each step up to its return: the wait for the
long-running semaphore (if requested), the wait for the OLAP semaphore, the gate and the
lock (which ask nothing outside), the transactional reopen (if the call makes one),
`c.db.Connx(ctx)`, and the releases of an error path (which ask nothing outside). -/
def soloResults (c : connection) (env : CallEnv) (longRunning tx : Bool) : List GoError :=
  (if longRunning then [env.lrErr] else []) ++ [env.semErr, none, none] ++
    (if needsTxReopen c tx then [env.reopenR] else []) ++ [env.connxR, none, none]

/-- What a wrapper call has come to when its caller stands at a position: it returned the
connection with the release closure, it returned the error, or it is blocked. -/
def returnedAt (env : CallEnv) : Pc → Returned
  | .holding k => .ok env.newConn (.closure k)
  | .done (some e) => .err e
  | _ => .blocked

/-- The stages taken on the way into an OLAP acquisition, when none fails. -/
def stagesTaken (longRunning : Bool) : List StageEvent :=
  (if longRunning then [.acquire .longRunning] else []) ++ [.acquire .olap, .acquire .conn]

/-- A call environment without a connection in the context in which `c.db.Connx(ctx)`
fails because the context was cancelled. -/
def envConnxCancelled : CallEnv :=
  { ctxConn := none, lrErr := none, semErr := none, reopenR := none,
    connxR := some "context canceled", newConn := 8 }

/-- The long-running slot among the stages taken: there when the call asked for it. -/
def lrTaken (longRunning : Bool) : List StageEvent :=
  if longRunning then [.acquire .longRunning] else []

/-- The long-running slot among the stages given back: there when the call asked for it. -/
def lrBack (longRunning : Bool) : List StageEvent :=
  if longRunning then [.release .longRunning] else []

/-! ## Theorems -/

theorem hasPrefix_iff_beginsWith (s p : String) :
    hasPrefix s p = true ↔ beginsWith s p := by
  unfold hasPrefix beginsWith
  rw [List.isPrefixOf_iff_prefix]
  constructor
  · rintro ⟨t, ht⟩
    exact ⟨⟨t⟩, String.ext (by simp [String.data_append, ht])⟩
  · rintro ⟨rest, rfl⟩
    exact ⟨rest.data, by simp [String.data_append]⟩

theorem checkErr_fatal (c : connection) (err : GoError) (h : fatalSignature err) :
    checkErr c err = ({ c with dbReopen := true }, err) := by
  obtain ⟨e, rfl, h⟩ := h
  have : (hasPrefix e "INTERNAL Error:" || hasPrefix e "FATAL Error") = true := by
    rw [Bool.or_eq_true, hasPrefix_iff_beginsWith, hasPrefix_iff_beginsWith]; exact h
  simp only [checkErr, this, if_true]

theorem checkErr_not_fatal (c : connection) (err : GoError) (h : ¬ fatalSignature err) :
    checkErr c err = (c, err) := by
  cases err with
  | none => rfl
  | some e =>
    have : (hasPrefix e "INTERNAL Error:" || hasPrefix e "FATAL Error") = false := by
      rw [Bool.eq_false_iff]
      intro hh
      rw [Bool.or_eq_true, hasPrefix_iff_beginsWith, hasPrefix_iff_beginsWith] at hh
      exact h ⟨e, rfl, hh⟩
    simp only [checkErr, this]
    rfl

theorem fatalSignature_example : fatalSignature (some "FATAL Error: corrupt") :=
  ⟨_, rfl, Or.inr ((hasPrefix_iff_beginsWith _ _).1 (by decide))⟩

/-- C7: `checkErr` is the reference definition of the specification on every input. It
returns its argument unchanged; on an error with the fatal signature (non-nil, text
beginning with "INTERNAL Error:" or "FATAL Error") the state it leaves is the old one with
`dbReopen` set to true; on every other input, nil included, the state is left exactly as it
was. -/
theorem checkErr_reference (c : connection) (err : GoError) :
    (checkErr c err).2 = err ∧
    (fatalSignature err → (checkErr c err).1 = { c with dbReopen := true }) ∧
    (¬ fatalSignature err → (checkErr c err).1 = c) := by
  refine ⟨?_, fun h => ?_, fun h => ?_⟩
  · by_cases h : fatalSignature err
    · rw [checkErr_fatal c err h]
    · rw [checkErr_not_fatal c err h]
  · rw [checkErr_fatal c err h]
  · rw [checkErr_not_fatal c err h]

theorem wrapInt64_of_range (x : Int) (h1 : -2 ^ 63 ≤ x) (h2 : x < 2 ^ 63) : wrapInt64 x = x := by
  unfold wrapInt64
  omega

theorem olapSemSize_eq (cfg : Config) (h1 : minInt64 < cfg.PoolSize) (h2 : cfg.PoolSize < 2 ^ 63) :
    olapSemSize cfg = max (cfg.PoolSize - 1) 1 := by
  unfold minInt64 at h1
  have : wrapInt64 (cfg.PoolSize - 1) = cfg.PoolSize - 1 := wrapInt64_of_range _ (by omega) (by omega)
  simp only [olapSemSize, this]
  split <;> omega

/-- C10, as amended: for every configured pool size `n` above the smallest Go `int`,
`Driver.Open` builds the OLAP pool with capacity `max (n - 1) 1`, the meta pool with
capacity 1 and the long-running pool with capacity 1, all of them with nothing held. -/
theorem Open_pool_sizes (cfg : Config) (h1 : minInt64 < cfg.PoolSize) (h2 : cfg.PoolSize < 2 ^ 63) :
    (Open cfg).olapSem = { size := max (cfg.PoolSize - 1) 1, held := 0 } ∧
    (Open cfg).metaSem = { size := 1, cur := 0 } ∧
    (Open cfg).longRunningSem = { size := 1, cur := 0 } := by
  simp [Open, NewSemaphore, NewWeighted, olapSemSize_eq cfg h1 h2]

/-- C10, witness: pool size 0 gives an OLAP pool of capacity 1. -/
theorem Open_pool_sizes_witness :
    (minInt64 < (0 : Int) ∧ (0 : Int) < 2 ^ 63) ∧
    (Open { DBFilePath := "", PoolSize := 0 }).olapSem = { size := 1, held := 0 } ∧
    (Open { DBFilePath := "", PoolSize := 0 }).metaSem = { size := 1, cur := 0 } ∧
    (Open { DBFilePath := "", PoolSize := 0 }).longRunningSem = { size := 1, cur := 0 } :=
  ⟨by decide, Open_pool_sizes { DBFilePath := "", PoolSize := 0 } (by decide) (by decide)⟩

/-- C10, counterexample: for the smallest Go `int` as pool size, `cfg.PoolSize - 1`
wraps around to the largest `int`, which is not below 1, so the OLAP pool gets capacity
9223372036854775807 and not `max (n - 1) 1 = 1`. -/
theorem Open_minInt64_counterexample :
    (Open { DBFilePath := "", PoolSize := minInt64 }).olapSem.size = 9223372036854775807 ∧
    (Open { DBFilePath := "", PoolSize := minInt64 }).olapSem.size ≠ max (minInt64 - 1) 1 := by
  decide

theorem releaseGate_drain (c : connection) (err r : GoError)
    (h : c.dbConnCount - 1 = 0 ∧ c.dbReopen = true) :
    releaseGate c err r =
      ({ c with dbConnCount := c.dbConnCount - 1, dbReopen := false, reopens := c.reopens + 1,
                dbErr := r, broadcasts := c.broadcasts + 1 }, r) := by
  simp only [releaseGate, reopenDB, h, and_self, if_true]

theorem releaseGate_no_drain (c : connection) (err r : GoError)
    (h : ¬ (c.dbConnCount - 1 = 0 ∧ c.dbReopen = true)) :
    releaseGate c err r = ({ c with dbConnCount := c.dbConnCount - 1 }, err) := by
  simp only [releaseGate, reopenDB, h, if_false]

@[simp] theorem releaseTx_dbConnCount (c : connection) (tx : Bool) :
    (releaseTx c tx).dbConnCount = c.dbConnCount := by
  unfold releaseTx; split <;> rfl

@[simp] theorem releaseTx_dbReopen (c : connection) (tx : Bool) :
    (releaseTx c tx).dbReopen = c.dbReopen := by
  unfold releaseTx; split <;> rfl

@[simp] theorem releaseTx_dbErr (c : connection) (tx : Bool) :
    (releaseTx c tx).dbErr = c.dbErr := by
  unfold releaseTx; split <;> rfl

@[simp] theorem releaseTx_reopens (c : connection) (tx : Bool) :
    (releaseTx c tx).reopens = c.reopens := by
  unfold releaseTx; split <;> rfl

@[simp] theorem releaseTx_broadcasts (c : connection) (tx : Bool) :
    (releaseTx c tx).broadcasts = c.broadcasts := by
  unfold releaseTx; split <;> rfl

theorem release_reopens (c : connection) (tx : Bool) (closeErr r : GoError) :
    (release c tx closeErr r).1.reopens =
      c.reopens + (if c.dbConnCount - 1 = 0 ∧ c.dbReopen = true then 1 else 0) := by
  unfold release
  by_cases h : c.dbConnCount - 1 = 0 ∧ c.dbReopen = true
  · rw [releaseGate_drain _ _ _ (by simpa using h)]; simp [h]
  · rw [releaseGate_no_drain _ _ _ (by simpa using h)]; simp [h]

/-- C8, as amended: requesting a reopen never waits for the connections to drain and
never reopens by itself. For a fatal-signature error `checkErr` only sets `dbReopen`
(whatever `dbConnCount` is, zero included, the number of `reopenDB` calls is unchanged), it
is possible in every state of the system and moves no caller, and the reopen is performed
by the next release exactly when that release drains the count to zero, that is when the
count was 1. -/
theorem checkErr_requests_reopen (c : connection) (err : GoError) (h : fatalSignature err) :
    (checkErr c err).1 = { c with dbReopen := true } ∧
    (checkErr c err).1.reopens = c.reopens ∧
    (∀ s : Sys, ∃ s1, step s (.checkErr err) = some s1 ∧ s1.threads = s.threads) ∧
    (∀ (tx : Bool) (closeErr r : GoError),
      (release (checkErr c err).1 tx closeErr r).1.reopens =
        c.reopens + (if c.dbConnCount = 1 then 1 else 0)) := by
  rw [checkErr_fatal c err h]
  refine ⟨rfl, rfl, fun s => ⟨_, rfl, rfl⟩, fun tx closeErr r => ?_⟩
  rw [release_reopens]
  simp only [and_true]
  congr 1
  by_cases h1 : c.dbConnCount = 1
  · simp [h1]
  · have : ¬ (c.dbConnCount - 1 = 0) := by omega
    simp [h1, this]

theorem release_dbReopen (c : connection) (tx : Bool) (closeErr r : GoError) :
    (release c tx closeErr r).1.dbReopen =
      (if c.dbConnCount - 1 = 0 ∧ c.dbReopen = true then false else c.dbReopen) := by
  unfold release
  by_cases h : c.dbConnCount - 1 = 0 ∧ c.dbReopen = true
  · rw [releaseGate_drain _ _ _ (by simpa using h)]; simp [h]
  · rw [releaseGate_no_drain _ _ _ (by simpa using h)]; simp [h]

theorem release_dbConnCount (c : connection) (tx : Bool) (closeErr r : GoError) :
    (release c tx closeErr r).1.dbConnCount = c.dbConnCount - 1 := by
  unfold release
  by_cases h : c.dbConnCount - 1 = 0 ∧ c.dbReopen = true
  · rw [releaseGate_drain _ _ _ (by simpa using h)]; simp
  · rw [releaseGate_no_drain _ _ _ (by simpa using h)]; simp

theorem release_dbErr (c : connection) (tx : Bool) (closeErr r : GoError) :
    (release c tx closeErr r).1.dbErr =
      (if c.dbConnCount - 1 = 0 ∧ c.dbReopen = true then r else c.dbErr) := by
  unfold release
  by_cases h : c.dbConnCount - 1 = 0 ∧ c.dbReopen = true
  · rw [releaseGate_drain _ _ _ (by simpa using h)]; simp [h]
  · rw [releaseGate_no_drain _ _ _ (by simpa using h)]; simp [h]

theorem acquireGate_cases (c : connection) :
    (∃ e, c.dbErr = some e ∧ acquireGate c = .failed e) ∨
    (c.dbErr = none ∧ c.dbReopen = true ∧ acquireGate c = .parked) ∨
    (c.dbErr = none ∧ c.dbReopen = false ∧
      acquireGate c = .admitted { c with dbConnCount := c.dbConnCount + 1 }) := by
  unfold acquireGate
  cases h : c.dbErr with
  | some e => exact Or.inl ⟨e, rfl, rfl⟩
  | none =>
    cases h2 : c.dbReopen with
    | true => exact Or.inr (Or.inl ⟨rfl, rfl, by simp⟩)
    | false => exact Or.inr (Or.inr ⟨rfl, rfl, by simp⟩)

theorem gateOp_acquire_pending (c : connection) (h : c.dbReopen = true) :
    gateOp c .acquire = c := by
  rcases acquireGate_cases c with ⟨e, _, h1⟩ | ⟨_, _, h1⟩ | ⟨_, h2, _⟩
  · simp [gateOp, h1]
  · simp [gateOp, h1]
  · rw [h] at h2; cases h2

theorem gateOp_acquire_open (c : connection) (h : c.dbReopen = false) :
    (gateOp c .acquire).dbReopen = false ∧ (gateOp c .acquire).reopens = c.reopens := by
  rcases acquireGate_cases c with ⟨e, _, h1⟩ | ⟨_, _, h1⟩ | ⟨_, _, h1⟩ <;>
    simp [gateOp, h1, h]

theorem gateRun_cons (c : connection) (op : GateOp) (ops : List GateOp) :
    gateRun c (op :: ops) = gateRun (gateOp c op) ops := rfl

theorem gateRun_reopens (ops : List GateOp) : ∀ c : connection,
    (gateRun c ops).reopens = c.reopens +
      (if c.dbReopen = true ∧ 0 < c.dbConnCount ∧
          c.dbConnCount ≤ (ops.countP GateOp.isRelease : Nat) then 1 else 0) := by
  induction ops with
  | nil =>
    intro c
    have : ¬ (c.dbReopen = true ∧ 0 < c.dbConnCount ∧ c.dbConnCount ≤ ((0 : Nat) : Int)) := by
      omega
    simp [gateRun, this]
  | cons op ops ih =>
    intro c
    rw [gateRun_cons, ih]
    cases op with
    | acquire =>
      simp only [List.countP_cons, GateOp.isRelease, Bool.false_eq_true, if_false, add_zero]
      cases h : c.dbReopen with
      | true => rw [gateOp_acquire_pending c h, h]
      | false =>
        obtain ⟨h1, h2⟩ := gateOp_acquire_open c h
        simp [h1, h2]
    | release tx closeErr r =>
      simp only [List.countP_cons, GateOp.isRelease, if_true, gateOp, release_reopens,
        release_dbReopen, release_dbConnCount]
      cases h : c.dbReopen with
      | false => simp
      | true =>
        by_cases h1 : c.dbConnCount - 1 = 0
        · have : c.dbConnCount = 1 := by omega
          simp [this]
        · simp only [h1, false_and, if_false, add_zero, true_and]
          congr 1
          refine if_congr ?_ rfl rfl
          push_cast
          omega

theorem acquireConn_failed (c : connection) (tx : Bool) (reopenR connxR : GoError) (e : String)
    (h : c.dbErr = some e) : acquireConn c tx reopenR connxR = (c, .err e) := by
  rcases acquireGate_cases c with ⟨e1, h0, h1⟩ | ⟨h0, _, _⟩ | ⟨h0, _, _⟩
  · rw [h] at h0; cases h0; simp [acquireConn, h1]
  · rw [h] at h0; cases h0
  · rw [h] at h0; cases h0

theorem acquireConn_parked (c : connection) (tx : Bool) (reopenR connxR : GoError)
    (h : c.dbErr = none) (h2 : c.dbReopen = true) :
    acquireConn c tx reopenR connxR = (c, .waitGate) := by
  rcases acquireGate_cases c with ⟨e1, h0, h1⟩ | ⟨_, _, h1⟩ | ⟨_, h0, _⟩
  · rw [h] at h0; cases h0
  · simp [acquireConn, h1]
  · rw [h2] at h0; cases h0

theorem lockTx_fields (c c1 : connection) (tx : Bool) (h : lockTx c tx = some c1) :
    c1.dbConnCount = c.dbConnCount ∧ c1.dbReopen = c.dbReopen ∧ c1.dbErr = c.dbErr ∧
    c1.reopens = c.reopens ∧ c1.broadcasts = c.broadcasts ∧ c1.config = c.config ∧
    c1.metaSem = c.metaSem ∧ c1.olapSem = c.olapSem ∧ c1.longRunningSem = c.longRunningSem := by
  unfold lockTx at h
  split at h <;> simp only [Option.map_eq_some'] at h <;> obtain ⟨m, _, rfl⟩ := h <;> simp

theorem acquireConn_admitted (c : connection) (tx : Bool) (reopenR connxR : GoError)
    (h : c.dbErr = none) (h2 : c.dbReopen = false) :
    (acquireConn c tx reopenR connxR).1.dbConnCount = c.dbConnCount + 1 ∧
    (acquireConn c tx reopenR connxR).1.dbErr = none ∧
    (acquireConn c tx reopenR connxR).2 ≠ .waitGate := by
  rcases acquireGate_cases c with ⟨e1, h0, h1⟩ | ⟨_, h0, _⟩ | ⟨_, _, h1⟩
  · rw [h] at h0; cases h0
  · rw [h2] at h0; cases h0
  · simp only [acquireConn, h1]
    cases hl : lockTx _ tx with
    | none => simp [h]
    | some c2 =>
      obtain ⟨l1, l2, l3, -⟩ := lockTx_fields _ _ _ hl
      simp only
      split
      · rcases reopenR with _ | e <;> rcases connxR with _ | e2 <;>
          simp [txReopen, reopenDB, acquireConn.finish, connx, l1, l3, h]
      · rcases connxR with _ | e2 <;> simp [acquireConn.finish, connx, l1, l3, h]

theorem gateRun_pending (ops : List GateOp) : ∀ c : connection,
    c.dbReopen = true → c.dbErr = none →
    ((ops.countP GateOp.isRelease : Nat) : Int) < c.dbConnCount →
    (gateRun c ops).dbReopen = true ∧ (gateRun c ops).dbErr = none ∧
    (gateRun c ops).dbConnCount = c.dbConnCount - (ops.countP GateOp.isRelease : Nat) ∧
    (gateRun c ops).reopens = c.reopens := by
  induction ops with
  | nil => intro c h1 h2 _; simp [gateRun, h1, h2]
  | cons op ops ih =>
    intro c h1 h2 h3
    rw [gateRun_cons]
    cases op with
    | acquire =>
      rw [gateOp_acquire_pending c h1]
      simp only [List.countP_cons, GateOp.isRelease, Bool.false_eq_true, if_false,
        add_zero] at h3 ⊢
      exact ih c h1 h2 h3
    | release tx closeErr r =>
      simp only [List.countP_cons, GateOp.isRelease, if_true, Nat.cast_add, Nat.cast_one]
        at h3 ⊢
      have hnd : ¬ (c.dbConnCount - 1 = 0 ∧ c.dbReopen = true) := by
        intro h; omega
      have := ih (gateOp c (.release tx closeErr r))
        (by simp only [gateOp]; rw [release_dbReopen, if_neg hnd]; exact h1)
        (by simp only [gateOp]; rw [release_dbErr, if_neg hnd]; exact h2)
        (by simp only [gateOp, release_dbConnCount]; omega)
      simp only [gateOp, release_dbConnCount, release_reopens, if_neg hnd, add_zero] at this ⊢
      refine ⟨this.1, this.2.1, ?_, this.2.2.2⟩
      rw [this.2.2.1]; omega

/-- C2: with `dbErr` set `acquireConn` returns that error at once and leaves the state,
`dbConnCount` included, as it was; with `dbErr` unset it increments `dbConnCount` exactly
when `dbReopen` is false and is parked in `Wait` when `dbReopen` is true. Hence after a
fatal-signature error, for as long as fewer releases than holders have run, an acquisition
is parked (neither failed nor admitted); after the draining release, whose reopen returned
`r`, `dbErr` is `r`: the acquisition fails with that error when the reopen failed and is
admitted when it succeeded. -/
theorem acquireConn_gate_contract (c : connection) (tx : Bool) (reopenR connxR : GoError) :
    (∀ e, c.dbErr = some e → acquireConn c tx reopenR connxR = (c, .err e)) ∧
    (c.dbErr = none →
      ((acquireConn c tx reopenR connxR).1.dbConnCount = c.dbConnCount + 1 ↔
        c.dbReopen = false)) ∧
    (c.dbErr = none → c.dbReopen = true →
      acquireConn c tx reopenR connxR = (c, .waitGate)) ∧
    (∀ (err : GoError) (ops : List GateOp), fatalSignature err → c.dbErr = none →
      ((ops.countP GateOp.isRelease : Nat) : Int) < c.dbConnCount →
      acquireConn (gateRun (checkErr c err).1 ops) tx reopenR connxR =
        (gateRun (checkErr c err).1 ops, .waitGate)) ∧
    (∀ (err : GoError) (ops : List GateOp) (tx1 : Bool) (closeErr r : GoError),
      fatalSignature err → c.dbErr = none →
      ((ops.countP GateOp.isRelease : Nat) : Int) + 1 = c.dbConnCount →
      (release (gateRun (checkErr c err).1 ops) tx1 closeErr r).1.dbErr = r ∧
      (∀ e, r = some e →
        acquireConn (release (gateRun (checkErr c err).1 ops) tx1 closeErr r).1
            tx reopenR connxR =
          ((release (gateRun (checkErr c err).1 ops) tx1 closeErr r).1, .err e)) ∧
      (r = none →
        (acquireConn (release (gateRun (checkErr c err).1 ops) tx1 closeErr r).1
            tx reopenR connxR).1.dbConnCount = 1 ∧
        (acquireConn (release (gateRun (checkErr c err).1 ops) tx1 closeErr r).1
            tx reopenR connxR).2 ≠ .waitGate)) := by
  refine ⟨fun e h => acquireConn_failed c tx _ _ e h, fun h => ?_,
    fun h h2 => acquireConn_parked c tx _ _ h h2, ?_, ?_⟩
  · constructor
    · intro h1
      cases h2 : c.dbReopen with
      | false => rfl
      | true =>
        rw [acquireConn_parked c tx _ _ h h2] at h1
        simp at h1
    · intro h2
      exact (acquireConn_admitted c tx _ _ h h2).1
  · intro err ops hf h hlt
    rw [checkErr_fatal c err hf]
    obtain ⟨p1, p2, -, -⟩ := gateRun_pending ops { c with dbReopen := true } rfl h hlt
    exact acquireConn_parked _ tx _ _ p2 p1
  · intro err ops tx1 closeErr r hf h heq
    rw [checkErr_fatal c err hf]
    obtain ⟨p1, p2, p3, -⟩ := gateRun_pending ops { c with dbReopen := true } rfl h
      (by show _ < c.dbConnCount; omega)
    have p3 : (gateRun { c with dbReopen := true } ops).dbConnCount = 1 := by
      rw [p3]; show c.dbConnCount - _ = 1; omega
    have hd : (gateRun { c with dbReopen := true } ops).dbConnCount - 1 = 0 ∧
        (gateRun { c with dbReopen := true } ops).dbReopen = true := ⟨by omega, p1⟩
    have e1 : (release (gateRun { c with dbReopen := true } ops) tx1 closeErr r).1.dbErr = r := by
      rw [release_dbErr, if_pos hd]
    have e2 : (release (gateRun { c with dbReopen := true } ops) tx1 closeErr r).1.dbReopen
        = false := by
      rw [release_dbReopen, if_pos hd]
    have e3 : (release (gateRun { c with dbReopen := true } ops) tx1 closeErr r).1.dbConnCount
        = 0 := by
      rw [release_dbConnCount]; omega
    refine ⟨e1, fun e he => acquireConn_failed _ tx _ _ e (by rw [e1, he]), fun hr => ?_⟩
    obtain ⟨a1, -, a3⟩ := acquireConn_admitted _ tx reopenR connxR (by rw [e1, hr]) e2
    exact ⟨by rw [a1, e3]; rfl, a3⟩

theorem total_set (w : Pc → Nat) (p q : Pc) : ∀ (ts : List Pc) (i : Nat),
    ts.get? i = some q → total w (ts.set i p) + w q = total w ts + w p := by
  intro ts
  induction ts with
  | nil => intro i h; simp at h
  | cons t ts ih =>
    intro i h
    cases i with
    | zero =>
      simp only [List.get?_cons_zero, Option.some.injEq] at h
      subst h
      simp only [total, List.set_cons_zero, List.map_cons, List.sum_cons]
      omega
    | succ i =>
      simp only [List.get?_cons_succ] at h
      have := ih i h
      simp only [total, List.set_cons_succ, List.map_cons, List.sum_cons] at this ⊢
      omega

theorem total_map_wake (w : Pc → Nat) (hw : ∀ p, w (wake p) = w p) (ts : List Pc) :
    total w (ts.map wake) = total w ts := by
  simp only [total, List.map_map]
  congr 1
  apply List.map_congr_left
  intro p _
  exact hw p

theorem le_total_of_get (w : Pc → Nat) (q : Pc) : ∀ (ts : List Pc) (i : Nat),
    ts.get? i = some q → w q ≤ total w ts := by
  intro ts
  induction ts with
  | nil => intro i h; simp at h
  | cons t ts ih =>
    intro i h
    cases i with
    | zero =>
      simp only [List.get?_cons_zero, Option.some.injEq] at h
      subst h
      simp [total]
    | succ i =>
      simp only [List.get?_cons_succ] at h
      have := ih i h
      simp only [total, List.map_cons, List.sum_cons] at this ⊢
      omega

theorem semAcquire_fields (c c1 : connection) (k : Call) (h : semAcquire c k = some c1) :
    c1.dbConnCount = c.dbConnCount ∧ c1.dbReopen = c.dbReopen ∧ c1.dbErr = c.dbErr ∧
    c1.reopens = c.reopens ∧ c1.broadcasts = c.broadcasts ∧ c1.config = c.config ∧
    c1.txMu = c.txMu ∧ c1.longRunningSem = c.longRunningSem := by
  cases k <;> simp only [semAcquire, Option.map_eq_some'] at h <;>
    obtain ⟨m, _, rfl⟩ := h <;> simp

theorem semRelease_fields (c : connection) (k : Call) :
    (semRelease c k).dbConnCount = c.dbConnCount ∧ (semRelease c k).dbReopen = c.dbReopen ∧
    (semRelease c k).dbErr = c.dbErr ∧ (semRelease c k).reopens = c.reopens ∧
    (semRelease c k).broadcasts = c.broadcasts ∧ (semRelease c k).config = c.config ∧
    (semRelease c k).txMu = c.txMu ∧
    (semRelease c k).longRunningSem = c.longRunningSem := by
  cases k <;> simp [semRelease]

theorem txReopen_eq (c : connection) (r : GoError) :
    txReopen c r =
      ({ c with reopens := c.reopens + 1,
                txMu := if r = none then c.txMu else c.txMu.Unlock }, r) := by
  cases r <;> simp [txReopen, reopenDB]

theorem connx_eq (c : connection) (tx : Bool) (r : GoError) :
    connx c tx r = (if r = none then c else releaseTx c tx, r) := by
  cases r <;> simp [connx]

theorem releaseGate_eq (c : connection) (err r : GoError) :
    releaseGate c err r =
      if c.dbConnCount - 1 = 0 ∧ c.dbReopen = true then
        ({ c with dbConnCount := c.dbConnCount - 1, dbReopen := false,
                  reopens := c.reopens + 1, dbErr := r, broadcasts := c.broadcasts + 1 }, r)
      else ({ c with dbConnCount := c.dbConnCount - 1 }, err) := by
  split
  · next h => exact releaseGate_drain c err r h
  · next h => exact releaseGate_no_drain c err r h

theorem stepAt_gate_effect (c c1 : connection) (r : GoError) (p p1 : Pc) (bc : Bool)
    (h : stepAt c r p = some (c1, p1, bc)) :
    ((counted p1 : Int) - counted p ≤ c1.dbConnCount - c.dbConnCount) ∧
    ((c1.dbErr = c.dbErr ∧ (counted p = 0 → c.dbErr ≠ none → c1.reopens = c.reopens)) ∨
      (counted p = 1 ∧ counted p1 = 0 ∧ c.dbConnCount = 1 ∧ c1.dbErr = r ∧
        c1.reopens = c.reopens + 1 ∧ ∃ k err, p = .relGate k err)) ∧
    (counted p = 0 → c.dbErr ≠ none → counted p1 = 0) := by
  cases p with
  | idle => simp [stepAt] at h
  | bypassed => simp [stepAt] at h
  | parked k => simp [stepAt] at h
  | holding k => simp [stepAt] at h
  | done e => simp [stepAt] at h
  | lrAcquire priority tx =>
    simp only [stepAt] at h
    split at h
    · simp only [Option.some.injEq, Prod.mk.injEq] at h
      obtain ⟨rfl, rfl, rfl⟩ := h
      simp [counted]
    · simp only [Option.map_eq_some', Prod.mk.injEq] at h
      obtain ⟨a, _, rfl, rfl, rfl⟩ := h
      simp [counted]
  | semAcquire k =>
    simp only [stepAt] at h
    split at h
    · simp only [Option.some.injEq, Prod.mk.injEq] at h
      obtain ⟨rfl, rfl, rfl⟩ := h
      split <;> simp [counted]
    · simp only [Option.map_eq_some', Prod.mk.injEq] at h
      obtain ⟨a, ha, rfl, rfl, rfl⟩ := h
      obtain ⟨f1, f2, f3, f4, -⟩ := semAcquire_fields _ _ _ ha
      simp [counted, f1, f3, f4]
  | gate k =>
    simp only [stepAt] at h
    rcases acquireGate_cases c with ⟨e, h0, h1⟩ | ⟨h0, _, h1⟩ | ⟨h0, _, h1⟩ <;>
      rw [h1] at h <;> simp only [Option.some.injEq, Prod.mk.injEq] at h <;>
      obtain ⟨rfl, rfl, rfl⟩ := h <;> simp [counted, h0]
  | txLock k =>
    simp only [stepAt, Option.map_eq_some', Prod.mk.injEq] at h
    obtain ⟨a, ha, rfl, rfl, rfl⟩ := h
    obtain ⟨f1, f2, f3, f4, -⟩ := lockTx_fields _ _ _ ha
    split <;> simp [counted, f1, f3, f4]
  | txReopen k =>
    cases r <;> simp only [stepAt, txReopen, reopenDB, Option.some.injEq, Prod.mk.injEq] at h <;>
      obtain ⟨rfl, rfl, rfl⟩ := h <;> simp [counted]
  | connx k =>
    cases r <;> simp only [stepAt, connx, Option.some.injEq, Prod.mk.injEq] at h <;>
      obtain ⟨rfl, rfl, rfl⟩ := h <;> simp [counted]
  | relClose k =>
    simp only [stepAt, Option.some.injEq, Prod.mk.injEq] at h
    obtain ⟨rfl, rfl, rfl⟩ := h
    simp [counted]
  | relGate k err =>
    simp only [stepAt, Option.some.injEq, Prod.mk.injEq] at h
    obtain ⟨rfl, rfl, rfl⟩ := h
    rw [releaseGate_eq]
    split
    · next hd => simp [counted]; omega
    · simp [counted]
  | relSem k err =>
    simp only [stepAt, Option.some.injEq, Prod.mk.injEq] at h
    obtain ⟨rfl, rfl, rfl⟩ := h
    obtain ⟨f1, f2, f3, f4, -⟩ := semRelease_fields c k
    split <;> simp [counted, f1, f3, f4]
  | relLR err =>
    simp only [stepAt, Option.some.injEq, Prod.mk.injEq] at h
    obtain ⟨rfl, rfl, rfl⟩ := h
    simp [counted]

theorem counted_wake (p : Pc) : counted (wake p) = counted p := by
  cases p <;> rfl

theorem total_step (w : Pc → Nat) (hw : ∀ q, w (wake q) = w q) (ts : List Pc) (i : Nat)
    (p p1 : Pc) (bc : Bool) (h : ts.get? i = some p) :
    total w ((if bc then ts.map wake else ts).set i p1) + w p = total w ts + w p1 := by
  cases bc with
  | false => simpa using total_set w p1 p ts i h
  | true =>
    have h1 : (ts.map wake).get? i = some (wake p) := by
      simp only [List.get?_eq_getElem?, List.getElem?_map] at h ⊢
      rw [h]; rfl
    have := total_set w p1 (wake p) (ts.map wake) i h1
    rw [total_map_wake w hw, hw] at this
    simpa using this

theorem checkErr_fields (c : connection) (err : GoError) :
    (checkErr c err).1.dbConnCount = c.dbConnCount ∧ (checkErr c err).1.dbErr = c.dbErr ∧
    (checkErr c err).1.reopens = c.reopens ∧ (checkErr c err).1.broadcasts = c.broadcasts ∧
    (checkErr c err).1.metaSem = c.metaSem ∧ (checkErr c err).1.olapSem = c.olapSem ∧
    (checkErr c err).1.longRunningSem = c.longRunningSem ∧
    (checkErr c err).1.txMu = c.txMu ∧ (checkErr c err).1.config = c.config := by
  unfold checkErr
  cases err with
  | none => simp
  | some e => simp only; split <;> simp

theorem move_gate (s : Sys) (i : Nat) (p p1 : Pc) (hi : s.threads.get? i = some p)
    (hc : counted p1 = counted p) (hinv : GateInv s) : GateInv (s.move i s.c p1) := by
  have := total_set counted p1 p s.threads i hi
  rw [hc] at this
  have this : total counted (s.threads.set i p1) = total counted s.threads := by omega
  exact ⟨by simp only [Sys.move, this]; exact hinv.1, by simp only [Sys.move, this]; exact hinv.2⟩

theorem step_gate (s s1 : Sys) (a : Action) (hinv : GateInv s) (h : step s a = some s1) :
    GateInv s1 ∧
    (∀ e, s.c.dbErr = some e → s1.c.dbErr = some e ∧ s1.c.reopens = s.c.reopens) ∧
    (s.c.dbErr = none → ∀ e, s1.c.dbErr = some e →
      ∃ i k err, a = .run i (some e) ∧ s.threads.get? i = some (.relGate k err) ∧
        s.c.dbConnCount = 1 ∧ s1.c.reopens = s.c.reopens + 1) := by
  have same : ∀ i p p1, s.threads.get? i = some p → counted p1 = counted p →
      s1 = s.move i s.c p1 →
      GateInv s1 ∧
      (∀ e, s.c.dbErr = some e → s1.c.dbErr = some e ∧ s1.c.reopens = s.c.reopens) ∧
      (s.c.dbErr = none → ∀ e, s1.c.dbErr = some e →
        ∃ i k err, a = .run i (some e) ∧ s.threads.get? i = some (.relGate k err) ∧
          s.c.dbConnCount = 1 ∧ s1.c.reopens = s.c.reopens + 1) := by
    intro i p p1 hi hc hs
    subst hs
    refine ⟨move_gate s i p p1 hi hc hinv, fun e he => ⟨he, rfl⟩, fun h0 e he => ?_⟩
    simp only [Sys.move] at he
    rw [h0] at he; cases he
  obtain ⟨inv1, inv2⟩ := hinv
  cases a with
  | start i k bypass =>
    simp only [step] at h
    split at h
    · next hi =>
      split at h
      · exact same i _ .bypassed hi rfl (Option.some.inj h).symm
      · refine same i _ k.entry hi ?_ (Option.some.inj h).symm
        unfold Call.entry
        split <;> rfl
    · cases h
  | callRelease i =>
    simp only [step] at h
    split at h
    · next k hi => exact same i _ (.relClose k) hi rfl (Option.some.inj h).symm
    · next hi => exact same i _ (.done none) hi rfl (Option.some.inj h).symm
    · cases h
  | checkErr err =>
    simp only [step, Option.some.injEq] at h
    subst h
    obtain ⟨f1, f2, f3, -⟩ := checkErr_fields s.c err
    refine ⟨⟨by simp only [f1]; exact inv1, by simp only [f2]; exact inv2⟩,
      fun e he => ⟨by simp only [f2]; exact he, f3⟩, fun h0 e he => ?_⟩
    simp only [f2] at he
    rw [h0] at he; cases he
  | run i r =>
    simp only [step] at h
    split at h
    · next p hi =>
      split at h
      · next c1 p1 bc hst =>
        simp only [Option.some.injEq] at h
        subst h
        obtain ⟨g1, g2, g3⟩ := stepAt_gate_effect _ _ _ _ _ _ hst
        have ht := total_step counted counted_wake s.threads i p p1 bc hi
        have hle := le_total_of_get counted p s.threads i hi
        simp only [GateInv]
        rcases g2 with ⟨e1, e2⟩ | ⟨d1, d2, d3, d4, d5, k, err, d6⟩
        · refine ⟨⟨by omega, fun hne => ?_⟩, fun e he => ?_, fun h0 e he => ?_⟩
          · rw [e1] at hne
            have := inv2 hne
            have hp : counted p = 0 := by omega
            have := g3 hp hne
            omega
          · have hne : s.c.dbErr ≠ none := by rw [he]; simp
            have := inv2 hne
            have hp : counted p = 0 := by omega
            exact ⟨by rw [e1, he], e2 hp hne⟩
          · rw [e1, h0] at he; cases he
        · refine ⟨⟨by omega, fun _ => by omega⟩, fun e he => ?_, fun h0 e he => ?_⟩
          · have hne : s.c.dbErr ≠ none := by rw [he]; simp
            have := inv2 hne
            omega
          · rw [d4] at he
            subst he
            exact ⟨i, k, err, rfl, by rw [hi, d6], d3, d5⟩
      · cases h
    · cases h

theorem total_replicate_idle (w : Pc → Nat) (hw : w .idle = 0) (n : Nat) :
    total w (List.replicate n .idle) = 0 := by
  induction n with
  | zero => rfl
  | succ n ih =>
    simp only [total, List.replicate_succ, List.map_cons, List.sum_cons, hw] at ih ⊢
    omega

theorem init_gate (cfg : Config) (n : Nat) : GateInv (Sys.init cfg n) := by
  have := total_replicate_idle counted rfl n
  exact ⟨by simp only [Sys.init, this]; exact le_refl _, fun _ => this⟩

theorem runActions_gate (acts : List Action) : ∀ s s1 : Sys, GateInv s →
    runActions s acts = some s1 →
    GateInv s1 ∧
    (∀ e, s.c.dbErr = some e → s1.c.dbErr = some e ∧ s1.c.reopens = s.c.reopens) := by
  induction acts with
  | nil =>
    intro s s1 hinv h
    simp only [runActions, Option.some.injEq] at h
    subst h
    exact ⟨hinv, fun e he => ⟨he, rfl⟩⟩
  | cons a acts ih =>
    intro s s1 hinv h
    simp only [runActions, Option.bind_eq_some] at h
    obtain ⟨s2, h1, h2⟩ := h
    obtain ⟨i1, i2, -⟩ := step_gate s s2 a hinv h1
    obtain ⟨j1, j2⟩ := ih s2 s1 i1 h2
    refine ⟨j1, fun e he => ?_⟩
    obtain ⟨k1, k2⟩ := i2 e he
    obtain ⟨k3, k4⟩ := j2 e k1
    exact ⟨k3, by rw [k4, k2]⟩

theorem reachable_gate (s : Sys) (h : Reachable s) : GateInv s := by
  obtain ⟨cfg, n, acts, h⟩ := h
  exact (runActions_gate acts _ _ (init_gate cfg n) h).1

theorem sysFailed_reachable : Reachable sysFailed := ⟨cfgFile, 2, runToFailed, by decide⟩

/-- C3: in every state reachable from `Driver.Open` by calls of the wrappers, release
callbacks (each called at most once) and `checkErr`: once `dbErr` is `some e` it is `some e`
after every further list of actions, no further `reopenDB` is made, and `acquireConn`
returns exactly `e`; and a step takes `dbErr` from nil to `some e` only as the locked
section of a release closure that drains the count with a reopen pending and whose
`reopenDB` call returned `e`. -/
theorem fatalError_sticky (s : Sys) (hs : Reachable s) :
    (∀ (e : String) (acts : List Action) (s1 : Sys), s.c.dbErr = some e →
      runActions s acts = some s1 →
      s1.c.dbErr = some e ∧ s1.c.reopens = s.c.reopens ∧
      (∀ tx reopenR connxR, acquireConn s1.c tx reopenR connxR = (s1.c, .err e)) ∧
      (∀ k r, stepAt s1.c r (.gate k) = some (s1.c, .relSem k (some e), false))) ∧
    (∀ (a : Action) (s1 : Sys) (e : String), s.c.dbErr = none → step s a = some s1 →
      s1.c.dbErr = some e →
      ∃ i k err, a = .run i (some e) ∧ s.threads.get? i = some (.relGate k err) ∧
        s.c.dbConnCount = 1 ∧ s.c.dbReopen = true ∧
        releaseGate s.c err (some e) = (s1.c, some e) ∧ s1.c.reopens = s.c.reopens + 1) := by
  have hinv := reachable_gate s hs
  constructor
  · intro e acts s1 he hrun
    obtain ⟨_, h2⟩ := runActions_gate acts s s1 hinv hrun
    obtain ⟨h3, h4⟩ := h2 e he
    refine ⟨h3, h4, fun tx r1 r2 => acquireConn_failed _ tx r1 r2 e h3, fun k r => ?_⟩
    rcases acquireGate_cases s1.c with ⟨e1, h0, h1⟩ | ⟨h0, _, _⟩ | ⟨h0, _, _⟩
    · rw [h3] at h0; cases h0; simp only [stepAt, h1]
    · rw [h3] at h0; cases h0
    · rw [h3] at h0; cases h0
  · intro a s1 e h0 hstep he
    obtain ⟨_, _, h3⟩ := step_gate s s1 a hinv hstep
    obtain ⟨i, k, err, ha, hi, hc, hr⟩ := h3 h0 e he
    refine ⟨i, k, err, ha, hi, hc, ?_⟩
    subst ha
    simp only [step, hi, stepAt, Option.some.injEq] at hstep
    subst hstep
    simp only at he hr ⊢
    rw [releaseGate_eq] at he hr ⊢
    split at he
    · next hd => exact ⟨hd.2, by rw [if_pos hd], hr⟩
    · simp only [h0] at he
      cases he

theorem releaseTx_sems (c : connection) (tx : Bool) :
    (releaseTx c tx).olapSem = c.olapSem ∧ (releaseTx c tx).metaSem = c.metaSem ∧
    (releaseTx c tx).longRunningSem = c.longRunningSem ∧ (releaseTx c tx).config = c.config := by
  unfold releaseTx; split <;> simp

theorem stepAt_slot_effect (c c1 : connection) (r : GoError) (p p1 : Pc) (bc : Bool)
    (h : stepAt c r p = some (c1, p1, bc)) :
    c1.olapSem.size = c.olapSem.size ∧
    c1.olapSem.held + olapSlot p = c.olapSem.held + olapSlot p1 ∧
    c1.metaSem.cur + metaSlot p = c.metaSem.cur + metaSlot p1 ∧
    c1.longRunningSem.cur + lrSlot p = c.longRunningSem.cur + lrSlot p1 ∧
    (c.olapSem.held ≤ c.olapSem.size → c1.olapSem.held ≤ c1.olapSem.size) := by
  cases p with
  | idle => simp [stepAt] at h
  | bypassed => simp [stepAt] at h
  | parked k => simp [stepAt] at h
  | holding k => simp [stepAt] at h
  | done e => simp [stepAt] at h
  | lrAcquire priority tx =>
    simp only [stepAt] at h
    split at h
    · simp only [Option.some.injEq, Prod.mk.injEq] at h
      obtain ⟨rfl, rfl, rfl⟩ := h
      simp [olapSlot, metaSlot, lrSlot]
    · simp only [Option.map_eq_some', Prod.mk.injEq] at h
      obtain ⟨a, ha, rfl, rfl, rfl⟩ := h
      simp only [Weighted.Acquire] at ha
      split at ha
      · cases ha
        simp [olapSlot, metaSlot, lrSlot, Call.longRunning]
      · cases ha
  | semAcquire k =>
    simp only [stepAt] at h
    split at h
    · simp only [Option.some.injEq, Prod.mk.injEq] at h
      obtain ⟨rfl, rfl, rfl⟩ := h
      split <;> simp_all [olapSlot, metaSlot, lrSlot]
    · simp only [Option.map_eq_some', Prod.mk.injEq] at h
      obtain ⟨a, ha, rfl, rfl, rfl⟩ := h
      cases k with
      | meta =>
        simp only [semAcquire, Option.map_eq_some', Weighted.Acquire] at ha
        obtain ⟨m, hm, rfl⟩ := ha
        split at hm
        · cases hm
          simp [olapSlot, metaSlot, lrSlot, Call.longRunning, Call.isOLAP]
        · cases hm
      | olap pr lr tx =>
        simp only [semAcquire, Option.map_eq_some', Semaphore.Acquire] at ha
        obtain ⟨m, hm, rfl⟩ := ha
        split at hm
        · cases hm
          simp [olapSlot, metaSlot, lrSlot, Call.longRunning, Call.isOLAP]
          omega
        · cases hm
  | gate k =>
    simp only [stepAt] at h
    rcases acquireGate_cases c with ⟨e, h0, h1⟩ | ⟨h0, _, h1⟩ | ⟨h0, _, h1⟩ <;>
      rw [h1] at h <;> simp only [Option.some.injEq, Prod.mk.injEq] at h <;>
      obtain ⟨rfl, rfl, rfl⟩ := h <;> simp [olapSlot, metaSlot, lrSlot]
  | txLock k =>
    simp only [stepAt, Option.map_eq_some', Prod.mk.injEq] at h
    obtain ⟨a, ha, rfl, rfl, rfl⟩ := h
    obtain ⟨-, -, -, -, -, -, f1, f2, f3⟩ := lockTx_fields _ _ _ ha
    split <;> simp [olapSlot, metaSlot, lrSlot, f1, f2, f3]
  | txReopen k =>
    cases r <;> simp only [stepAt, txReopen, reopenDB, Option.some.injEq, Prod.mk.injEq] at h <;>
      obtain ⟨rfl, rfl, rfl⟩ := h <;> simp [olapSlot, metaSlot, lrSlot]
  | connx k =>
    obtain ⟨f1, f2, f3, -⟩ := releaseTx_sems c k.tx
    cases r <;> simp only [stepAt, connx, Option.some.injEq, Prod.mk.injEq] at h <;>
      obtain ⟨rfl, rfl, rfl⟩ := h <;> simp [olapSlot, metaSlot, lrSlot, f1, f2, f3]
  | relClose k =>
    obtain ⟨f1, f2, f3, -⟩ := releaseTx_sems c k.tx
    simp only [stepAt, Option.some.injEq, Prod.mk.injEq] at h
    obtain ⟨rfl, rfl, rfl⟩ := h
    simp [olapSlot, metaSlot, lrSlot, f1, f2, f3]
  | relGate k err =>
    simp only [stepAt, Option.some.injEq, Prod.mk.injEq] at h
    obtain ⟨rfl, rfl, rfl⟩ := h
    rw [releaseGate_eq]
    split <;> simp [olapSlot, metaSlot, lrSlot]
  | relSem k err =>
    simp only [stepAt, Option.some.injEq, Prod.mk.injEq] at h
    obtain ⟨rfl, rfl, rfl⟩ := h
    cases k with
    | meta => simp [semRelease, Weighted.Release, olapSlot, metaSlot, lrSlot, Call.longRunning, Call.isOLAP]
    | olap pr lr tx =>
      cases lr <;>
        simp [semRelease, Semaphore.Release, olapSlot, metaSlot, lrSlot, Call.longRunning,
          Call.isOLAP] <;> omega
  | relLR err =>
    simp only [stepAt, Option.some.injEq, Prod.mk.injEq] at h
    obtain ⟨rfl, rfl, rfl⟩ := h
    simp [Weighted.Release, olapSlot, metaSlot, lrSlot]

theorem olapSlot_wake (p : Pc) : olapSlot (wake p) = olapSlot p := by cases p <;> rfl
theorem metaSlot_wake (p : Pc) : metaSlot (wake p) = metaSlot p := by cases p <;> rfl
theorem lrSlot_wake (p : Pc) : lrSlot (wake p) = lrSlot p := by cases p <;> rfl

theorem entry_slots (k : Call) :
    olapSlot k.entry = 0 ∧ metaSlot k.entry = 0 ∧ lrSlot k.entry = 0 := by
  cases k with
  | meta => exact ⟨rfl, rfl, rfl⟩
  | olap pr lr tx => cases lr <;> exact ⟨rfl, rfl, rfl⟩

theorem move_slot (s : Sys) (i : Nat) (p p1 : Pc) (hi : s.threads.get? i = some p)
    (h1 : olapSlot p1 = olapSlot p) (h2 : metaSlot p1 = metaSlot p)
    (h3 : lrSlot p1 = lrSlot p) (hinv : SlotInv s) : SlotInv (s.move i s.c p1) := by
  have e1 := total_set olapSlot p1 p s.threads i hi
  have e2 := total_set metaSlot p1 p s.threads i hi
  have e3 := total_set lrSlot p1 p s.threads i hi
  rw [h1] at e1; rw [h2] at e2; rw [h3] at e3
  obtain ⟨i1, i2, i3, i4⟩ := hinv
  simp only [SlotInv, Sys.move]
  refine ⟨?_, ?_, ?_, i4⟩ <;> omega

theorem step_slot (s s1 : Sys) (a : Action) (hinv : SlotInv s) (h : step s a = some s1) :
    SlotInv s1 ∧ s1.c.olapSem.size = s.c.olapSem.size := by
  cases a with
  | start i k bypass =>
    simp only [step] at h
    split at h
    · next hi =>
      obtain ⟨k1, k2, k3⟩ := entry_slots k
      split at h <;> cases h
      · exact ⟨move_slot s i _ .bypassed hi rfl rfl rfl hinv, rfl⟩
      · exact ⟨move_slot s i _ k.entry hi k1 k2 k3 hinv, rfl⟩
    · cases h
  | callRelease i =>
    simp only [step] at h
    split at h
    · next k hi => cases h; exact ⟨move_slot s i _ (.relClose k) hi rfl rfl rfl hinv, rfl⟩
    · next hi => cases h; exact ⟨move_slot s i _ (.done none) hi rfl rfl rfl hinv, rfl⟩
    · cases h
  | checkErr err =>
    simp only [step, Option.some.injEq] at h
    subst h
    obtain ⟨-, -, -, -, f1, f2, f3, -⟩ := checkErr_fields s.c err
    simp only [SlotInv, f1, f2, f3]
    exact ⟨hinv, trivial⟩
  | run i r =>
    simp only [step] at h
    split at h
    · next p hi =>
      split at h
      · next c1 p1 bc hst =>
        simp only [Option.some.injEq] at h
        subst h
        obtain ⟨g0, g1, g2, g3, g4⟩ := stepAt_slot_effect _ _ _ _ _ _ hst
        have t1 := total_step olapSlot olapSlot_wake s.threads i p p1 bc hi
        have t2 := total_step metaSlot metaSlot_wake s.threads i p p1 bc hi
        have t3 := total_step lrSlot lrSlot_wake s.threads i p p1 bc hi
        obtain ⟨i1, i2, i3, i4⟩ := hinv
        simp only [SlotInv]
        refine ⟨⟨?_, ?_, ?_, g4 i4⟩, g0⟩ <;> omega
      · cases h
    · cases h

theorem runActions_slot (acts : List Action) : ∀ s s1 : Sys, SlotInv s →
    runActions s acts = some s1 → SlotInv s1 ∧ s1.c.olapSem.size = s.c.olapSem.size := by
  induction acts with
  | nil =>
    intro s s1 hinv h
    simp only [runActions, Option.some.injEq] at h
    subst h
    exact ⟨hinv, rfl⟩
  | cons a acts ih =>
    intro s s1 hinv h
    simp only [runActions, Option.bind_eq_some] at h
    obtain ⟨s2, h1, h2⟩ := h
    obtain ⟨i1, i2⟩ := step_slot s s2 a hinv h1
    obtain ⟨j1, j2⟩ := ih s2 s1 i1 h2
    exact ⟨j1, by rw [j2, i2]⟩

theorem quiescent_slot (s : Sys) (hq : Quiescent s) (hC : 0 ≤ s.c.olapSem.size) :
    SlotInv s := by
  obtain ⟨q1, q2, q3, q4⟩ := hq
  have e1 := total_replicate_idle olapSlot rfl s.threads.length
  have e2 := total_replicate_idle metaSlot rfl s.threads.length
  have e3 := total_replicate_idle lrSlot rfl s.threads.length
  rw [← q1] at e1 e2 e3
  simp only [SlotInv, e1, e2, e3, q2, q3, q4]
  exact ⟨rfl, rfl, rfl, hC⟩

theorem total_mono (w1 w2 : Pc → Nat) (h : ∀ p, w1 p ≤ w2 p) (ts : List Pc) :
    total w1 ts ≤ total w2 ts := by
  induction ts with
  | nil => simp [total]
  | cons t ts ih =>
    have := h t
    simp only [total, List.map_cons, List.sum_cons] at ih ⊢
    omega

theorem admittedOLAP_le (p : Pc) : admittedOLAP p ≤ olapSlot p := by
  cases p <;> simp [admittedOLAP, olapSlot]

/-- C9: from any state with idle callers, empty semaphores and an OLAP capacity `C ≥ 0`
(the capacity of the long-running semaphore is arbitrary), after every list of actions the
OLAP pool holds exactly one slot per caller of `acquireOLAPConn` standing between the
successful `olapSem.Acquire` and `olapSem.Release()`, and the long-running semaphore exactly
one unit per such caller with `longRunning`; a caller holding a returned connection counts
one OLAP slot (and one long-running unit iff `longRunning`), a caller whose call or release
returned counts none; and at most `C` OLAP callers hold a connection at the same time. -/
theorem olap_slot_accounting (s0 s : Sys) (acts : List Action) (hq : Quiescent s0)
    (hC : 0 ≤ s0.c.olapSem.size) (hrun : runActions s0 acts = some s) :
    s.c.olapSem.held = (total olapSlot s.threads : Int) ∧
    s.c.longRunningSem.cur = (total lrSlot s.threads : Int) ∧
    s.c.olapSem.size = s0.c.olapSem.size ∧
    (total admittedOLAP s.threads : Int) ≤ s0.c.olapSem.size ∧
    (∀ pr lr tx, olapSlot (.holding (.olap pr lr tx)) = 1 ∧
      lrSlot (.holding (.olap pr lr tx)) = if lr then 1 else 0) ∧
    (∀ e, olapSlot (.done e) = 0 ∧ lrSlot (.done e) = 0) := by
  obtain ⟨⟨i1, i2, i3, i4⟩, hsz⟩ := runActions_slot acts s0 s (quiescent_slot s0 hq hC) hrun
  have := total_mono admittedOLAP olapSlot admittedOLAP_le s.threads
  refine ⟨i1, i3, hsz, by omega, fun pr lr tx => ⟨rfl, rfl⟩, fun e => ⟨rfl, rfl⟩⟩

theorem step_run_eq (s : Sys) (i : Nat) (r : GoError) (p p1 : Pc) (c1 : connection)
    (bc : Bool) (hi : s.threads.get? i = some p) (hst : stepAt s.c r p = some (c1, p1, bc)) :
    step s (.run i r) =
      some { c := c1, threads := (if bc then s.threads.map wake else s.threads).set i p1 } := by
  simp only [step, hi, hst]

theorem threads_set_self (ts : List Pc) (i : Nat) (p p1 : Pc)
    (hi : ts.get? i = some p) : (ts.set i p1).get? i = some p1 := by
  simp only [List.get?_eq_getElem?] at hi ⊢
  obtain ⟨hl, _⟩ := List.getElem?_eq_some_iff.1 hi
  rw [List.getElem?_set_self hl]

theorem threads_set_ne (ts : List Pc) (i j : Nat) (p1 : Pc) (h : i ≠ j) :
    (ts.set i p1).get? j = ts.get? j := by
  simp only [List.get?_eq_getElem?]
  rw [List.getElem?_set_ne h]

theorem threads_map_wake (ts : List Pc) (i : Nat) (p : Pc) (hi : ts.get? i = some p) :
    (ts.map wake).get? i = some (wake p) := by
  simp only [List.get?_eq_getElem?, List.getElem?_map] at hi ⊢
  rw [hi]; rfl

/-- C6: when the locked section of a release closure brings `dbConnCount` from 1 to 0
while `dbReopen` is true, the step is possible and ends with `dbReopen = false`,
`dbErr = r` (the result of the one `reopenDB` call it makes), one `Broadcast`, and the
closure returning `r`; every caller parked in `Wait` is woken to the gate loop, and every
caller at the gate loop is then admitted (count 1) when the reopen succeeded and fails with
the reopen error, leaving the state unchanged, when it failed. -/
theorem draining_release_postcondition (s : Sys) (i : Nat) (k : Call) (err r : GoError)
    (hi : s.threads.get? i = some (.relGate k err))
    (hc : s.c.dbConnCount = 1) (hr : s.c.dbReopen = true) :
    ∃ s1, step s (.run i r) = some s1 ∧
      s1.c.dbConnCount = 0 ∧ s1.c.dbReopen = false ∧ s1.c.dbErr = r ∧
      s1.c.reopens = s.c.reopens + 1 ∧ s1.c.broadcasts = s.c.broadcasts + 1 ∧
      (releaseGate s.c err r).2 = r ∧
      s1.threads.get? i = some (.relSem k r) ∧
      (∀ j kj, s.threads.get? j = some (.parked kj) → s1.threads.get? j = some (.gate kj)) ∧
      (∀ j kj rj, s1.threads.get? j = some (.gate kj) →
        ∃ s2, step s1 (.run j rj) = some s2 ∧
          match r with
          | none => s2.threads.get? j = some (.txLock kj) ∧ s2.c.dbConnCount = 1
          | some e => s2.threads.get? j = some (.relSem kj (some e)) ∧ s2.c = s1.c) := by
  have hd : s.c.dbConnCount - 1 = 0 ∧ s.c.dbReopen = true := ⟨by omega, hr⟩
  have hg := releaseGate_drain s.c err r hd
  have hst : stepAt s.c r (.relGate k err) =
      some ((releaseGate s.c err r).1, .relSem k r, true) := by
    simp only [stepAt, hg]
    simp
  have f1 : (releaseGate s.c err r).1.dbConnCount = 0 := by rw [hg]; exact hd.1
  have f2 : (releaseGate s.c err r).1.dbReopen = false := by rw [hg]
  have f3 : (releaseGate s.c err r).1.dbErr = r := by rw [hg]
  have f4 : (releaseGate s.c err r).1.reopens = s.c.reopens + 1 := by rw [hg]
  have f5 : (releaseGate s.c err r).1.broadcasts = s.c.broadcasts + 1 := by rw [hg]
  refine ⟨_, step_run_eq s i r _ _ _ _ hi hst, f1, f2, f3, f4, f5, by rw [hg], ?_, ?_, ?_⟩
  · exact threads_set_self _ i _ _ (by simpa using threads_map_wake _ i _ hi)
  · intro j kj hj
    have hne : i ≠ j := by
      intro h; subst h; rw [hi] at hj; cases hj
    simp only [if_true]
    rw [threads_set_ne _ i j _ hne]
    exact threads_map_wake _ j _ hj
  · intro j kj rj hj
    rcases acquireGate_cases (releaseGate s.c err r).1 with
      ⟨e, h0, h1⟩ | ⟨_, h0, _⟩ | ⟨h0, _, h1⟩
    · rw [f3] at h0
      subst h0
      have hst2 : stepAt (releaseGate s.c err (some e)).1 rj (.gate kj) =
          some ((releaseGate s.c err (some e)).1, .relSem kj (some e), false) := by
        simp only [stepAt, h1]
      exact ⟨_, step_run_eq _ j rj _ _ _ _ hj hst2, threads_set_self _ j _ _ hj, rfl⟩
    · rw [f2] at h0; cases h0
    · rw [f3] at h0
      subst h0
      have hst2 : stepAt (releaseGate s.c err none).1 rj (.gate kj) =
          some ({ (releaseGate s.c err none).1 with
                  dbConnCount := (releaseGate s.c err none).1.dbConnCount + 1 },
                .txLock kj, false) := by
        simp only [stepAt, h1]
      refine ⟨_, step_run_eq _ j rj _ _ _ _ hj hst2, threads_set_self _ j _ _ hj, ?_⟩
      show (releaseGate s.c err none).1.dbConnCount + 1 = 1
      rw [f1]; rfl

/-- C4: the error paths of `acquireConn` after `c.dbConnCount++` leave the count
incremented. On a fresh connection a call whose `c.db.Connx(ctx)` fails (a cancelled
context), and a transactional call whose `reopenDB` fails, both return the error with
`txMu` released but with `dbConnCount` equal to 1 instead of 0; the same through
`acquireMetaConn`, whose caller ends with nothing to release while the count stays 1. -/
theorem acquireConn_error_leaks_count :
    acquireConn (Open cfgFile) false none (some "context canceled") =
      ({ Open cfgFile with dbConnCount := 1 }, .err "context canceled") ∧
    acquireConn (Open cfgFile) true (some "reopen failed") none =
      ({ Open cfgFile with dbConnCount := 1, reopens := 1 }, .err "reopen failed") ∧
    runActions (Sys.init cfgFile 1)
        [.start 0 .meta false, .run 0 none, .run 0 none, .run 0 none,
         .run 0 (some "context canceled"), .run 0 none] =
      some { c := { Open cfgFile with dbConnCount := 1 },
             threads := [.done (some "context canceled")] } := by
  decide

/-- C5: a failed transactional reopen is not recorded. A transactional `acquireConn` on
a fresh file-backed handle whose `reopenDB` fails returns that error and leaves `dbErr`
nil; the next acquisition is then admitted by the gate (the count goes to 2) instead of
failing with that error, and the next transactional acquisition calls `reopenDB` again
(two reopens in all) and, that one succeeding, returns a connection. -/
theorem txReopen_failure_not_sticky :
    acquireConn (Open cfgFile) true (some "reopen failed") none =
      ({ Open cfgFile with dbConnCount := 1, reopens := 1 }, .err "reopen failed") ∧
    (acquireConn (Open cfgFile) true (some "reopen failed") none).1.dbErr = none ∧
    acquireGate (acquireConn (Open cfgFile) true (some "reopen failed") none).1 =
      .admitted { Open cfgFile with dbConnCount := 2, reopens := 1 } ∧
    acquireConn (acquireConn (Open cfgFile) true (some "reopen failed") none).1
        true none none =
      ({ Open cfgFile with
           dbConnCount := 2, reopens := 2, txMu := { readers := 0, writer := true } },
        .conn) := by
  decide

/-- C8, counterexample: on a fresh connection (`dbConnCount` zero) a fatal-signature
error passed to `checkErr` only sets `dbReopen`; no reopen is performed (the number of
`reopenDB` calls is unchanged) and the next `acquireConn` is parked at the gate. -/
theorem checkErr_at_zero_count_no_reopen :
    (Open cfgFile).dbConnCount = 0 ∧
    checkErr (Open cfgFile) (some "FATAL Error: corrupt") =
      ({ Open cfgFile with dbReopen := true }, some "FATAL Error: corrupt") ∧
    ¬ ((checkErr (Open cfgFile) (some "FATAL Error: corrupt")).1.reopens =
        (Open cfgFile).reopens + 1) ∧
    acquireConn (checkErr (Open cfgFile) (some "FATAL Error: corrupt")).1 false none none =
      ((checkErr (Open cfgFile) (some "FATAL Error: corrupt")).1, .waitGate) := by
  decide

/-- C8, witness: with one holder, `checkErr` on a fatal error sets the flag and the
release of that holder performs the reopen. -/
theorem checkErr_requests_reopen_witness :
    fatalSignature (some "FATAL Error: corrupt") ∧
    (checkErr { Open cfgFile with dbConnCount := 1 } (some "FATAL Error: corrupt")).1 =
      { Open cfgFile with dbConnCount := 1, dbReopen := true } ∧
    (release (checkErr { Open cfgFile with dbConnCount := 1 }
        (some "FATAL Error: corrupt")).1 false none none).1.reopens = 1 :=
  have h := checkErr_requests_reopen { Open cfgFile with dbConnCount := 1 }
    (some "FATAL Error: corrupt") fatalSignature_example
  ⟨fatalSignature_example, h.1, h.2.2.2 false none none⟩

/-- C2, witness: two holders, a fatal error, one release, then the draining release
whose reopen fails with "reopen failed": the next acquisition fails with that error. -/
theorem acquireConn_gate_contract_witness :
    acquireConn
        (release (gateRun (checkErr { Open cfgFile with dbConnCount := 2 }
          (some "FATAL Error: corrupt")).1 [.acquire, .release false none none])
          false none (some "reopen failed")).1 false none none =
      ((release (gateRun (checkErr { Open cfgFile with dbConnCount := 2 }
          (some "FATAL Error: corrupt")).1 [.acquire, .release false none none])
          false none (some "reopen failed")).1, .err "reopen failed") :=
  ((acquireConn_gate_contract { Open cfgFile with dbConnCount := 2 } false none none).2.2.2.2
    (some "FATAL Error: corrupt") [.acquire, .release false none none] false none
    (some "reopen failed") fatalSignature_example rfl (by decide)).2.1 "reopen failed" rfl

/-- C3, witness: `sysFailed` is reachable with `dbErr` set; after a further call and a
further fatal `checkErr` the error is unchanged and is what `acquireConn` returns. -/
theorem fatalError_sticky_witness :
    Reachable sysFailed ∧ sysFailed.c.dbErr = some "reopen failed" ∧
    runActions sysFailed
        [.start 1 (.olap 0 false true) false, .run 1 none, .checkErr (some "FATAL Error"),
         .run 1 none, .run 1 none] =
      some { c := { sysFailed.c with dbReopen := true },
             threads := [.done (some "reopen failed"), .done (some "reopen failed")] } ∧
    (∀ tx reopenR connxR,
      acquireConn { sysFailed.c with dbReopen := true } tx reopenR connxR =
        ({ sysFailed.c with dbReopen := true }, .err "reopen failed")) :=
  ⟨⟨cfgFile, 2, runToFailed, by decide⟩, rfl, by decide,
    ((fatalError_sticky sysFailed ⟨cfgFile, 2, runToFailed, by decide⟩).1 "reopen failed"
      [.start 1 (.olap 0 false true) false, .run 1 none, .checkErr (some "FATAL Error"),
       .run 1 none, .run 1 none]
      { c := { sysFailed.c with dbReopen := true },
        threads := [.done (some "reopen failed"), .done (some "reopen failed")] }
      rfl (by decide)).2.2.1⟩

/-- C6, witness: in `sysDraining` the draining release with a failing reopen stores the
error and wakes the parked caller. -/
theorem draining_release_postcondition_witness :
    sysDraining.threads.get? 0 = some (.relGate .meta none) ∧
    sysDraining.c.dbConnCount = 1 ∧ sysDraining.c.dbReopen = true ∧
    ∃ s1, step sysDraining (.run 0 (some "reopen failed")) = some s1 ∧
      s1.c.dbErr = some "reopen failed" ∧
      s1.threads.get? 1 = some (.gate (.olap 0 false false)) :=
  ⟨rfl, rfl, rfl,
    (draining_release_postcondition sysDraining 0 .meta none (some "reopen failed")
      rfl rfl rfl).imp
      (fun _ h => ⟨h.1, h.2.2.2.1, h.2.2.2.2.2.2.2.2.1 1 (.olap 0 false false) rfl⟩)⟩

/-- C9, witness: a run from `Sys.init cfgFile 3` (OLAP capacity 2) admitting two OLAP
calls while a third waits. -/
theorem olap_slot_accounting_witness :
    Quiescent (Sys.init cfgFile 3) ∧ 0 ≤ (Sys.init cfgFile 3).c.olapSem.size ∧
    runActions (Sys.init cfgFile 3) runTwoOLAP = some sysTwoOLAP ∧
    sysTwoOLAP.c.olapSem.held = (total olapSlot sysTwoOLAP.threads : Int) ∧
    (total admittedOLAP sysTwoOLAP.threads : Int) ≤ (Sys.init cfgFile 3).c.olapSem.size :=
  have h := olap_slot_accounting (Sys.init cfgFile 3) sysTwoOLAP runTwoOLAP
    ⟨rfl, rfl, rfl, rfl⟩ (by decide) (by decide)
  ⟨⟨rfl, rfl, rfl, rfl⟩, by decide, by decide, h.1, h.2.2.2.1⟩

theorem stepAt_pending (c c1 : connection) (r : GoError) (p p1 : Pc) (bc : Bool)
    (h : stepAt c r p = some (c1, p1, bc)) :
    c1.broadcasts + pending c1 = c.broadcasts + pending c := by
  unfold pending
  cases p with
  | idle => simp [stepAt] at h
  | bypassed => simp [stepAt] at h
  | parked k => simp [stepAt] at h
  | holding k => simp [stepAt] at h
  | done e => simp [stepAt] at h
  | lrAcquire priority tx =>
    simp only [stepAt] at h
    split at h
    · simp only [Option.some.injEq, Prod.mk.injEq] at h
      obtain ⟨rfl, rfl, rfl⟩ := h
      rfl
    · simp only [Option.map_eq_some', Prod.mk.injEq] at h
      obtain ⟨a, _, rfl, rfl, rfl⟩ := h
      rfl
  | semAcquire k =>
    simp only [stepAt] at h
    split at h
    · simp only [Option.some.injEq, Prod.mk.injEq] at h
      obtain ⟨rfl, rfl, rfl⟩ := h
      rfl
    · simp only [Option.map_eq_some', Prod.mk.injEq] at h
      obtain ⟨a, ha, rfl, rfl, rfl⟩ := h
      obtain ⟨-, f2, -, -, f5, -⟩ := semAcquire_fields _ _ _ ha
      rw [f2, f5]
  | gate k =>
    simp only [stepAt] at h
    rcases acquireGate_cases c with ⟨e, h0, h1⟩ | ⟨h0, _, h1⟩ | ⟨h0, _, h1⟩ <;>
      rw [h1] at h <;> simp only [Option.some.injEq, Prod.mk.injEq] at h <;>
      obtain ⟨rfl, rfl, rfl⟩ := h <;> rfl
  | txLock k =>
    simp only [stepAt, Option.map_eq_some', Prod.mk.injEq] at h
    obtain ⟨a, ha, rfl, rfl, rfl⟩ := h
    obtain ⟨-, f2, -, -, f5, -⟩ := lockTx_fields _ _ _ ha
    rw [f2, f5]
  | txReopen k =>
    cases r <;> simp only [stepAt, txReopen, reopenDB, Option.some.injEq, Prod.mk.injEq] at h <;>
      obtain ⟨rfl, rfl, rfl⟩ := h <;> rfl
  | connx k =>
    cases r <;> simp only [stepAt, connx, Option.some.injEq, Prod.mk.injEq] at h <;>
      obtain ⟨rfl, rfl, rfl⟩ := h <;> simp
  | relClose k =>
    simp only [stepAt, Option.some.injEq, Prod.mk.injEq] at h
    obtain ⟨rfl, rfl, rfl⟩ := h
    simp
  | relGate k err =>
    simp only [stepAt, Option.some.injEq, Prod.mk.injEq] at h
    obtain ⟨rfl, rfl, rfl⟩ := h
    rw [releaseGate_eq]
    split
    · next hd => simp [hd.2]
    · simp
  | relSem k err =>
    simp only [stepAt, Option.some.injEq, Prod.mk.injEq] at h
    obtain ⟨rfl, rfl, rfl⟩ := h
    obtain ⟨-, f2, -, -, f5, -⟩ := semRelease_fields c k
    rw [f2, f5]
  | relLR err =>
    simp only [stepAt, Option.some.injEq, Prod.mk.injEq] at h
    obtain ⟨rfl, rfl, rfl⟩ := h
    rfl

theorem step_pending (s s1 : Sys) (a : Action)
    (ha : ∀ err, a = .checkErr err → ¬ fatalSignature err) (h : step s a = some s1) :
    s1.c.broadcasts + pending s1.c = s.c.broadcasts + pending s.c := by
  cases a with
  | start i k bypass =>
    simp only [step] at h
    split at h
    · split at h <;> cases h <;> rfl
    · cases h
  | callRelease i =>
    simp only [step] at h
    split at h <;> cases h <;> rfl
  | checkErr err =>
    simp only [step, Option.some.injEq] at h
    subst h
    rw [checkErr_not_fatal s.c err (ha err rfl)]
  | run i r =>
    simp only [step] at h
    split at h
    · next p hi =>
      split at h
      · next c1 p1 bc hst =>
        simp only [Option.some.injEq] at h
        subst h
        exact stepAt_pending _ _ _ _ _ _ hst
      · cases h
    · cases h

theorem runActions_pending (acts : List Action) : ∀ s s1 : Sys,
    (∀ err, Action.checkErr err ∈ acts → ¬ fatalSignature err) →
    runActions s acts = some s1 →
    s1.c.broadcasts + pending s1.c = s.c.broadcasts + pending s.c := by
  induction acts with
  | nil =>
    intro s s1 _ h
    simp only [runActions, Option.some.injEq] at h
    subst h
    rfl
  | cons a acts ih =>
    intro s s1 ha h
    simp only [runActions, Option.bind_eq_some] at h
    obtain ⟨s2, h1, h2⟩ := h
    have e1 := step_pending s s2 a
      (fun err he => ha err (by rw [he]; exact List.mem_cons_self _ _)) h1
    have e2 := ih s2 s1 (fun err he => ha err (List.mem_cons_of_mem _ he)) h2
    rw [e2, e1]

theorem release_broadcasts (c : connection) (tx : Bool) (closeErr r : GoError) :
    (release c tx closeErr r).1.broadcasts =
      c.broadcasts + (if c.dbConnCount - 1 = 0 ∧ c.dbReopen = true then 1 else 0) := by
  unfold release
  by_cases h : c.dbConnCount - 1 = 0 ∧ c.dbReopen = true
  · rw [releaseGate_drain _ _ _ (by simpa using h)]; simp [h]
  · rw [releaseGate_no_drain _ _ _ (by simpa using h)]; simp [h]

/-- C1: a release callback calls `reopenDB` if and only if its decrement brings
`dbConnCount` to exactly zero while `dbReopen` is true (otherwise it makes no call); that
release clears `dbReopen` and is the only place that calls `Broadcast`; over any list of
gate operations without a new `checkErr` (release calls and acquisition attempts in any
order) the number of release-triggered reopens is one when a reopen is pending and the
releases drain a positive count to zero, and zero otherwise; and in every interleaving of
the callers without a new fatal error, the release-triggered reopens made (counted by the
broadcasts) plus the request still pending equal the request pending at the start: one
request, one reopen. -/
theorem release_reopens_exactly_at_zero (c : connection) (tx : Bool) (closeErr r : GoError)
    (ops : List GateOp) :
    ((release c tx closeErr r).1.reopens = c.reopens + 1 ↔
      (c.dbConnCount - 1 = 0 ∧ c.dbReopen = true)) ∧
    ((release c tx closeErr r).1.reopens = c.reopens ↔
      ¬ (c.dbConnCount - 1 = 0 ∧ c.dbReopen = true)) ∧
    ((c.dbConnCount - 1 = 0 ∧ c.dbReopen = true) →
      (release c tx closeErr r).1.dbReopen = false) ∧
    (release c tx closeErr r).1.broadcasts - c.broadcasts =
      (release c tx closeErr r).1.reopens - c.reopens ∧
    (gateRun c ops).reopens = c.reopens +
      (if c.dbReopen = true ∧ 0 < c.dbConnCount ∧
          c.dbConnCount ≤ (ops.countP GateOp.isRelease : Nat) then 1 else 0) ∧
    (∀ (s s1 : Sys) (acts : List Action),
      (∀ err, Action.checkErr err ∈ acts → ¬ fatalSignature err) →
      runActions s acts = some s1 →
      s1.c.broadcasts + pending s1.c = s.c.broadcasts + pending s.c) := by
  refine ⟨?_, ?_, fun h => ?_, ?_, gateRun_reopens ops c,
    fun s s1 acts ha h => runActions_pending acts s s1 ha h⟩
  · rw [release_reopens]; split <;> simp_all
  · rw [release_reopens]; split <;> simp_all
  · rw [release_dbReopen, if_pos h]
  · rw [release_reopens, release_broadcasts]; omega

/-- C1, witness: two holders and a pending reopen; three releases interleaved with
acquisition attempts make exactly one reopen. -/
theorem release_reopens_exactly_at_zero_witness :
    (gateRun { Open cfgFile with dbConnCount := 2, dbReopen := true }
      [.release false none none, .acquire, .release true none none, .acquire,
       .release false none none]).reopens = 1 :=
  (release_reopens_exactly_at_zero { Open cfgFile with dbConnCount := 2, dbReopen := true }
    false none none
    [.release false none none, .acquire, .release true none none, .acquire,
     .release false none none]).2.2.2.2.1

theorem stepAt_tx_effect (c c1 : connection) (r : GoError) (p p1 : Pc) (bc : Bool)
    (h : stepAt c r p = some (c1, p1, bc))
    (hw : writeHolder p ≤ writerBit c) (hr : readHolder p ≤ c.txMu.readers)
    (hs : strayReopen p = 0) (hx : c.txMu.writer = true → c.txMu.readers = 0) :
    writerBit c1 + writeHolder p = writerBit c + writeHolder p1 ∧
    c1.txMu.readers + readHolder p = c.txMu.readers + readHolder p1 ∧
    strayReopen p1 = 0 ∧
    (c1.txMu.writer = true → c1.txMu.readers = 0) := by
  cases p with
  | idle => simp [stepAt] at h
  | bypassed => simp [stepAt] at h
  | parked k => simp [stepAt] at h
  | holding k => simp [stepAt] at h
  | done e => simp [stepAt] at h
  | lrAcquire priority tx =>
    simp only [stepAt] at h
    split at h
    · simp only [Option.some.injEq, Prod.mk.injEq] at h
      obtain ⟨rfl, rfl, rfl⟩ := h
      exact ⟨rfl, rfl, rfl, hx⟩
    · simp only [Option.map_eq_some', Prod.mk.injEq] at h
      obtain ⟨a, _, rfl, rfl, rfl⟩ := h
      exact ⟨rfl, rfl, rfl, hx⟩
  | semAcquire k =>
    simp only [stepAt] at h
    split at h
    · simp only [Option.some.injEq, Prod.mk.injEq] at h
      obtain ⟨rfl, rfl, rfl⟩ := h
      cases hl : k.longRunning <;>
        simp [writeHolder, readHolder, strayReopen] <;> exact hx
    · simp only [Option.map_eq_some', Prod.mk.injEq] at h
      obtain ⟨a, ha, rfl, rfl, rfl⟩ := h
      obtain ⟨-, -, -, -, -, -, f7, -⟩ := semAcquire_fields _ _ _ ha
      simp only [writerBit, f7]
      exact ⟨rfl, rfl, rfl, hx⟩
  | gate k =>
    simp only [stepAt] at h
    rcases acquireGate_cases c with ⟨e, h0, h1⟩ | ⟨h0, _, h1⟩ | ⟨h0, _, h1⟩ <;>
      rw [h1] at h <;> simp only [Option.some.injEq, Prod.mk.injEq] at h <;>
      obtain ⟨rfl, rfl, rfl⟩ := h <;> exact ⟨rfl, rfl, rfl, hx⟩
  | txLock k =>
    simp only [stepAt, Option.map_eq_some', Prod.mk.injEq] at h
    obtain ⟨a, ha, rfl, rfl, rfl⟩ := h
    cases hk : k.tx with
    | true =>
      simp only [lockTx, hk, if_true, Option.map_eq_some', RWMutex.Lock] at ha
      obtain ⟨m, hm, rfl⟩ := ha
      split at hm
      · next hg =>
        cases hm
        by_cases hf : c.config.DBFilePath = "" <;>
          simp [needsTxReopen, writerBit, writeHolder, readHolder, strayReopen, hk, hg.1,
            hg.2, hf]
      · cases hm
    | false =>
      simp only [lockTx, hk, Bool.false_eq_true, if_false, Option.map_eq_some',
        RWMutex.RLock] at ha
      obtain ⟨m, hm, rfl⟩ := ha
      split at hm
      · next hg =>
        cases hm
        simp [needsTxReopen, writerBit, hg, writeHolder, readHolder, strayReopen, hk]
      · cases hm
  | txReopen k =>
    have hk : k.tx = true := by
      simp only [strayReopen] at hs
      split at hs
      · assumption
      · cases hs
    have hwr : c.txMu.writer = true := by
      simp only [writeHolder, writerBit] at hw
      split at hw
      · assumption
      · omega
    have hrd := hx hwr
    cases r <;> simp only [stepAt, txReopen, reopenDB, Option.some.injEq, Prod.mk.injEq] at h <;>
      obtain ⟨rfl, rfl, rfl⟩ := h <;>
      simp [writerBit, writeHolder, readHolder, strayReopen, hk, hwr, hrd, RWMutex.Unlock]
  | connx k =>
    cases r with
    | none =>
      simp only [stepAt, connx, Option.some.injEq, Prod.mk.injEq] at h
      obtain ⟨rfl, rfl, rfl⟩ := h
      exact ⟨rfl, rfl, rfl, hx⟩
    | some e =>
      simp only [stepAt, connx, Option.some.injEq, Prod.mk.injEq] at h
      obtain ⟨rfl, rfl, rfl⟩ := h
      cases hk : k.tx with
      | true =>
        have hwr : c.txMu.writer = true := by
          simp only [writeHolder, writerBit, hk, if_true] at hw
          split at hw
          · assumption
          · omega
        have hrd := hx hwr
        simp [releaseTx, writerBit, writeHolder, readHolder, strayReopen, hk, hwr, hrd,
          RWMutex.Unlock]
      | false =>
        simp only [readHolder, hk, Bool.false_eq_true, if_false] at hr
        have hwr : c.txMu.writer = false := by
          cases hc : c.txMu.writer with
          | false => rfl
          | true => have := hx hc; omega
        simp [releaseTx, writerBit, writeHolder, readHolder, strayReopen, hk, hwr,
          RWMutex.RUnlock]
        omega
  | relClose k =>
    simp only [stepAt, Option.some.injEq, Prod.mk.injEq] at h
    obtain ⟨rfl, rfl, rfl⟩ := h
    cases hk : k.tx with
    | true =>
      have hwr : c.txMu.writer = true := by
        simp only [writeHolder, writerBit, hk, if_true] at hw
        split at hw
        · assumption
        · omega
      have hrd := hx hwr
      simp [releaseTx, writerBit, writeHolder, readHolder, strayReopen, hk, hwr, hrd,
        RWMutex.Unlock]
    | false =>
      simp only [readHolder, hk, Bool.false_eq_true, if_false] at hr
      have hwr : c.txMu.writer = false := by
        cases hc : c.txMu.writer with
        | false => rfl
        | true => have := hx hc; omega
      simp [releaseTx, writerBit, writeHolder, readHolder, strayReopen, hk, hwr,
        RWMutex.RUnlock]
      omega
  | relGate k err =>
    simp only [stepAt, Option.some.injEq, Prod.mk.injEq] at h
    obtain ⟨rfl, rfl, rfl⟩ := h
    rw [releaseGate_eq]
    split <;> exact ⟨rfl, rfl, rfl, hx⟩
  | relSem k err =>
    simp only [stepAt, Option.some.injEq, Prod.mk.injEq] at h
    obtain ⟨rfl, rfl, rfl⟩ := h
    obtain ⟨-, -, -, -, -, -, f7, -⟩ := semRelease_fields c k
    cases hl : k.longRunning <;>
      simp [writerBit, f7, writeHolder, readHolder, strayReopen] <;> exact hx
  | relLR err =>
    simp only [stepAt, Option.some.injEq, Prod.mk.injEq] at h
    obtain ⟨rfl, rfl, rfl⟩ := h
    exact ⟨rfl, rfl, rfl, hx⟩

theorem writeHolder_wake (p : Pc) : writeHolder (wake p) = writeHolder p := by cases p <;> rfl
theorem readHolder_wake (p : Pc) : readHolder (wake p) = readHolder p := by cases p <;> rfl
theorem strayReopen_wake (p : Pc) : strayReopen (wake p) = strayReopen p := by
  cases p <;> rfl

theorem entry_tx (k : Call) :
    writeHolder k.entry = 0 ∧ readHolder k.entry = 0 ∧ strayReopen k.entry = 0 := by
  cases k with
  | meta => exact ⟨rfl, rfl, rfl⟩
  | olap pr lr tx => cases lr <;> exact ⟨rfl, rfl, rfl⟩

theorem move_tx (s : Sys) (i : Nat) (p p1 : Pc) (hi : s.threads.get? i = some p)
    (h1 : writeHolder p1 = writeHolder p) (h2 : readHolder p1 = readHolder p)
    (h3 : strayReopen p1 = strayReopen p) (hinv : TxInv s) : TxInv (s.move i s.c p1) := by
  have e1 := total_set writeHolder p1 p s.threads i hi
  have e2 := total_set readHolder p1 p s.threads i hi
  have e3 := total_set strayReopen p1 p s.threads i hi
  rw [h1] at e1; rw [h2] at e2; rw [h3] at e3
  obtain ⟨i1, i2, i3, i4⟩ := hinv
  simp only [TxInv, Sys.move]
  refine ⟨?_, ?_, i3, ?_⟩ <;> omega

theorem step_tx (s s1 : Sys) (a : Action) (hinv : TxInv s) (h : step s a = some s1) :
    TxInv s1 := by
  cases a with
  | start i k bypass =>
    simp only [step] at h
    split at h
    · next hi =>
      obtain ⟨k1, k2, k3⟩ := entry_tx k
      split at h <;> cases h
      · exact move_tx s i _ .bypassed hi rfl rfl rfl hinv
      · exact move_tx s i _ k.entry hi k1 k2 k3 hinv
    · cases h
  | callRelease i =>
    simp only [step] at h
    split at h
    · next k hi => cases h; exact move_tx s i _ (.relClose k) hi rfl rfl rfl hinv
    · next hi => cases h; exact move_tx s i _ (.done none) hi rfl rfl rfl hinv
    · cases h
  | checkErr err =>
    simp only [step, Option.some.injEq] at h
    subst h
    obtain ⟨-, -, -, -, -, -, -, f8, -⟩ := checkErr_fields s.c err
    simp only [TxInv, writerBit, f8]
    exact hinv
  | run i r =>
    simp only [step] at h
    split at h
    · next p hi =>
      split at h
      · next c1 p1 bc hst =>
        simp only [Option.some.injEq] at h
        subst h
        obtain ⟨i1, i2, i3, i4⟩ := hinv
        have l1 := le_total_of_get writeHolder p s.threads i hi
        have l2 := le_total_of_get readHolder p s.threads i hi
        have l3 := le_total_of_get strayReopen p s.threads i hi
        obtain ⟨g1, g2, g3, g4⟩ := stepAt_tx_effect _ _ _ _ _ _ hst (by omega) (by omega)
          (by omega) i3
        have t1 := total_step writeHolder writeHolder_wake s.threads i p p1 bc hi
        have t2 := total_step readHolder readHolder_wake s.threads i p p1 bc hi
        have t3 := total_step strayReopen strayReopen_wake s.threads i p p1 bc hi
        simp only [TxInv]
        refine ⟨?_, ?_, g4, ?_⟩ <;> omega
      · cases h
    · cases h

theorem runActions_tx (acts : List Action) : ∀ s s1 : Sys, TxInv s →
    runActions s acts = some s1 → TxInv s1 := by
  induction acts with
  | nil =>
    intro s s1 hinv h
    simp only [runActions, Option.some.injEq] at h
    subst h
    exact hinv
  | cons a acts ih =>
    intro s s1 hinv h
    simp only [runActions, Option.bind_eq_some] at h
    obtain ⟨s2, h1, h2⟩ := h
    exact ih s2 s1 (step_tx s s2 a hinv h1) h2

theorem init_tx (cfg : Config) (n : Nat) : TxInv (Sys.init cfg n) := by
  have e1 := total_replicate_idle writeHolder rfl n
  have e2 := total_replicate_idle readHolder rfl n
  have e3 := total_replicate_idle strayReopen rfl n
  simp only [TxInv, Sys.init, e1, e2, e3]
  exact ⟨rfl, rfl, fun _ => rfl, trivial⟩

theorem reachable_tx (s : Sys) (h : Reachable s) : TxInv s := by
  obtain ⟨cfg, n, acts, h⟩ := h
  exact runActions_tx acts _ _ (init_tx cfg n) h

theorem total_add (w1 w2 : Pc → Nat) (ts : List Pc) :
    total (fun p => w1 p + w2 p) ts = total w1 ts + total w2 ts := by
  induction ts with
  | nil => rfl
  | cons t ts ih =>
    simp only [total, List.map_cons, List.sum_cons] at ih ⊢
    omega

theorem two_le_total (w : Pc → Nat) : ∀ (ts : List Pc) (i j : Nat) (p q : Pc), i ≠ j →
    ts.get? i = some p → ts.get? j = some q → w p + w q ≤ total w ts := by
  intro ts
  induction ts with
  | nil => intro i j p q _ h; simp at h
  | cons t ts ih =>
    intro i j p q hne hi hj
    cases i with
    | zero =>
      cases j with
      | zero => exact absurd rfl hne
      | succ j =>
        simp only [List.get?_cons_zero, Option.some.injEq, List.get?_cons_succ] at hi hj
        subst hi
        have := le_total_of_get w q ts j hj
        simp only [total, List.map_cons, List.sum_cons] at this ⊢
        omega
    | succ i =>
      cases j with
      | zero =>
        simp only [List.get?_cons_zero, Option.some.injEq, List.get?_cons_succ] at hi hj
        subst hj
        have := le_total_of_get w p ts i hi
        simp only [total, List.map_cons, List.sum_cons] at this ⊢
        omega
      | succ j =>
        simp only [List.get?_cons_succ] at hi hj
        have := ih i j p q (by omega) hi hj
        simp only [total, List.map_cons, List.sum_cons] at this ⊢
        omega

theorem stepAt_config (c c1 : connection) (r : GoError) (p p1 : Pc) (bc : Bool)
    (h : stepAt c r p = some (c1, p1, bc)) :
    c1.config = c.config ∧ (∀ k, p1 = .txReopen k → c.config.DBFilePath ≠ "") := by
  cases p with
  | idle => simp [stepAt] at h
  | bypassed => simp [stepAt] at h
  | parked k => simp [stepAt] at h
  | holding k => simp [stepAt] at h
  | done e => simp [stepAt] at h
  | lrAcquire priority tx =>
    simp only [stepAt] at h
    split at h
    · simp only [Option.some.injEq, Prod.mk.injEq] at h
      obtain ⟨rfl, rfl, rfl⟩ := h
      exact ⟨rfl, fun k hk => by cases hk⟩
    · simp only [Option.map_eq_some', Prod.mk.injEq] at h
      obtain ⟨a, _, rfl, rfl, rfl⟩ := h
      exact ⟨rfl, fun k hk => by cases hk⟩
  | semAcquire k =>
    simp only [stepAt] at h
    split at h
    · simp only [Option.some.injEq, Prod.mk.injEq] at h
      obtain ⟨rfl, rfl, rfl⟩ := h
      refine ⟨rfl, fun k1 hk => ?_⟩
      split at hk <;> cases hk
    · simp only [Option.map_eq_some', Prod.mk.injEq] at h
      obtain ⟨a, ha, rfl, rfl, rfl⟩ := h
      obtain ⟨-, -, -, -, -, f6, -⟩ := semAcquire_fields _ _ _ ha
      exact ⟨f6, fun k hk => by cases hk⟩
  | gate k =>
    simp only [stepAt] at h
    rcases acquireGate_cases c with ⟨e, h0, h1⟩ | ⟨h0, _, h1⟩ | ⟨h0, _, h1⟩ <;>
      rw [h1] at h <;> simp only [Option.some.injEq, Prod.mk.injEq] at h <;>
      obtain ⟨rfl, rfl, rfl⟩ := h <;> exact ⟨rfl, fun k hk => by cases hk⟩
  | txLock k =>
    simp only [stepAt, Option.map_eq_some', Prod.mk.injEq] at h
    obtain ⟨a, ha, rfl, rfl, rfl⟩ := h
    obtain ⟨-, -, -, -, -, f6, -⟩ := lockTx_fields _ _ _ ha
    refine ⟨f6, fun k1 hk => ?_⟩
    split at hk
    · next hn =>
      simp only [needsTxReopen, f6, Bool.and_eq_true, bne_iff_ne] at hn
      exact hn.2
    · cases hk
  | txReopen k =>
    cases r <;> simp only [stepAt, txReopen, reopenDB, Option.some.injEq, Prod.mk.injEq] at h <;>
      obtain ⟨rfl, rfl, rfl⟩ := h <;> exact ⟨rfl, fun k hk => by cases hk⟩
  | connx k =>
    obtain ⟨-, -, -, f4⟩ := releaseTx_sems c k.tx
    cases r <;> simp only [stepAt, connx, Option.some.injEq, Prod.mk.injEq] at h <;>
      obtain ⟨rfl, rfl, rfl⟩ := h
    · exact ⟨rfl, fun k hk => by cases hk⟩
    · exact ⟨f4, fun k hk => by cases hk⟩
  | relClose k =>
    obtain ⟨-, -, -, f4⟩ := releaseTx_sems c k.tx
    simp only [stepAt, Option.some.injEq, Prod.mk.injEq] at h
    obtain ⟨rfl, rfl, rfl⟩ := h
    exact ⟨f4, fun k hk => by cases hk⟩
  | relGate k err =>
    simp only [stepAt, Option.some.injEq, Prod.mk.injEq] at h
    obtain ⟨rfl, rfl, rfl⟩ := h
    rw [releaseGate_eq]
    split <;> exact ⟨rfl, fun k hk => by cases hk⟩
  | relSem k err =>
    simp only [stepAt, Option.some.injEq, Prod.mk.injEq] at h
    obtain ⟨rfl, rfl, rfl⟩ := h
    obtain ⟨-, -, -, -, -, f6, -⟩ := semRelease_fields c k
    refine ⟨f6, fun k1 hk => ?_⟩
    split at hk <;> cases hk
  | relLR err =>
    simp only [stepAt, Option.some.injEq, Prod.mk.injEq] at h
    obtain ⟨rfl, rfl, rfl⟩ := h
    exact ⟨rfl, fun k hk => by cases hk⟩

theorem wake_eq_txReopen (p : Pc) (k : Call) (h : wake p = .txReopen k) : p = .txReopen k := by
  cases p <;> simp_all [wake]

theorem threads_set_cases (ts : List Pc) (i j : Nat) (p1 q : Pc)
    (h : (ts.set i p1).get? j = some q) : (i = j ∧ q = p1) ∨ (i ≠ j ∧ ts.get? j = some q) := by
  by_cases hij : i = j
  · subst hij
    left
    simp only [List.get?_eq_getElem?] at h
    have hl : i < ts.length := by
      by_contra hl
      rw [List.getElem?_eq_none (by simpa using hl)] at h
      cases h
    rw [List.getElem?_set_self hl] at h
    exact ⟨rfl, (Option.some.inj h).symm⟩
  · right
    rw [threads_set_ne _ _ _ _ hij] at h
    exact ⟨hij, h⟩

theorem step_file (s s1 : Sys) (a : Action) (hinv : FileInv s) (h : step s a = some s1) :
    FileInv s1 := by
  cases a with
  | start i k bypass =>
    simp only [step] at h
    split at h
    · split at h <;> cases h <;> intro j kj hj <;>
        rcases threads_set_cases _ _ _ _ _ hj with ⟨_, hq⟩ | ⟨_, hq⟩
      · cases hq
      · exact hinv j kj hq
      · cases k with
        | meta => cases hq
        | olap pr lr tx => cases lr <;> cases hq
      · exact hinv j kj hq
    · cases h
  | callRelease i =>
    simp only [step] at h
    split at h <;> cases h <;> intro j kj hj <;>
      rcases threads_set_cases _ _ _ _ _ hj with ⟨_, hq⟩ | ⟨_, hq⟩
    · cases hq
    · exact hinv j kj hq
    · cases hq
    · exact hinv j kj hq
  | checkErr err =>
    simp only [step, Option.some.injEq] at h
    subst h
    obtain ⟨-, -, -, -, -, -, -, -, f9⟩ := checkErr_fields s.c err
    intro j kj hj
    simp only [f9]
    exact hinv j kj hj
  | run i r =>
    simp only [step] at h
    split at h
    · next p hi =>
      split at h
      · next c1 p1 bc hst =>
        simp only [Option.some.injEq] at h
        subst h
        obtain ⟨g1, g2⟩ := stepAt_config _ _ _ _ _ _ hst
        intro j kj hj
        simp only [g1]
        rcases threads_set_cases _ _ _ _ _ hj with ⟨_, hq⟩ | ⟨_, hq⟩
        · exact g2 kj hq.symm
        · cases bc with
          | false => exact hinv j kj hq
          | true =>
            simp only [if_true, List.get?_eq_getElem?, List.getElem?_map,
              Option.map_eq_some'] at hq
            obtain ⟨q, hq1, hq2⟩ := hq
            rw [wake_eq_txReopen q kj hq2] at hq1
            exact hinv j kj (by simpa using hq1)
      · cases h
    · cases h

theorem runActions_file (acts : List Action) : ∀ s s1 : Sys, FileInv s →
    runActions s acts = some s1 → FileInv s1 := by
  induction acts with
  | nil =>
    intro s s1 hinv h
    simp only [runActions, Option.some.injEq] at h
    subst h
    exact hinv
  | cons a acts ih =>
    intro s s1 hinv h
    simp only [runActions, Option.bind_eq_some] at h
    obtain ⟨s2, h1, h2⟩ := h
    exact ih s2 s1 (step_file s s2 a hinv h1) h2

theorem reachable_file (s : Sys) (h : Reachable s) : FileInv s := by
  obtain ⟨cfg, n, acts, h⟩ := h
  refine runActions_file acts _ _ ?_ h
  intro i k hi
  simp only [Sys.init, List.get?_eq_getElem?] at hi
  have := List.getElem?_eq_some_iff.1 hi
  obtain ⟨hl, he⟩ := this
  simp at he

theorem lockTx_write (c c1 : connection) (h : lockTx c true = some c1) :
    c1.txMu.writer = true ∧ c1.txMu.readers = 0 := by
  simp only [lockTx, if_true, Option.map_eq_some', RWMutex.Lock] at h
  obtain ⟨m, hm, rfl⟩ := h
  split at hm
  · next hg => cases hm; exact ⟨rfl, hg.1⟩
  · cases hm

theorem acquireConn_reopens (c : connection) (tx : Bool) (reopenR connxR : GoError) :
    ((acquireConn c tx reopenR connxR).2 = .conn →
      (acquireConn c tx reopenR connxR).1.reopens =
        c.reopens + (if tx = true ∧ c.config.DBFilePath ≠ "" then 1 else 0)) ∧
    (acquireConn c tx reopenR connxR).1.reopens ≤ c.reopens + 1 ∧
    ((tx = false ∨ c.config.DBFilePath = "") →
      (acquireConn c tx reopenR connxR).1.reopens = c.reopens) := by
  rcases acquireGate_cases c with ⟨e1, h0, h1⟩ | ⟨_, h0, h1⟩ | ⟨_, _, h1⟩
  · simp [acquireConn, h1]
  · simp [acquireConn, h1]
  · simp only [acquireConn, h1]
    cases hl : lockTx _ tx with
    | none => simp
    | some c2 =>
      obtain ⟨-, -, -, l4, -, l6, -⟩ := lockTx_fields _ _ _ hl
      have l4 : c2.reopens = c.reopens := l4
      have l6 : c2.config = c.config := l6
      simp only
      by_cases hn : needsTxReopen c2 tx = true
      · have hn2 : tx = true ∧ c.config.DBFilePath ≠ "" := by
          simpa [needsTxReopen, l6] using hn
        rw [if_pos hn]
        rcases reopenR with _ | e <;> rcases connxR with _ | e2 <;>
          simp [txReopen, reopenDB, acquireConn.finish, connx, l4, hn2]
      · have hn2 : ¬ (tx = true ∧ c.config.DBFilePath ≠ "") := by
          simpa [needsTxReopen, l6] using hn
        rw [if_neg hn]
        rcases connxR with _ | e2 <;> simp [acquireConn.finish, connx, l4, hn2]

theorem holdsConn_le (q : Pc) : holdsConn q ≤ writeHolder q + readHolder q := by
  cases q <;> simp only [holdsConn, writeHolder, readHolder] <;> (try split) <;> omega

/-- C12: in every state reachable from `Driver.Open`, while a caller holds the write side
of `txMu` (granted by `c.txMu.Lock()` in a transactional `acquireConn`: at its reopen, at
`c.db.Connx`, holding the connection, and in its release closure up to `releaseTx()`), no
other caller holds either side of `txMu` and no other caller holds a connection obtained
through `acquireConn`; the lock itself records one writer and no reader. In particular at
most one transactional acquisition holds a connection at a time. -/
theorem transaction_exclusive (s : Sys) (hs : Reachable s) :
    (∀ i j p q, s.threads.get? i = some p → s.threads.get? j = some q →
      writeHolder p = 1 → i ≠ j →
      writeHolder q = 0 ∧ readHolder q = 0 ∧ holdsConn q = 0) ∧
    (∀ i p, s.threads.get? i = some p → writeHolder p = 1 →
      s.c.txMu.writer = true ∧ s.c.txMu.readers = 0) ∧
    (∀ k, writeHolder (.txReopen k) = 1 ∧
      writeHolder (.connx k) = (if k.tx then 1 else 0) ∧
      writeHolder (.holding k) = (if k.tx then 1 else 0) ∧
      writeHolder (.relClose k) = (if k.tx then 1 else 0) ∧
      holdsConn (.holding k) = 1 ∧ holdsConn (.relClose k) = 1) := by
  obtain ⟨i1, i2, i3, i4⟩ := reachable_tx s hs
  have hwr : ∀ i p, s.threads.get? i = some p → writeHolder p = 1 →
      s.c.txMu.writer = true ∧ s.c.txMu.readers = 0 := by
    intro i p hi hp
    have := le_total_of_get writeHolder p s.threads i hi
    have hw : s.c.txMu.writer = true := by
      simp only [writerBit] at i1
      split at i1
      · assumption
      · omega
    exact ⟨hw, i3 hw⟩
  refine ⟨fun i j p q hi hj hp hne => ?_, hwr, fun k => ⟨rfl, rfl, rfl, rfl, rfl, rfl⟩⟩
  obtain ⟨hw, hr⟩ := hwr i p hi hp
  have e1 := two_le_total writeHolder s.threads i j p q hne hi hj
  have e2 := le_total_of_get readHolder q s.threads j hj
  have hb : writerBit s.c = 1 := by simp [writerBit, hw]
  have hq1 : writeHolder q = 0 := by omega
  have hq2 : readHolder q = 0 := by omega
  have := holdsConn_le q
  exact ⟨hq1, hq2, by omega⟩

/-- C11: a call of `acquireConn` that returns a connection has made exactly one
`reopenDB` when it is transactional on a file-backed handle and none otherwise; no call
makes more than one, and a call that is not transactional or whose handle is not
file-backed makes none. In every reachable state a caller standing at the transactional
reopen is transactional, on a file-backed handle, and holds the write side of `txMu` with
no reader; its step makes the one `reopenDB` call and only then goes on to `c.db.Connx`
(still holding the write lock) or, on an error, unlocks and returns it. No other step of an
acquisition calls `reopenDB`: the only other caller of it is the locked section of a
release closure. -/
theorem tx_acquisition_reopens_once (c : connection) (tx : Bool) (reopenR connxR : GoError) :
    ((acquireConn c tx reopenR connxR).2 = .conn →
      (acquireConn c tx reopenR connxR).1.reopens =
        c.reopens + (if tx = true ∧ c.config.DBFilePath ≠ "" then 1 else 0)) ∧
    (acquireConn c tx reopenR connxR).1.reopens ≤ c.reopens + 1 ∧
    ((tx = false ∨ c.config.DBFilePath = "") →
      (acquireConn c tx reopenR connxR).1.reopens = c.reopens) ∧
    (∀ (s : Sys) (i : Nat) (k : Call), Reachable s →
      s.threads.get? i = some (.txReopen k) →
      k.tx = true ∧ s.c.config.DBFilePath ≠ "" ∧
      s.c.txMu.writer = true ∧ s.c.txMu.readers = 0 ∧
      ∀ r : GoError, ∃ s1, step s (.run i r) = some s1 ∧
        s1.c.reopens = s.c.reopens + 1 ∧
        (r = none → s1.threads.get? i = some (.connx k) ∧ s1.c.txMu.writer = true) ∧
        (∀ e, r = some e → s1.threads.get? i = some (.relSem k (some e)) ∧
          s1.c.txMu.writer = false)) ∧
    (∀ (c0 c1 : connection) (r : GoError) (p p1 : Pc) (bc : Bool),
      stepAt c0 r p = some (c1, p1, bc) → c1.reopens ≠ c0.reopens →
      (∃ k, p = .txReopen k) ∨ (∃ k err, p = .relGate k err)) := by
  obtain ⟨a1, a2, a3⟩ := acquireConn_reopens c tx reopenR connxR
  refine ⟨a1, a2, a3, ?_, ?_⟩
  · intro s i k hs hi
    obtain ⟨i1, i2, i3, i4⟩ := reachable_tx s hs
    have hk : k.tx = true := by
      have := le_total_of_get strayReopen _ s.threads i hi
      simp only [strayReopen] at this
      split at this
      · assumption
      · omega
    have hw : s.c.txMu.writer = true := by
      have := le_total_of_get writeHolder _ s.threads i hi
      simp only [writerBit, writeHolder] at i1 this
      split at i1
      · assumption
      · omega
    refine ⟨hk, reachable_file s hs i k hi, hw, i3 hw, fun r => ?_⟩
    cases r with
    | none =>
      have hst : stepAt s.c none (.txReopen k) =
          some ((txReopen s.c none).1, .connx k, false) := by
        simp only [stepAt, txReopen, reopenDB]
      exact ⟨_, step_run_eq s i none _ _ _ _ hi hst, rfl,
        fun _ => ⟨threads_set_self _ i _ _ hi, hw⟩, fun e he => by cases he⟩
    | some e =>
      have hst : stepAt s.c (some e) (.txReopen k) =
          some ((txReopen s.c (some e)).1, .relSem k (some e), false) := by
        simp only [stepAt, txReopen, reopenDB]
      refine ⟨_, step_run_eq s i (some e) _ _ _ _ hi hst, rfl,
        fun he => (by cases he), fun e1 he => ?_⟩
      cases he
      exact ⟨threads_set_self _ i _ _ hi, rfl⟩
  · intro c0 c1 r p p1 bc h hne
    cases p with
    | idle => simp [stepAt] at h
    | bypassed => simp [stepAt] at h
    | parked k => simp [stepAt] at h
    | holding k => simp [stepAt] at h
    | done e => simp [stepAt] at h
    | txReopen k => exact Or.inl ⟨k, rfl⟩
    | relGate k err => exact Or.inr ⟨k, err, rfl⟩
    | lrAcquire priority tx =>
      exfalso; apply hne
      simp only [stepAt] at h
      split at h
      · simp only [Option.some.injEq, Prod.mk.injEq] at h
        obtain ⟨rfl, rfl, rfl⟩ := h
        rfl
      · simp only [Option.map_eq_some', Prod.mk.injEq] at h
        obtain ⟨a, _, rfl, rfl, rfl⟩ := h
        rfl
    | semAcquire k =>
      exfalso; apply hne
      simp only [stepAt] at h
      split at h
      · simp only [Option.some.injEq, Prod.mk.injEq] at h
        obtain ⟨rfl, rfl, rfl⟩ := h
        rfl
      · simp only [Option.map_eq_some', Prod.mk.injEq] at h
        obtain ⟨a, ha, rfl, rfl, rfl⟩ := h
        exact (semAcquire_fields _ _ _ ha).2.2.2.1
    | gate k =>
      exfalso; apply hne
      simp only [stepAt] at h
      rcases acquireGate_cases c0 with ⟨e, h0, h1⟩ | ⟨h0, _, h1⟩ | ⟨h0, _, h1⟩ <;>
        rw [h1] at h <;> simp only [Option.some.injEq, Prod.mk.injEq] at h <;>
        obtain ⟨rfl, rfl, rfl⟩ := h <;> rfl
    | txLock k =>
      exfalso; apply hne
      simp only [stepAt, Option.map_eq_some', Prod.mk.injEq] at h
      obtain ⟨a, ha, rfl, rfl, rfl⟩ := h
      exact (lockTx_fields _ _ _ ha).2.2.2.1
    | connx k =>
      exfalso; apply hne
      cases r <;> simp only [stepAt, connx, Option.some.injEq, Prod.mk.injEq] at h <;>
        obtain ⟨rfl, rfl, rfl⟩ := h <;> simp
    | relClose k =>
      exfalso; apply hne
      simp only [stepAt, Option.some.injEq, Prod.mk.injEq] at h
      obtain ⟨rfl, rfl, rfl⟩ := h
      simp
    | relSem k err =>
      exfalso; apply hne
      simp only [stepAt, Option.some.injEq, Prod.mk.injEq] at h
      obtain ⟨rfl, rfl, rfl⟩ := h
      exact (semRelease_fields c0 k).2.2.2.1
    | relLR err =>
      exfalso; apply hne
      simp only [stepAt, Option.some.injEq, Prod.mk.injEq] at h
      obtain ⟨rfl, rfl, rfl⟩ := h
      rfl

/-- C12, witness: in `sysTxHolder` caller 0 holds a transactional connection and caller 1
is blocked at `c.txMu.RLock()` without a connection. -/
theorem transaction_exclusive_witness :
    Reachable sysTxHolder ∧ sysTxHolder.threads.get? 0 = some (.holding (.olap 0 false true)) ∧
    sysTxHolder.threads.get? 1 = some (.txLock .meta) ∧
    holdsConn (.txLock .meta) = 0 ∧
    stepAt sysTxHolder.c none (.txLock .meta) = none :=
  ⟨⟨cfgFile, 2, runTxHolder, by decide⟩, rfl, rfl,
    ((transaction_exclusive sysTxHolder ⟨cfgFile, 2, runTxHolder, by decide⟩).1 0 1 _ _
      rfl rfl rfl (by decide)).2.2, by decide⟩

/-- C11, witness: `sysTxReopen` is reachable with caller 0 at the transactional reopen
under the write lock, and a transactional call on the fresh file-backed handle returns a
connection after one reopen. -/
theorem tx_acquisition_reopens_once_witness :
    Reachable sysTxReopen ∧
    sysTxReopen.threads.get? 0 = some (.txReopen (.olap 0 false true)) ∧
    sysTxReopen.c.txMu.writer = true ∧
    (acquireConn (Open cfgFile) true none none).2 = .conn ∧
    (acquireConn (Open cfgFile) true none none).1.reopens = 1 :=
  have h := tx_acquisition_reopens_once (Open cfgFile) true none none
  ⟨⟨cfgFile, 2, runTxHolder.take 4, by decide⟩, rfl,
    (h.2.2.2.1 sysTxReopen 0 _ ⟨cfgFile, 2, runTxHolder.take 4, by decide⟩ rfl).2.2.1,
    by decide, h.1 (by decide)⟩

theorem scanEntries_append (h : Helpers) (root : String) (es1 es2 : List DirEntry) :
    scanEntries h root (es1 ++ es2) = scanEntries h root es1 ++ scanEntries h root es2 := by
  induction es1 with
  | nil => rfl
  | cons e es ih =>
    show attachEntry h root e ++ scanEntries h root (es ++ es2) = _
    rw [ih]
    simp only [scanEntries, List.append_assoc]

theorem scanEntries_insert (h : Helpers) (root : String) (es1 es2 : List DirEntry)
    (e : DirEntry) :
    scanEntries h root (es1 ++ e :: es2) =
      scanEntries h root es1 ++ attachEntry h root e ++ scanEntries h root es2 := by
  rw [scanEntries_append]
  simp only [scanEntries, List.append_assoc]

theorem attachEntry_orphan (h : Helpers) (root : String) (e : DirEntry)
    (hd : e.isDir = true) (hm : e.marker = .absent ∨ ∃ x, e.marker = .unreadable x) :
    attachEntry h root e = [.tableVersion e.name, .removeAll (joinPath root e.name)] := by
  rcases hm with hm | ⟨x, hm⟩ <;> simp [attachEntry, hd, hm]

theorem attachEntry_file (h : Helpers) (root : String) (e : DirEntry)
    (hd : e.isDir = false) : attachEntry h root e = [] := by
  simp [attachEntry, hd]

theorem attachEntry_attached (h : Helpers) (root : String) (e : DirEntry) (v : String)
    (hd : e.isDir = true) (hm : e.marker = .version v) (ha : e.attachErr = none) :
    attachEntry h root e = [.tableVersion e.name, .exec (attachStmt h root e.name v)] := by
  simp [attachEntry, hd, hm, ha]

theorem attachEntry_failed (h : Helpers) (root : String) (e : DirEntry) (v x : String)
    (hd : e.isDir = true) (hm : e.marker = .version v) (ha : e.attachErr = some x) :
    attachEntry h root e =
      [.tableVersion e.name, .exec (attachStmt h root e.name v),
       .exec (dropViewStmt h e.name), .removeAll (joinPath root e.name)] := by
  simp [attachEntry, hd, hm, ha]

theorem storageRecovery_ok (h : Helpers) (cfg : OpenConfig) (env : ReopenEnv)
    (es : List DirEntry) (h1 : env.connxErr = none) (h2 : env.readDir = .ok es) :
    storageRecovery h cfg env =
      ([.connx, .readDir cfg.ExtStoragePath] ++ scanEntries h cfg.ExtStoragePath es ++
        [.connClose], none) := by
  simp only [storageRecovery, h1, h2]

/-- C16: in the storage recovery of `reopenDB`, for a subdirectory `e` of the storage
root whose version marker is absent or unreadable, standing anywhere in the listing:
`RemoveAll` is called on it and no statement (so no ATTACH) is issued for it, and what is
done for the entries before and after it is exactly what is done for them when the listing
does not contain `e`. A sibling with a marker whose ATTACH succeeds gets that one ATTACH and
no removal, and an entry that is not a directory gets nothing at all. -/
theorem orphan_cleanup_frame (h : Helpers) (cfg : OpenConfig) (env : ReopenEnv)
    (es1 es2 : List DirEntry) (e : DirEntry) (hd : e.isDir = true)
    (hm : e.marker = .absent ∨ ∃ x, e.marker = .unreadable x)
    (h1 : env.connxErr = none) (h2 : env.readDir = .ok (es1 ++ e :: es2)) :
    storageRecovery h cfg env =
      ([.connx, .readDir cfg.ExtStoragePath] ++
        (scanEntries h cfg.ExtStoragePath es1 ++
          [.tableVersion e.name, .removeAll (joinPath cfg.ExtStoragePath e.name)] ++
          scanEntries h cfg.ExtStoragePath es2) ++ [.connClose], none) ∧
    storageRecovery h cfg { env with readDir := .ok (es1 ++ es2) } =
      ([.connx, .readDir cfg.ExtStoragePath] ++
        (scanEntries h cfg.ExtStoragePath es1 ++ scanEntries h cfg.ExtStoragePath es2) ++
        [.connClose], none) ∧
    (∀ sql, Effect.exec sql ∉ attachEntry h cfg.ExtStoragePath e) ∧
    (∀ (s : DirEntry) (v : String), s.isDir = true → s.marker = .version v →
      s.attachErr = none →
      attachEntry h cfg.ExtStoragePath s =
        [.tableVersion s.name, .exec (attachStmt h cfg.ExtStoragePath s.name v)]) ∧
    (∀ f : DirEntry, f.isDir = false →
      attachEntry h cfg.ExtStoragePath f = [] ∧
      scanEntries h cfg.ExtStoragePath (es1 ++ f :: es2) =
        scanEntries h cfg.ExtStoragePath (es1 ++ es2)) := by
  refine ⟨?_, ?_, ?_, fun s v a b c => attachEntry_attached h _ s v a b c, fun f hf => ?_⟩
  · rw [storageRecovery_ok h cfg env _ h1 h2, scanEntries_insert,
      attachEntry_orphan h _ e hd hm]
  · rw [storageRecovery_ok h cfg { env with readDir := .ok (es1 ++ es2) } (es1 ++ es2) h1 rfl,
      scanEntries_append]
  · intro sql
    rw [attachEntry_orphan h _ e hd hm]
    simp
  · refine ⟨attachEntry_file h _ f hf, ?_⟩
    rw [scanEntries_insert, attachEntry_file h _ f hf, scanEntries_append]
    simp

/-- C16, witness: a storage root holding an attachable table, an orphan and a table whose
ATTACH fails. -/
theorem orphan_cleanup_frame_witness :
    (reopenDB.steps sampleHelpers cfgExt false
      { envQuiet with readDir := .ok ([entryGood] ++ entryOrphan :: [entryOldFormat]) }).effects =
      [.newConnector cfgExt.DSN (bootQueries cfgExt), .openDB 4, .connx,
       .readDir "/data/main",
       .tableVersion "users",
       .exec "ATTACH '/data/main/users/1700000000001.db' AS \"users_1700000000001\"",
       .tableVersion "orphan", .removeAll "/data/main/orphan",
       .tableVersion "events",
       .exec "ATTACH '/data/main/events/1600000000000.db' AS \"events_1600000000000\"",
       .exec "DROP VIEW IF EXISTS \"events\"", .removeAll "/data/main/events",
       .connClose] ∧
    storageRecovery sampleHelpers cfgExt
        { envQuiet with readDir := .ok ([entryGood] ++ entryOrphan :: [entryOldFormat]) } =
      ([.connx, .readDir cfgExt.ExtStoragePath] ++
        (scanEntries sampleHelpers cfgExt.ExtStoragePath [entryGood] ++
          [.tableVersion entryOrphan.name,
           .removeAll (joinPath cfgExt.ExtStoragePath entryOrphan.name)] ++
          scanEntries sampleHelpers cfgExt.ExtStoragePath [entryOldFormat]) ++
        [.connClose], none) :=
  ⟨by decide,
    (orphan_cleanup_frame sampleHelpers cfgExt
      { envQuiet with readDir := .ok ([entryGood] ++ entryOrphan :: [entryOldFormat]) }
      [entryGood] [entryOldFormat] entryOrphan rfl (Or.inl rfl) rfl rfl).1⟩

theorem reopenDB_steps_err (h : Helpers) (cfg : OpenConfig) (env : ReopenEnv)
    (hx : cfg.ExtTableStorage = true) (hc : env.connectorErr = none) :
    (reopenDB.steps h cfg false env).err = (storageRecovery h cfg env).2 ∧
    (reopenDB.steps h cfg false env).effects =
      [.newConnector cfg.DSN (bootQueries cfg), .openDB cfg.PoolSize] ++
        (storageRecovery h cfg env).1 ∧
    (env.closeErr = none →
      (reopenDB.steps h cfg true env).err = (storageRecovery h cfg env).2) := by
  simp [reopenDB.steps, reopenDB.connect, hx, hc]
  intro hcl
  simp [hcl, reopenDB.connect, hx, hc]

/-- C17: in external-table-storage mode, once the connector is built: for a subdirectory
with a readable marker whose ATTACH fails, `reopenDB` issues the ATTACH, then
`DROP VIEW IF EXISTS` for the table name, then `RemoveAll` of the subdirectory; it goes on
with the remaining entries (the entries before and after are handled as on their own); with
a connection and a listing it returns nil whatever the markers and ATTACH results are; and
the only errors it returns from storage recovery are the error of getting the connection
and the error of listing the storage root. -/
theorem attach_failure_is_local (h : Helpers) (cfg : OpenConfig) (env : ReopenEnv)
    (hx : cfg.ExtTableStorage = true) (hc : env.connectorErr = none) :
    (∀ (e : DirEntry) (v x : String), e.isDir = true → e.marker = .version v →
      e.attachErr = some x →
      attachEntry h cfg.ExtStoragePath e =
        [.tableVersion e.name, .exec (attachStmt h cfg.ExtStoragePath e.name v),
         .exec (dropViewStmt h e.name), .removeAll (joinPath cfg.ExtStoragePath e.name)]) ∧
    (∀ (es1 es2 : List DirEntry) (e : DirEntry),
      scanEntries h cfg.ExtStoragePath (es1 ++ e :: es2) =
        scanEntries h cfg.ExtStoragePath es1 ++ attachEntry h cfg.ExtStoragePath e ++
          scanEntries h cfg.ExtStoragePath es2) ∧
    (∀ es : List DirEntry, env.connxErr = none → env.readDir = .ok es →
      (reopenDB.steps h cfg false env).err = none ∧
      (reopenDB.steps h cfg false env).effects =
        [.newConnector cfg.DSN (bootQueries cfg), .openDB cfg.PoolSize, .connx,
         .readDir cfg.ExtStoragePath] ++ scanEntries h cfg.ExtStoragePath es ++
          [.connClose]) ∧
    (∀ e : String, (reopenDB.steps h cfg false env).err = some e →
      env.connxErr = some e ∨ (env.connxErr = none ∧ env.readDir = .error e)) := by
  obtain ⟨r1, r2, -⟩ := reopenDB_steps_err h cfg env hx hc
  refine ⟨fun e v x a b c => attachEntry_failed h _ e v x a b c,
    fun es1 es2 e => scanEntries_insert h _ es1 es2 e, fun es h1 h2 => ?_, fun e he => ?_⟩
  · rw [r1, r2, storageRecovery_ok h cfg env es h1 h2]
    simp
  · rw [r1] at he
    simp only [storageRecovery] at he
    cases hcx : env.connxErr with
    | some x => rw [hcx] at he; left; exact he
    | none =>
      rw [hcx] at he
      right
      cases hrd : env.readDir with
      | error x => rw [hrd] at he; simp at he; exact ⟨rfl, by rw [he]⟩
      | ok es => rw [hrd] at he; simp at he

/-- C17, witness: a listing whose first table fails to attach and whose second attaches;
`reopenDB` returns nil. -/
theorem attach_failure_is_local_witness :
    cfgExt.ExtTableStorage = true ∧
    (reopenDB.steps sampleHelpers cfgExt false
      { envQuiet with readDir := .ok [entryOldFormat, entryGood] }).err = none ∧
    (reopenDB.steps sampleHelpers cfgExt false
      { envQuiet with readDir := .ok [entryOldFormat, entryGood] }).effects =
      [.newConnector cfgExt.DSN (bootQueries cfgExt), .openDB cfgExt.PoolSize, .connx,
       .readDir cfgExt.ExtStoragePath] ++
        scanEntries sampleHelpers cfgExt.ExtStoragePath [entryOldFormat, entryGood] ++
        [.connClose] ∧
    scanEntries sampleHelpers cfgExt.ExtStoragePath [entryOldFormat, entryGood] =
      [.tableVersion "events",
       .exec "ATTACH '/data/main/events/1600000000000.db' AS \"events_1600000000000\"",
       .exec "DROP VIEW IF EXISTS \"events\"", .removeAll "/data/main/events",
       .tableVersion "users",
       .exec "ATTACH '/data/main/users/1700000000001.db' AS \"users_1700000000001\""] :=
  have h := (attach_failure_is_local sampleHelpers cfgExt
    { envQuiet with readDir := .ok [entryOldFormat, entryGood] } rfl rfl).2.2.1
    [entryOldFormat, entryGood] rfl rfl
  ⟨rfl, h.1, h.2, by decide⟩

/-- C18, as amended: for every subdirectory with a readable marker naming version `v`,
`reopenDB` issues one ATTACH of `<storage-root>/<table>/<v>.db` and decides on its result
alone, never on whether the backing file exists: when the ATTACH succeeds nothing else is
done and the subdirectory stays, when it fails `DROP VIEW IF EXISTS` is issued and the
subdirectory is removed. -/
theorem attach_depends_on_engine_only (h : Helpers) (root : String) (e : DirEntry)
    (v : String) (hd : e.isDir = true) (hm : e.marker = .version v) :
    (e.attachErr = none →
      attachEntry h root e = [.tableVersion e.name, .exec (attachStmt h root e.name v)]) ∧
    (∀ x, e.attachErr = some x →
      attachEntry h root e =
        [.tableVersion e.name, .exec (attachStmt h root e.name v),
         .exec (dropViewStmt h e.name), .removeAll (joinPath root e.name)]) ∧
    (∀ b : Bool, attachEntry h root { e with hasBackingFile := b } = attachEntry h root e) ∧
    attachStmt h root e.name v =
      "ATTACH " ++ h.safeSQLString (joinPath (joinPath root e.name) (v ++ ".db")) ++ " AS " ++
        h.safeSQLName (h.dbName e.name v) := by
  refine ⟨fun ha => attachEntry_attached h root e v hd hm ha,
    fun x ha => attachEntry_failed h root e v x hd hm ha, fun b => ?_, rfl⟩
  simp only [attachEntry]

/-- C18, counterexample: a subdirectory whose marker names a missing backing file, with
an engine that answers the ATTACH without error, is attached and not removed; and a
subdirectory with a marker and its backing file whose ATTACH fails is removed. -/
theorem attach_ignores_backing_file :
    entryMissingFile.hasBackingFile = false ∧
    attachEntry sampleHelpers "/data/main" entryMissingFile =
      [.tableVersion "orders",
       .exec "ATTACH '/data/main/orders/1700000000000.db' AS \"orders_1700000000000\""] ∧
    Effect.removeAll "/data/main/orders" ∉
      attachEntry sampleHelpers "/data/main" entryMissingFile ∧
    entryOldFormat.hasBackingFile = true ∧
    attachEntry sampleHelpers "/data/main" entryOldFormat =
      [.tableVersion "events",
       .exec "ATTACH '/data/main/events/1600000000000.db' AS \"events_1600000000000\"",
       .exec "DROP VIEW IF EXISTS \"events\"", .removeAll "/data/main/events"] := by
  decide

/-- C18, witness: a table directory with marker and backing file that attaches. -/
theorem attach_depends_on_engine_only_witness :
    attachEntry sampleHelpers "/data/main" entryGood =
      [.tableVersion "users",
       .exec (attachStmt sampleHelpers "/data/main" "users" "1700000000001")] :=
  (attach_depends_on_engine_only sampleHelpers "/data/main" entryGood "1700000000001"
    rfl rfl).1 rfl

/-- C19: a `.wal` file of exactly 100 MB (104857600 bytes), which does not exceed the
threshold, is removed by `Driver.Open` before the engine is opened, because the code
compares with `>=`; one byte less and the file is left alone. -/
theorem wal_at_threshold_is_removed :
    walThreshold = 104857600 ∧ ¬ ((104857600 : Int) > walThreshold) ∧
    walHygiene cfgExt (some 104857600) =
      [.removeAll "/data/main.db.tmp", .stat "/data/main.db.wal",
       .remove "/data/main.db.wal"] ∧
    walHygiene cfgExt (some 104857599) =
      [.removeAll "/data/main.db.tmp", .stat "/data/main.db.wal"] ∧
    (Driver.Open sampleHelpers false (.ok cfgExt)
      { walStat := some 104857600, mkdirErr := none, first := envQuiet, second := envQuiet,
        probeErr := none }).1.take 3 =
      [.removeAll "/data/main.db.tmp", .stat "/data/main.db.wal",
       .remove "/data/main.db.wal"] := by
  decide

theorem contains_of_infix (s sub : String) (h : List.IsInfix sub.data s.data) :
    contains s sub = true := by
  simp [contains, h]

theorem connectorError_recognised (h : Helpers) (cfg : OpenConfig) (err : String)
    (he : contains err "Trying to read a database file with version number" = true) :
    contains (connectorError h cfg err)
      "created with an older, incompatible version of Rill" = true := by
  simp only [connectorError, he, if_true]
  apply contains_of_infix
  simp only [String.data_append]
  have : List.IsInfix "created with an older, incompatible version of Rill".data
      " was created with an older, incompatible version of Rill (please remove it and try again)".data := by
    decide
  exact this.trans (List.suffix_append _ _).isInfix

theorem append_ne_self (s t : String) (ht : t ≠ "") : s ++ t ≠ s := by
  intro h
  have h1 := congrArg String.length h
  rw [String.length_append] at h1
  have : t.length = 0 := by omega
  have hd : t.data = [] := List.length_eq_zero.1 this
  exact ht (String.ext hd)

theorem no_remove_scan (h : Helpers) (root p : String) (es : List DirEntry) :
    Effect.remove p ∉ scanEntries h root es := by
  induction es with
  | nil => simp [scanEntries]
  | cons e es ih =>
    simp only [scanEntries, List.mem_append, not_or]
    refine ⟨?_, ih⟩
    simp only [attachEntry]
    split
    · simp
    · split
      · simp
      · simp
      · split <;> simp

theorem no_remove_reopen (h : Helpers) (cfg : OpenConfig) (b : Bool) (env : ReopenEnv)
    (p : String) : Effect.remove p ∉ (reopenDB.steps h cfg b env).effects := by
  have hs := no_remove_scan h cfg.ExtStoragePath p
  have hc : ∀ done, Effect.remove p ∉ done →
      Effect.remove p ∉ (reopenDB.connect h cfg env done).effects := by
    intro done hd
    simp only [reopenDB.connect]
    split
    · simp [hd]
    · split
      · simp [hd]
      · simp only [storageRecovery]
        split
        · simp [hd]
        · split
          · simp [hd]
          · next es _ => simp [hd, hs es]
  simp only [reopenDB.steps]
  split
  · split
    · simp
    · exact hc _ (by simp)
  · exact hc _ (by simp)

theorem no_remove_hygiene (cfg : OpenConfig) (ws : Option Int) :
    Effect.remove cfg.DBFilePath ∉ walHygiene cfg ws := by
  have hne : cfg.DBFilePath ++ ".wal" ≠ cfg.DBFilePath :=
    append_ne_self _ _ (by decide)
  simp only [walHygiene]
  split
  · cases ws with
    | none => simp
    | some size =>
      simp only
      split <;> simp [hne.symm]
  · simp

theorem Driver_Open_effects (h : Helpers) (shared : Bool) (cfg : OpenConfig) (env : OpenEnv) :
    ∃ pre : List Effect, Effect.remove cfg.DBFilePath ∉ pre ∧
      ((((Driver.Open h shared (.ok cfg) env).1 = pre) ∧
          (∃ e, (Driver.Open h shared (.ok cfg) env).2 = .err e)) ∨
        (((Driver.Open h shared (.ok cfg) env).1 =
            pre ++ (Driver.Open.reopen h cfg env).1) ∧
          ((Driver.Open h shared (.ok cfg) env).2 = (Driver.Open.reopen h cfg env).2))) := by
  have hh := no_remove_hygiene cfg env.walStat
  simp only [Driver.Open]
  split
  · exact ⟨[], by simp, Or.inl ⟨rfl, _, rfl⟩⟩
  · split
    · split
      · exact ⟨_, by simpa using hh, Or.inl ⟨rfl, _, rfl⟩⟩
      · exact ⟨walHygiene cfg env.walStat ++ [.mkdir cfg.ExtStoragePath], by simpa using hh,
          Or.inr ⟨rfl, rfl⟩⟩
    · exact ⟨walHygiene cfg env.walStat, hh, Or.inr ⟨rfl, rfl⟩⟩

/-- C20: the error `reopenDB` builds for an engine error with the version-mismatch
signature contains the text `Driver.Open` looks for, for every DSN and every quoting. When
the first `reopenDB` succeeds nothing is deleted and no second open is made. When it fails
and either `ErrorOnIncompatibleVersion` is set or the error text does not contain
"created with an older, incompatible version of Rill", `Open` returns that error, makes no
second open, and `os.Remove` is never called on the database file. When it fails with that
text and the flag is unset, `Open` removes `.tmp`, `.wal` and the database file and calls
`reopenDB` once more; a failure of this second call is returned, there is no third. -/
theorem open_retries_once_on_incompatible (h : Helpers) (cfg : OpenConfig) (env : OpenEnv) :
    (∀ err, contains err "Trying to read a database file with version number" = true →
      contains (connectorError h cfg err)
        "created with an older, incompatible version of Rill" = true) ∧
    ((reopenDB.steps h cfg false env.first).err = none →
      Driver.Open.reopen h cfg env =
        ((reopenDB.steps h cfg false env.first).effects ++
          (Driver.Open.probe env.probeErr).1, (Driver.Open.probe env.probeErr).2)) ∧
    (∀ e, (reopenDB.steps h cfg false env.first).err = some e →
      (cfg.ErrorOnIncompatibleVersion = true ∨
        contains e "created with an older, incompatible version of Rill" = false) →
      Driver.Open.reopen h cfg env =
        ((reopenDB.steps h cfg false env.first).effects, .err e) ∧
      ∀ shared, Effect.remove cfg.DBFilePath ∉ (Driver.Open h shared (.ok cfg) env).1 ∧
        (Driver.Open h shared (.ok cfg) env).2 ≠ .handle) ∧
    (∀ e, (reopenDB.steps h cfg false env.first).err = some e →
      cfg.ErrorOnIncompatibleVersion = false →
      contains e "created with an older, incompatible version of Rill" = true →
      (Driver.Open.reopen h cfg env).1 =
        (reopenDB.steps h cfg false env.first).effects ++ resetFiles cfg ++
          (reopenDB.steps h cfg (reopenDB.steps h cfg false env.first).dbOpen
            env.second).effects ++
          (if (reopenDB.steps h cfg (reopenDB.steps h cfg false env.first).dbOpen
              env.second).err = none then (Driver.Open.probe env.probeErr).1 else []) ∧
      (∀ e2, (reopenDB.steps h cfg (reopenDB.steps h cfg false env.first).dbOpen
          env.second).err = some e2 → (Driver.Open.reopen h cfg env).2 = .err e2) ∧
      ((reopenDB.steps h cfg (reopenDB.steps h cfg false env.first).dbOpen
          env.second).err = none →
        (Driver.Open.reopen h cfg env).2 = (Driver.Open.probe env.probeErr).2)) := by
  refine ⟨fun err he => connectorError_recognised h cfg err he, fun h1 => ?_,
    fun e h1 h2 => ?_, fun e h1 h2 h3 => ?_⟩
  · simp only [Driver.Open.reopen, h1]
  · have hr : Driver.Open.reopen h cfg env =
        ((reopenDB.steps h cfg false env.first).effects, .err e) := by
      simp only [Driver.Open.reopen, h1]
      rcases h2 with h2 | h2 <;> simp [h2]
    refine ⟨hr, fun shared => ?_⟩
    obtain ⟨pre, hp, hcase⟩ := Driver_Open_effects h shared cfg env
    rcases hcase with ⟨e1, e0, e2⟩ | ⟨e1, e2⟩
    · rw [e1, e2]
      exact ⟨hp, by simp⟩
    · rw [e1, e2, hr]
      simp only [List.mem_append, not_or]
      exact ⟨⟨hp, no_remove_reopen h cfg false env.first _⟩, by simp⟩
  · cases h4 : (reopenDB.steps h cfg (reopenDB.steps h cfg false env.first).dbOpen
        env.second).err with
    | none => simp [Driver.Open.reopen, h1, h2, h3, h4]
    | some e2 => simp [Driver.Open.reopen, h1, h2, h3, h4]

/-- C20, witness: a corrupted file is reported and kept; a version mismatch leads to one
reset and one more open, whose failure is returned. -/
theorem open_retries_once_on_incompatible_witness :
    Driver.Open.reopen sampleHelpers cfgExt envCorrupt =
      ([.newConnector cfgExt.DSN (bootQueries cfgExt)],
        .err "IO Error: not a valid DuckDB file") ∧
    Driver.Open.reopen sampleHelpers cfgExt envIncompatible =
      ([.newConnector cfgExt.DSN (bootQueries cfgExt),
        .removeAll "/data/main.db.tmp", .remove "/data/main.db.wal", .remove "/data/main.db",
        .newConnector cfgExt.DSN (bootQueries cfgExt)], .err "IO Error: disk full") :=
  ⟨((open_retries_once_on_incompatible sampleHelpers cfgExt envCorrupt).2.2.1
      "IO Error: not a valid DuckDB file" (by decide) (Or.inr (by decide))).1,
    by decide⟩

/-- C13: when the context carries a connection, `acquireMetaConn` and `acquireOLAPConn`
(for every priority, `longRunning` and `tx`) return that connection with a nil error and
the no-op release callback, and leave the whole `connection` state as it was (every
semaphore, `dbConnCount`, `dbReopen`, `dbErr` and `txMu`); the callback returns nil and
leaves the state as it was. In the interleaving model the caller goes straight to holding
the bypass connection, takes no step that touches the state, and its release ends the call
with nil. -/
theorem bypass_is_frame (c : connection) (env : CallEnv) (conn : Conn)
    (h : env.ctxConn = some conn) :
    acquireMetaConn c env = (c, .ok conn .noop) ∧
    (∀ (priority : Int) (longRunning tx : Bool),
      acquireOLAPConn c env priority longRunning tx = (c, .ok conn .noop)) ∧
    (∀ closeErr r : GoError, runRelease c .noop closeErr r = (c, none)) ∧
    (∀ (s : Sys) (i : Nat) (k : Call), s.threads.get? i = some .idle →
      step s (.start i k true) = some (s.move i s.c .bypassed) ∧
      step (s.move i s.c .bypassed) (.callRelease i) =
        some (s.move i s.c (.done none)) ∧
      ∀ r : GoError, step (s.move i s.c .bypassed) (.run i r) = none) := by
  refine ⟨by simp only [acquireMetaConn, h], fun p lr tx => by simp only [acquireOLAPConn, h],
    fun _ _ => rfl, fun s i k hi => ?_⟩
  have hb : (s.move i s.c .bypassed).threads.get? i = some .bypassed :=
    threads_set_self _ i _ _ hi
  refine ⟨by simp only [step, hi, if_true], ?_, fun r => ?_⟩
  · simp only [step, hb]
    congr 1
    simp only [Sys.move, List.set_set]
  · simp only [step, hb, stepAt]

/-- C13, witness: a context carrying connection 7 on a fresh handle. -/
theorem bypass_is_frame_witness :
    acquireMetaConn (Open cfgFile) envBypass = (Open cfgFile, .ok 7 .noop) ∧
    acquireOLAPConn (Open cfgFile) envBypass 5 true true = (Open cfgFile, .ok 7 .noop) :=
  have h := bypass_is_frame (Open cfgFile) envBypass 7 rfl
  ⟨h.1, h.2.1 5 true true⟩

/-- C14, counterexample: with a cancelled context (every cancellable call would return
"context canceled"), a caller that finds a reopen pending is parked at the gate and, once
parked, cannot move; a caller that finds the write side of `txMu` held stays blocked at
`c.txMu.RLock()`. Neither returns the cancellation error. -/
theorem waits_ignore_cancellation :
    acquireConn connPending false none (some "context canceled") =
      (connPending, .waitGate) ∧
    stepAt connPending (some "context canceled") (.gate .meta) =
      some (connPending, .parked .meta, false) ∧
    stepAt connPending (some "context canceled") (.parked .meta) = none ∧
    sysTxHolder.c.txMu.writer = true ∧
    stepAt sysTxHolder.c (some "context canceled") (.txLock .meta) = none ∧
    (acquireConn sysTxHolder.c false none (some "context canceled")).2 = .waitTx := by
  decide

/-- C14, as amended: the semaphore waits of the wrappers and `c.db.Connx(ctx)` honour
cancellation, the two waits inside `acquireConn` do not. Whatever the context says, a
caller in `c.dbCond.Wait()` has no step of its own (only a `Broadcast` moves it), a caller
that finds a reopen pending is parked, and a caller whose side of `txMu` cannot be granted
has no step; a cancelled wait for the long-running semaphore returns the error with nothing
taken, a cancelled wait for the wrapper's semaphore returns it after giving back the
long-running slot, and a failing `Connx` returns it after `releaseTx()`. -/
theorem cancellation_stages (c : connection) (r : GoError) (k : Call) :
    stepAt c r (.parked k) = none ∧
    (c.dbErr = none → c.dbReopen = true →
      stepAt c r (.gate k) = some (c, .parked k, false)) ∧
    (lockTx c k.tx = none → stepAt c r (.txLock k) = none) ∧
    (∀ connxR reopenR, c.dbErr = none → c.dbReopen = true →
      acquireConn c k.tx reopenR connxR = (c, .waitGate)) ∧
    (∀ (e : String) (priority : Int) (tx : Bool),
      stepAt c (some e) (.lrAcquire priority tx) = some (c, .done (some e), false)) ∧
    (∀ e : String,
      stepAt c (some e) (.semAcquire k) =
        some (c, if k.longRunning then .relLR (some e) else .done (some e), false)) ∧
    (∀ e : String,
      stepAt c (some e) (.connx k) = some (releaseTx c k.tx, .relSem k (some e), false)) := by
  refine ⟨rfl, fun h1 h2 => ?_, fun h1 => ?_, fun connxR reopenR h1 h2 =>
    acquireConn_parked c k.tx reopenR connxR h1 h2, fun e p tx => rfl, fun e => rfl,
    fun e => rfl⟩
  · rcases acquireGate_cases c with ⟨e1, h0, _⟩ | ⟨_, _, h3⟩ | ⟨_, h0, _⟩
    · rw [h1] at h0; cases h0
    · simp only [stepAt, h3]
    · rw [h2] at h0; cases h0
  · simp only [stepAt, h1, Option.map_none']

/-- C14, witness: a cancelled caller at the gate with a reopen pending is parked; a
cancelled wait for the OLAP pool goes on to release the long-running slot. -/
theorem cancellation_stages_witness :
    stepAt connPending (some "context canceled") (.gate .meta) =
      some (connPending, .parked .meta, false) ∧
    stepAt (Open cfgFile) (some "context canceled") (.semAcquire (.olap 0 true false)) =
      some (Open cfgFile, .relLR (some "context canceled"), false) :=
  have h := cancellation_stages connPending (some "context canceled") .meta
  ⟨h.2.1 rfl rfl,
    (cancellation_stages (Open cfgFile) none (.olap 0 true false)).2.2.2.2.2.1
      "context canceled"⟩

theorem nextWaiter_spec : ∀ (ws : List Waiter) (w : Waiter), nextWaiter ws = some w →
    ∃ l1 l2, ws = l1 ++ w :: l2 ∧ (∀ v ∈ l1, v.priority < w.priority) ∧
      (∀ v ∈ l2, v.priority ≤ w.priority) := by
  intro ws
  induction ws with
  | nil => intro w h; simp [nextWaiter] at h
  | cons a ws ih =>
    intro w h
    simp only [nextWaiter] at h
    cases hb : nextWaiter ws with
    | none =>
      rw [hb] at h
      simp only [Option.some.injEq] at h
      subst h
      have hws : ws = [] := by
        cases ws with
        | nil => rfl
        | cons b bs =>
          simp only [nextWaiter] at hb
          split at hb
          · cases hb
          · split at hb <;> cases hb
      exact ⟨[], [], by simp [hws], by simp, by simp⟩
    | some b =>
      rw [hb] at h
      simp only at h
      obtain ⟨l1, l2, hl, h1, h2⟩ := ih b hb
      split at h
      · next hle =>
        simp only [Option.some.injEq] at h
        subst h
        refine ⟨[], ws, rfl, by simp, fun v hv => ?_⟩
        rw [hl] at hv
        simp only [List.mem_append, List.mem_cons] at hv
        rcases hv with hv | hv | hv
        · exact le_of_lt (lt_of_lt_of_le (h1 v hv) hle)
        · rw [hv]; exact hle
        · exact le_trans (h2 v hv) hle
      · next hlt =>
        simp only [Option.some.injEq] at h
        subst h
        refine ⟨a :: l1, l2, by simp [hl], fun v hv => ?_, h2⟩
        simp only [List.mem_cons] at hv
        rcases hv with hv | hv
        · rw [hv]; omega
        · exact h1 v hv

theorem nextWaiter_isSome (ws : List Waiter) (h : ws ≠ []) : (nextWaiter ws).isSome = true := by
  cases ws with
  | nil => exact absurd rfl h
  | cons a ws =>
    simp only [nextWaiter]
    split
    · rfl
    · split <;> rfl

/-- C15: on the OLAP pool with its wait queue, `acquireOLAPConn` called with `priority` on
a full pool queues its caller with exactly that priority; when a slot frees and somebody
waits, a waiter is admitted and the slot stays taken; the waiter admitted has a priority at
least that of every other waiter and strictly above that of every waiter that arrived before
it (highest priority first, ties to the earliest arrival). With capacity 1, a holder, then
a waiter of priority 1 and then one of priority 5: the first release admits the priority-5
waiter, the second the priority-1 waiter. -/
theorem olap_admission_by_priority (s : PrioritySemaphore) :
    (∀ (caller : Nat) (priority : Int) (longRunning tx : Bool), s.free = 0 →
      olapSemAcquire s caller (.olap priority longRunning tx) =
        ({ s with waiters := s.waiters ++ [{ caller := caller, priority := priority }] },
          false)) ∧
    (s.waiters ≠ [] → ∃ w, s.Release.2 = some w) ∧
    (∀ w, s.Release.2 = some w →
      s.Release.1.free = s.free ∧ s.Release.1.waiters = s.waiters.erase w ∧
      ∃ l1 l2, s.waiters = l1 ++ w :: l2 ∧ (∀ v ∈ l1, v.priority < w.priority) ∧
        (∀ v ∈ l2, v.priority ≤ w.priority)) ∧
    poolTwoWaiters =
      { free := 0, waiters := [{ caller := 1, priority := 1 }, { caller := 2, priority := 5 }] } ∧
    poolTwoWaiters.Release.2 = some { caller := 2, priority := 5 } ∧
    poolTwoWaiters.Release.1.Release.2 = some { caller := 1, priority := 1 } := by
  refine ⟨fun caller priority lr tx hf => ?_, fun hne => ?_, fun w hw => ?_, by decide,
    by decide, by decide⟩
  · simp [olapSemAcquire, PrioritySemaphore.Acquire, hf]
  · have := nextWaiter_isSome s.waiters hne
    obtain ⟨w, hw⟩ := Option.isSome_iff_exists.1 this
    exact ⟨w, by simp [PrioritySemaphore.Release, hw]⟩
  · cases hn : nextWaiter s.waiters with
    | none => simp [PrioritySemaphore.Release, hn] at hw
    | some b =>
      simp only [PrioritySemaphore.Release, hn, Option.some.injEq] at hw
      subst hw
      exact ⟨by simp [PrioritySemaphore.Release, hn], by simp [PrioritySemaphore.Release, hn],
        nextWaiter_spec s.waiters b hn⟩

theorem has_filter_ne (fs : List (String × String)) (path : String) (p : String × String → Bool)
    (hp : ∀ f, f.1 = path → f ∈ fs → p f = true → False) :
    FileSystem.has { files := fs.filter p } path = false := by
  simp only [FileSystem.has, List.any_eq_false, List.mem_filter, beq_iff_eq]
  intro f hf
  intro h
  exact hp f h hf.1 hf.2

theorem has_of_filter (fs : List (String × String)) (path : String) (p : String × String → Bool)
    (h : FileSystem.has { files := fs.filter p } path = true) :
    FileSystem.has { files := fs } path = true := by
  simp only [FileSystem.has, List.any_eq_true, List.mem_filter, beq_iff_eq] at h ⊢
  obtain ⟨f, hf, he⟩ := h
  exact ⟨f, hf.1, he⟩

theorem Remove_has (fs : FileSystem) (path q : String) (fail : GoError)
    (h : (os.Remove fs q fail).1.has path = true) : fs.has path = true := by
  unfold os.Remove at h
  split at h
  · exact h
  · split at h
    · exact has_of_filter fs.files path _ h
    · exact h

theorem RemoveAll_has (fs : FileSystem) (path q : String) (fail : GoError) (kept : String → Bool)
    (h : (os.RemoveAll fs q fail kept).1.has path = true) : fs.has path = true := by
  unfold os.RemoveAll at h
  split at h
  · exact has_of_filter fs.files path _ h
  · exact has_of_filter fs.files path _ h

theorem Remove_ok (fs : FileSystem) (path : String) (fail : GoError)
    (h : (os.Remove fs path fail).2 = none) : (os.Remove fs path fail).1.has path = false := by
  unfold os.Remove at h ⊢
  split
  · simp at h
  · split
    · apply has_filter_ne
      intro f hf _ hp
      simp [hf] at hp
    · rename_i hn
      simp [hn] at h

/-- C21: Driver.Drop on a configuration with a database file path and no external storage
path only removes: the database file, then (if that worked) the `.wal` file and the `.tmp`
directory, and never opens the database. Its error is the error of removing the database
file, whatever the removals of the `.wal` file and of the `.tmp` directory answer; when it
returns nil the database file does not exist; and a database file that was overwritten with
any contents is removed as soon as the operating system does not refuse. -/
theorem Drop_removes_database_file (cfg : OpenConfig) (env : DropEnv) (fs : FileSystem)
    (hdb : cfg.DBFilePath ≠ "") (hext : cfg.ExtStoragePath = "") :
    ((Driver.Drop (.ok cfg) env fs).1 = [.remove cfg.DBFilePath] ∨
      (Driver.Drop (.ok cfg) env fs).1 =
        [.remove cfg.DBFilePath, .remove (cfg.DBFilePath ++ ".wal"),
         .removeAll (cfg.DBFilePath ++ ".tmp")]) ∧
    (Driver.Drop (.ok cfg) env fs).2.2 = (os.Remove fs cfg.DBFilePath env.dbErr).2 ∧
    ((Driver.Drop (.ok cfg) env fs).2.2 = none →
      (Driver.Drop (.ok cfg) env fs).2.1.has cfg.DBFilePath = false) ∧
    (∀ data : String, env.dbErr = none →
      (Driver.Drop (.ok cfg) env (os.WriteFile fs cfg.DBFilePath data)).2.2 = none) := by
  have hr := Remove_ok fs cfg.DBFilePath env.dbErr
  refine ⟨?_, ?_, ?_, ?_⟩
  · simp only [Driver.Drop, hext, bne_self_eq_false, Bool.false_eq_true, if_false]
    rw [if_pos (by simpa using hdb)]
    split <;> simp
  · simp only [Driver.Drop, hext, bne_self_eq_false, Bool.false_eq_true, if_false]
    rw [if_pos (by simpa using hdb)]
    split <;> simp_all
  · simp only [Driver.Drop, hext, bne_self_eq_false, Bool.false_eq_true, if_false]
    rw [if_pos (by simpa using hdb)]
    split
    · simp
    · rename_i fs1 h1
      intro _
      have h2 : (os.Remove fs cfg.DBFilePath env.dbErr).1.has cfg.DBFilePath = false :=
        hr (by rw [h1])
      rw [h1] at h2
      by_contra hc
      have hc1 := RemoveAll_has _ _ _ _ _ (by simpa using hc)
      have hc2 := Remove_has _ _ _ _ hc1
      simp [h2] at hc2
  · intro data he
    simp only [Driver.Drop, hext, bne_self_eq_false, Bool.false_eq_true, if_false]
    rw [if_pos (by simpa using hdb)]
    simp [os.Remove, he, os.WriteFile, FileSystem.has]

theorem Drop_removes_database_file_witness :
    (Driver.Drop (.ok cfgPlain) envSideFailures fsCorrupted).2.2 = none ∧
    (Driver.Drop (.ok cfgPlain) envSideFailures fsCorrupted).2.1.has "/data/main.db" = false :=
  ⟨by decide,
   (Drop_removes_database_file cfgPlain envSideFailures fsCorrupted (by decide) rfl).2.2.1
     (by decide)⟩

theorem bootCallback_all (exec : String → GoError) (qs : List String)
    (h : ∀ q ∈ qs, exec q = none) : bootCallback exec qs = (qs, none) := by
  induction qs with
  | nil => rfl
  | cons q rest ih =>
    have hq := h q (List.mem_cons_self _ _)
    have ih1 := ih (fun x hx => h x (List.mem_cons_of_mem _ hx))
    simp only [bootCallback, hq, ih1]

theorem bootCallback_first (exec : String → GoError) (qs : List String) (n : Nat) (q e : String)
    (hq : qs.get? n = some q) (he : exec q = some e)
    (hpre : ∀ x ∈ qs.take n, exec x = none) :
    bootCallback exec qs = (qs.take (n + 1), some e) := by
  induction qs generalizing n with
  | nil => simp at hq
  | cons a rest ih =>
    cases n with
    | zero =>
      simp only [List.get?, Option.some.injEq] at hq
      subst hq
      simp only [bootCallback, he, List.take, zero_add]
    | succ m =>
      simp only [List.get?] at hq
      have ha : exec a = none := hpre a (by simp)
      have ih1 := ih m hq (fun x hx => hpre x (by simp [hx]))
      simp only [bootCallback, ha, ih1, List.take]

/-- C26: the boot statements of reopenDB are the same twelve statements in every
configuration, followed by one more, the statement that switches insertion order
preservation off, exactly when AllowHostAccess is false; the callback runs them in order,
returns nil when none fails, and otherwise returns the error of the first statement that
fails, having run nothing after it. -/
theorem bootQueries_fixed_sequence (cfg : OpenConfig) :
    (bootQueries cfg).take 12 =
      ["INSTALL 'json'", "LOAD 'json'", "INSTALL 'icu'", "LOAD 'icu'", "INSTALL 'parquet'",
       "LOAD 'parquet'", "INSTALL 'httpfs'", "LOAD 'httpfs'", "INSTALL 'sqlite'",
       "LOAD 'sqlite'", "SET max_expression_depth TO 250", "SET timezone='UTC'"] ∧
    (bootQueries cfg).drop 12 =
      (if cfg.AllowHostAccess = false then ["SET preserve_insertion_order TO false"] else []) ∧
    ("SET preserve_insertion_order TO false" ∈ bootQueries cfg ↔ cfg.AllowHostAccess = false) ∧
    (∀ exec : String → GoError,
      ((∀ q ∈ bootQueries cfg, exec q = none) →
        bootCallback exec (bootQueries cfg) = (bootQueries cfg, none)) ∧
      (∀ n q e, (bootQueries cfg).get? n = some q → exec q = some e →
        (∀ x ∈ (bootQueries cfg).take n, exec x = none) →
        bootCallback exec (bootQueries cfg) = ((bootQueries cfg).take (n + 1), some e))) := by
  refine ⟨?_, ?_, ?_, ?_⟩
  · cases h : cfg.AllowHostAccess <;> simp [bootQueries, h]
  · cases h : cfg.AllowHostAccess <;> simp [bootQueries, h]
  · cases h : cfg.AllowHostAccess <;> simp [bootQueries, h]
  · intro exec
    exact ⟨bootCallback_all exec _, fun n q e => bootCallback_first exec _ n q e⟩

theorem bootQueries_fixed_sequence_witness :
    bootCallback execNoICU (bootQueries cfgPlain) =
      (["INSTALL 'json'", "LOAD 'json'", "INSTALL 'icu'", "LOAD 'icu'"],
        some "IO Error: Extension icu not found") :=
  ((bootQueries_fixed_sequence cfgPlain).2.2.2 execNoICU).2 3 "LOAD 'icu'"
    "IO Error: Extension icu not found" (by decide) (by decide) (by decide)

theorem placeholders_append (a b : String) :
    placeholders (a ++ b) = placeholders a + placeholders b := by
  simp [placeholders, String.data_append, List.count_append]

theorem parenDepth_append (a b : List Char) (d : Nat) :
    parenDepth (a ++ b) d = (parenDepth a d).bind (parenDepth b) := by
  induction a generalizing d with
  | nil => simp [parenDepth]
  | cons c cs ih =>
    simp only [List.cons_append, parenDepth]
    split
    · exact ih _
    · split
      · cases d with
        | zero => rfl
        | succ n => exact ih _
      · exact ih _

theorem parenDepth_shift (a : List Char) (d e k : Nat) (h : parenDepth a d = some e) :
    parenDepth a (d + k) = some (e + k) := by
  induction a generalizing d with
  | nil =>
    simp only [parenDepth, Option.some.injEq] at h ⊢
    omega
  | cons c cs ih =>
    simp only [parenDepth] at h ⊢
    split
    · rename_i hc
      rw [if_pos hc] at h
      have := ih _ h
      rw [show d + k + 1 = d + 1 + k by omega]
      exact this
    · rename_i hc
      rw [if_neg hc] at h
      split
      · rename_i hc2
        rw [if_pos hc2] at h
        cases d with
        | zero => simp at h
        | succ n =>
          simp only at h
          rw [show n + 1 + k = (n + k) + 1 by omega]
          exact ih _ h
      · rename_i hc2
        rw [if_neg hc2] at h
        exact ih _ h

theorem parenDepth_balanced (s : String) (d : Nat) (h : balanced s) :
    parenDepth s.data d = some d := by
  have := parenDepth_shift s.data 0 0 d h
  simpa using this


theorem balanced_dateTrunc (spec col : String) (h1 : balanced spec) (h2 : balanced col) :
    balanced ("date_trunc('" ++ spec ++ "', " ++ col ++ ")") := by
  simp only [balanced, String.data_append, parenDepth_append, List.append_assoc]
  rw [show parenDepth "date_trunc('".data 0 = some 1 by decide]
  simp only [Option.some_bind, Option.bind_eq_bind]
  rw [parenDepth_balanced spec 1 h1]
  simp only [Option.some_bind]
  rw [show parenDepth "', ".data 1 = some 1 by decide]
  simp only [Option.some_bind]
  rw [parenDepth_balanced col 1 h2]
  simp only [Option.some_bind]
  decide

theorem balanced_timezone (spec col : String) (h1 : balanced spec) (h2 : balanced col) :
    balanced ("timezone(?, date_trunc('" ++ spec ++ "', timezone(?, " ++ col ++
      "::TIMESTAMPTZ)))") := by
  simp only [balanced, String.data_append, parenDepth_append, List.append_assoc]
  rw [show parenDepth "timezone(?, date_trunc('".data 0 = some 2 by decide]
  simp only [Option.some_bind, Option.bind_eq_bind]
  rw [parenDepth_balanced spec 2 h1]
  simp only [Option.some_bind]
  rw [show parenDepth "', timezone(?, ".data 2 = some 3 by decide]
  simp only [Option.some_bind]
  rw [parenDepth_balanced col 3 h2]
  simp only [Option.some_bind]
  decide

theorem unbalanced_timeFloor (spec col : String) (h1 : balanced spec) (h2 : balanced col) :
    ¬ balanced ("time_floor(" ++ col ++ ", '" ++ spec ++ "', null, CAST(? AS VARCHAR)))") := by
  simp only [balanced, String.data_append, parenDepth_append, List.append_assoc]
  rw [show parenDepth "time_floor(".data 0 = some 1 by decide]
  simp only [Option.some_bind, Option.bind_eq_bind]
  rw [parenDepth_balanced col 1 h2]
  simp only [Option.some_bind]
  rw [show parenDepth ", '".data 1 = some 1 by decide]
  simp only [Option.some_bind]
  rw [parenDepth_balanced spec 1 h1]
  simp only [Option.some_bind]
  decide

/-- C30: buildTimestampExpr returns an error exactly when the dimension is not the time
dimension of the metrics view and has no column, or the dialect is neither DuckDB nor
Druid. When the quoted column name and the grain specifiers have balanced parentheses, the
expression it returns has balanced parentheses in every case but one: for Druid with a time
zone other than the empty one and UTC the expression closes one parenthesis more than it
opens. -/
theorem buildTimestampExpr_parentheses (h : SQLHelpers) (q : MetricsViewAggregation)
    (dim : MetricsViewAggregationDimension) (dialect : Dialect)
    (hcol : ∀ c, buildTimestampExpr.colName h q dim = .ok c → balanced (h.safeName c))
    (hs1 : balanced (h.convertToDateTruncSpecifier dim.TimeGrain))
    (hs2 : balanced (h.convertToDruidTimeFloorSpecifier dim.TimeGrain)) :
    ((∃ e, buildTimestampExpr h q dim dialect = .error e) ↔
      ((dim.Name ≠ q.MetricsView.TimeDimension ∧
          ∃ e, h.metricsViewDimensionToSafeColumn q.MetricsView dim.Name = .error e) ∨
        ∃ code, dialect = .other code)) ∧
    (∀ expr args, buildTimestampExpr h q dim dialect = .ok (expr, args) →
      (balanced expr ↔
        ¬ (dialect = .Druid ∧ dim.TimeZone ≠ "" ∧ dim.TimeZone ≠ "UTC"))) := by
  constructor
  · unfold buildTimestampExpr buildTimestampExpr.colName
    by_cases hn : dim.Name = q.MetricsView.TimeDimension
    · simp only [hn, if_true, ne_eq, not_true_eq_false, false_and, false_or]
      cases dialect <;> simp <;> split <;> simp
    · simp only [hn, if_false, ne_eq, not_false_eq_true, true_and]
      cases hc : h.metricsViewDimensionToSafeColumn q.MetricsView dim.Name with
      | error e => simp
      | ok c => cases dialect <;> simp <;> split <;> simp
  · intro expr args hb
    unfold buildTimestampExpr at hb
    cases hc : buildTimestampExpr.colName h q dim with
    | error e => simp [hc] at hb
    | ok c =>
      have hbal := hcol c hc
      simp only [hc] at hb
      cases dialect with
      | DuckDB =>
        simp only at hb
        split at hb
        · simp only [Except.ok.injEq, Prod.mk.injEq] at hb
          rw [← hb.1]
          simp only [false_and, not_false_eq_true, iff_true, reduceCtorEq]
          exact balanced_dateTrunc _ _ hs1 hbal
        · simp only [Except.ok.injEq, Prod.mk.injEq] at hb
          rw [← hb.1]
          simp only [false_and, not_false_eq_true, iff_true, reduceCtorEq]
          exact balanced_timezone _ _ hs1 hbal
      | Druid =>
        simp only at hb
        split at hb
        · rename_i htz
          simp only [Except.ok.injEq, Prod.mk.injEq] at hb
          rw [← hb.1]
          have : ¬ (dim.TimeZone ≠ "" ∧ dim.TimeZone ≠ "UTC") := by
            intro hx
            rcases htz with h0 | h0
            · exact hx.1 h0
            · exact hx.2 h0
          simp only [true_and, this, not_false_eq_true, iff_true]
          exact balanced_dateTrunc _ _ hs1 hbal
        · rename_i htz
          simp only [Except.ok.injEq, Prod.mk.injEq] at hb
          rw [← hb.1]
          have : dim.TimeZone ≠ "" ∧ dim.TimeZone ≠ "UTC" := by
            constructor
            · intro h0; exact htz (Or.inl h0)
            · intro h0; exact htz (Or.inr h0)
          exact ⟨fun hx => absurd hx (unbalanced_timeFloor _ _ hs2 hbal),
            fun hx => absurd ⟨rfl, this⟩ hx⟩
      | other code => simp at hb

theorem buildTimestampExpr_parentheses_witness :
    buildTimestampExpr sampleSQLHelpers queryByDay dimCopenhagen .Druid =
      .ok ("time_floor(\"timestamp\", 'P1D', null, CAST(? AS VARCHAR)))",
        [.str "Europe/Copenhagen"]) ∧
    ¬ balanced "time_floor(\"timestamp\", 'P1D', null, CAST(? AS VARCHAR)))" :=
  ⟨rfl, fun hb =>
    ((buildTimestampExpr_parentheses sampleSQLHelpers queryByDay dimCopenhagen .Druid
      (fun c hc => by
        have : c = "timestamp" := by
          have h2 : buildTimestampExpr.colName sampleSQLHelpers queryByDay dimCopenhagen =
            .ok "timestamp" := rfl
          rw [h2] at hc
          exact (Except.ok.inj hc).symm
        subst this
        decide)
      (by decide) (by decide)).2 _ _ rfl).1 hb ⟨rfl, by decide, by decide⟩⟩

theorem ite_ne_char {c : Prop} [Decidable c] {a b x : Char} (ha : a ≠ x) (hb : b ≠ x) :
    (if c then a else b) ≠ x := by
  split <;> assumption

theorem digitChar_ne (n : Nat) : Nat.digitChar n ≠ '?' := by
  unfold Nat.digitChar
  repeat (first | decide | apply ite_ne_char)

theorem toDigitsCore_no (fuel n : Nat) (acc : List Char) (h : acc.count '?' = 0) :
    (Nat.toDigitsCore 10 fuel n acc).count '?' = 0 := by
  induction fuel generalizing n acc with
  | zero => simpa [Nat.toDigitsCore] using h
  | succ f ih =>
    have hc : (Nat.digitChar (n % 10) :: acc).count '?' = 0 := by
      rw [List.count_cons_of_ne (digitChar_ne _).symm]
      exact h
    simp only [Nat.toDigitsCore]
    split
    · exact hc
    · exact ih _ _ hc

theorem placeholders_nat (n : Nat) : placeholders (toString n) = 0 := by
  show (Nat.repr n).data.count '?' = 0
  simp only [Nat.repr, Nat.toDigits, List.asString]
  exact toDigitsCore_no _ _ _ rfl

theorem placeholders_int (i : Int) : placeholders (toString i) = 0 := by
  cases i with
  | ofNat n => exact placeholders_nat n
  | negSucc n =>
    show placeholders ("-" ++ toString (n + 1)) = 0
    rw [placeholders_append, placeholders_nat]
    decide

theorem placeholders_join (l : List String) :
    placeholders (strings.Join l ", ") = (l.map placeholders).sum := by
  induction l with
  | nil => decide
  | cons a rest ih =>
    cases rest with
    | nil => simp [strings.Join]
    | cons b r =>
      simp only [strings.Join, placeholders_append, List.map, List.sum_cons] at ih ⊢
      rw [ih]
      have : placeholders ", " = 0 := by decide
      omega


theorem buildTimestampExpr_count (h : SQLHelpers) (q : MetricsViewAggregation)
    (d : MetricsViewAggregationDimension) (dialect : Dialect) (expr : String) (args : List Arg)
    (hg : d.TimeGrain ≠ .UNSPECIFIED)
    (hc : ∀ c, buildTimestampExpr.colName h q d = .ok c → placeholders (h.safeName c) = 0)
    (h1 : placeholders (h.convertToDateTruncSpecifier d.TimeGrain) = 0)
    (h2 : placeholders (h.convertToDruidTimeFloorSpecifier d.TimeGrain) = 0)
    (hb : buildTimestampExpr h q d dialect = .ok (expr, args)) :
    placeholders expr = zoneArgs dialect d ∧ args.length = zoneArgs dialect d := by
  unfold buildTimestampExpr at hb
  cases hcol : buildTimestampExpr.colName h q d with
  | error e => simp [hcol] at hb
  | ok c =>
    have hsafe := hc c hcol
    have l1 : placeholders "date_trunc('" = 0 := by decide
    have l2 : placeholders "', " = 0 := by decide
    have l3 : placeholders ")" = 0 := by decide
    have l4 : placeholders "timezone(?, date_trunc('" = 1 := by decide
    have l5 : placeholders "', timezone(?, " = 1 := by decide
    have l6 : placeholders "::TIMESTAMPTZ)))" = 0 := by decide
    have l7 : placeholders "time_floor(" = 0 := by decide
    have l8 : placeholders ", '" = 0 := by decide
    have l9 : placeholders "', null, CAST(? AS VARCHAR)))" = 1 := by decide
    simp only [hcol] at hb
    cases dialect with
    | DuckDB =>
      simp only at hb
      split at hb
      · rename_i htz
        simp only [Except.ok.injEq, Prod.mk.injEq] at hb
        rw [← hb.1, ← hb.2]
        simp only [zoneArgs, hg, if_false, htz, if_true, placeholders_append, l1, l2, l3, h1,
          hsafe, List.length_nil, and_self]
      · rename_i htz
        simp only [Except.ok.injEq, Prod.mk.injEq] at hb
        rw [← hb.1, ← hb.2]
        simp only [zoneArgs, hg, if_false, htz, placeholders_append, l4, l5, l6, h1,
          hsafe, List.length_cons, List.length_nil, and_self]
    | Druid =>
      simp only at hb
      split at hb
      · rename_i htz
        simp only [Except.ok.injEq, Prod.mk.injEq] at hb
        rw [← hb.1, ← hb.2]
        simp only [zoneArgs, hg, if_false, htz, if_true, placeholders_append, l1, l2, l3, h1,
          hsafe, List.length_nil, and_self]
      · rename_i htz
        simp only [Except.ok.injEq, Prod.mk.injEq] at hb
        rw [← hb.1, ← hb.2]
        simp only [zoneArgs, hg, if_false, htz, placeholders_append, l7, l8, l9, h2,
          hsafe, List.length_cons, List.length_nil, and_self]
    | other code => simp at hb

theorem dimensionCols_count (h : SQLHelpers) (q : MetricsViewAggregation) (mv : MetricsView)
    (dialect : Dialect) (hq : QuestionFree h q mv)
    (ds : List MetricsViewAggregationDimension) (hsub : ∀ d ∈ ds, d ∈ q.Dimensions) :
    ∀ sel grp args sel1 grp1 args1,
      dimensionCols h q mv dialect ds sel grp args = .ok (sel1, grp1, args1) →
      (sel1.map placeholders).sum =
        (sel.map placeholders).sum + (ds.map (zoneArgs dialect)).sum ∧
      (grp1.map placeholders).sum =
        (grp.map placeholders).sum + (ds.map (zoneArgs dialect)).sum ∧
      args1.length = args.length + (ds.map (zoneArgs dialect)).sum := by
  have las : placeholders " as " = 0 := by decide
  induction ds with
  | nil =>
    intro sel grp args sel1 grp1 args1 hd
    simp only [dimensionCols, Except.ok.injEq, Prod.mk.injEq] at hd
    obtain ⟨rfl, rfl, rfl⟩ := hd
    simp
  | cons d rest ih =>
    intro sel grp args sel1 grp1 args1 hd
    have hdq : d ∈ q.Dimensions := hsub d (List.mem_cons_self _ _)
    have ih1 := ih (fun x hx => hsub x (List.mem_cons_of_mem _ hx))
    unfold dimensionCols at hd
    by_cases hg : d.TimeGrain = .UNSPECIFIED
    · rw [if_pos hg] at hd
      cases hcol : h.metricsViewDimensionToSafeColumn mv d.Name with
      | error e => simp [hcol] at hd
      | ok col =>
        simp only [hcol] at hd
        have hz : zoneArgs dialect d = 0 := by simp [zoneArgs, hg]
        have hc0 := hq.dimColumn d hdq col hcol
        have hn0 := hq.dimName d hdq
        obtain ⟨e1, e2, e3⟩ := ih1 _ _ _ _ _ _ hd
        simp only [List.map_append, List.sum_append, List.map_cons, List.map_nil,
          List.sum_cons, List.sum_nil, placeholders_append, hc0, hn0, las, hz] at e1 e2 e3 ⊢
        omega
    · rw [if_neg hg] at hd
      cases hex : buildTimestampExpr h q d dialect with
      | error e => simp [hex] at hd
      | ok r =>
        obtain ⟨expr, exprArgs⟩ := r
        simp only [hex] at hd
        obtain ⟨c1, c2⟩ := buildTimestampExpr_count h q d dialect expr exprArgs hg
          (hq.timeColumn d hdq) (hq.truncSpecifier d hdq) (hq.floorSpecifier d hdq) hex
        have hn0 := hq.dimName d hdq
        obtain ⟨e1, e2, e3⟩ := ih1 _ _ _ _ _ _ hd
        simp only [List.map_append, List.sum_append, List.map_cons, List.map_nil,
          List.sum_cons, List.sum_nil, placeholders_append, hn0, las, c1,
          List.length_append, c2] at e1 e2 e3 ⊢
        omega

theorem measureCols_count (h : SQLHelpers) (q : MetricsViewAggregation) (mv : MetricsView)
    (hq : QuestionFree h q mv)
    (ms : List MetricsViewAggregationMeasure) (hsub : ∀ m ∈ ms, m ∈ q.Measures) :
    ∀ sel sel1, measureCols h mv ms sel = .ok sel1 →
      (sel1.map placeholders).sum = (sel.map placeholders).sum := by
  have las : placeholders " as " = 0 := by decide
  have lc : placeholders "COUNT(*) as " = 0 := by decide
  have ld : placeholders "COUNT(DISTINCT " = 0 := by decide
  have le : placeholders ") as " = 0 := by decide
  induction ms with
  | nil =>
    intro sel sel1 hm
    simp only [measureCols, Except.ok.injEq] at hm
    rw [hm]
  | cons m rest ih =>
    intro sel sel1 hm
    have hmq : m ∈ q.Measures := hsub m (List.mem_cons_self _ _)
    have ih1 := ih (fun x hx => hsub x (List.mem_cons_of_mem _ hx))
    have hn0 := hq.measureName m hmq
    unfold measureCols at hm
    split at hm
    · cases hex : h.metricsViewMeasureExpression mv m.Name with
      | error e => simp [hex] at hm
      | ok expr =>
        simp only [hex] at hm
        have he0 := hq.measureExpr m hmq expr hex
        have e1 := ih1 _ _ hm
        simp only [List.map_append, List.sum_append, List.map_cons, List.map_nil,
          List.sum_cons, List.sum_nil, placeholders_append, he0, hn0, las] at e1 ⊢
        omega
    · have e1 := ih1 _ _ hm
      simp only [List.map_append, List.sum_append, List.map_cons, List.map_nil,
        List.sum_cons, List.sum_nil, placeholders_append, hn0, lc] at e1 ⊢
      omega
    · split at hm
      · rename_i v hargs
        simp only at hm
        split at hm
        · simp at hm
        · have ha0 := hq.measureArg m hmq v (by rw [hargs]; simp)
          have e1 := ih1 _ _ hm
          simp only [List.map_append, List.sum_append, List.map_cons, List.map_nil,
            List.sum_cons, List.sum_nil, placeholders_append, hn0, ld, le, ha0] at e1 ⊢
          omega
      · simp at hm
    · simp at hm

theorem timeRangeClause_count (h : SQLHelpers) (q : MetricsViewAggregation) (mv : MetricsView)
    (hq : QuestionFree h q mv) :
    placeholders (timeRangeClause h q mv).1 = (timeRangeClause h q mv).2.length := by
  have l1 : placeholders " AND " = 0 := by decide
  have l2 : placeholders " >= ?" = 1 := by decide
  have l3 : placeholders " < ?" = 1 := by decide
  have l4 : placeholders "" = 0 := by decide
  have ht := hq.timeDimension
  unfold timeRangeClause
  split
  · cases q.TimeStart <;> cases q.TimeEnd <;>
      simp [placeholders_append, l1, l2, l3, l4, ht]
  · simp [l4]

theorem sortCriterion_count (h : SQLHelpers) (q : MetricsViewAggregation) (mv : MetricsView)
    (dialect : Dialect) (hq : QuestionFree h q mv) (ss : List MetricsViewAggregationSort)
    (hsub : ∀ s ∈ ss, s ∈ q.Sorting) :
    ((ss.map (sortCriterion h dialect)).map placeholders).sum = 0 := by
  induction ss with
  | nil => rfl
  | cons s rest ih =>
    have hn := hq.sortName s (hsub s (List.mem_cons_self _ _))
    have ih1 := ih (fun x hx => hsub x (List.mem_cons_of_mem _ hx))
    have l1 : placeholders " DESC" = 0 := by decide
    have l2 : placeholders " NULLS LAST" = 0 := by decide
    have l3 : placeholders "" = 0 := by decide
    simp only [List.map_cons, List.sum_cons, ih1, sortCriterion, placeholders_append, hn]
    split <;> split <;> simp [l1, l2, l3]

/-- C29: for every aggregation query without a filter whose identifiers contain no
placeholder, the SQL text of buildMetricsAggregationSQL has as many placeholders as there
are returned arguments plus the arguments of the time dimensions truncated in a time zone:
their expression is written into the SELECT list and into the GROUP BY clause, its
arguments are returned once. The two numbers agree only when no dimension is truncated in
a zone other than the empty one and UTC. -/
theorem aggregation_placeholders_exceed_args (h : SQLHelpers) (q : MetricsViewAggregation)
    (mv : MetricsView) (dialect : Dialect) (sql : String) (args : List Arg)
    (hf : q.Filter = none) (hq : QuestionFree h q mv)
    (hb : buildMetricsAggregationSQL h q mv dialect = .ok (sql, args)) :
    placeholders sql = args.length + (q.Dimensions.map (zoneArgs dialect)).sum := by
  unfold buildMetricsAggregationSQL at hb
  split at hb
  · simp at hb
  · cases hd : dimensionCols h q mv dialect q.Dimensions [] [] [] with
    | error e => simp [hd] at hb
    | ok r =>
      obtain ⟨sel0, grp, args0⟩ := r
      simp only [hd] at hb
      obtain ⟨d1, d2, d3⟩ := dimensionCols_count h q mv dialect hq q.Dimensions
        (fun _ hx => hx) _ _ _ _ _ _ hd
      cases hm : measureCols h mv q.Measures sel0 with
      | error e => simp [hm] at hb
      | ok sel =>
        simp only [hm, hf] at hb
        have m1 := measureCols_count h q mv hq q.Measures (fun _ hx => hx) _ _ hm
        have t1 := timeRangeClause_count h q mv hq
        have s1 := sortCriterion_count h q mv dialect hq q.Sorting (fun _ hx => hx)
        have hlim : placeholders (limitClause q) = 0 := by
          unfold limitClause
          split
          · rw [placeholders_append, placeholders_int]
            decide
          · decide
        have l1 : placeholders "SELECT " = 0 := by decide
        have l2 : placeholders " FROM " = 0 := by decide
        have l3 : placeholders " " = 0 := by decide
        have l4 : placeholders " OFFSET " = 0 := by decide
        have l5 : placeholders "WHERE 1=1" = 0 := by decide
        have l6 : placeholders "GROUP BY " = 0 := by decide
        have l7 : placeholders "ORDER BY " = 0 := by decide
        have l8 : placeholders "" = 0 := by decide
        have hwhere : placeholders (if (timeRangeClause h q mv).1.length > 0
            then "WHERE 1=1" ++ (timeRangeClause h q mv).1 else (timeRangeClause h q mv).1) =
            (timeRangeClause h q mv).2.length := by
          split
          · rw [placeholders_append, l5, t1]
            omega
          · exact t1
        have hgroup : placeholders (if grp.length > 0
            then "GROUP BY " ++ strings.Join grp ", " else "") =
            (grp.map placeholders).sum := by
          split
          · rw [placeholders_append, l6, placeholders_join]
            omega
          · rename_i hl
            have : grp = [] := by
              cases grp with
              | nil => rfl
              | cons a b => simp at hl
            subst this
            decide
        have horder : placeholders (if (q.Sorting.map (sortCriterion h dialect)).length > 0
            then "ORDER BY " ++ strings.Join (q.Sorting.map (sortCriterion h dialect)) ", "
            else "") = 0 := by
          split
          · rw [placeholders_append, l7, placeholders_join, s1]
          · decide
        simp only [Except.ok.injEq, Prod.mk.injEq] at hb
        obtain ⟨hs, ha⟩ := hb
        rw [← hs, ← ha]
        simp only [placeholders_append, hwhere, hgroup, horder, hlim, placeholders_int,
          placeholders_join, l1, l2, l3, l4, hq.model, List.length_append, m1]
        simp only [List.map_nil, List.sum_nil, List.length_nil] at d1 d2 d3
        omega

theorem queryByDay_questionFree : QuestionFree sampleSQLHelpers queryByDay mvAdBids where
  model := by decide
  timeDimension := by decide
  dimName := by
    intro d hd
    simp only [queryByDay, List.mem_singleton] at hd
    subst hd
    decide
  dimColumn := by
    intro d hd c hc
    simp only [queryByDay, List.mem_singleton] at hd
    subst hd
    have h2 : sampleSQLHelpers.metricsViewDimensionToSafeColumn mvAdBids dimCopenhagen.Name =
      .error "dimension 'timestamp' not found" := rfl
    rw [h2] at hc
    cases hc
  timeColumn := by
    intro d hd c hc
    simp only [queryByDay, List.mem_singleton] at hd
    subst hd
    have h2 : buildTimestampExpr.colName sampleSQLHelpers queryByDay dimCopenhagen =
      .ok "timestamp" := rfl
    rw [h2] at hc
    cases hc
    decide
  truncSpecifier := by
    intro d hd
    simp only [queryByDay, List.mem_singleton] at hd
    subst hd
    decide
  floorSpecifier := by
    intro d hd
    simp only [queryByDay, List.mem_singleton] at hd
    subst hd
    decide
  measureName := by
    intro m hm
    simp [queryByDay] at hm
  measureExpr := by
    intro m hm
    simp [queryByDay] at hm
  measureArg := by
    intro m hm
    simp [queryByDay] at hm
  sortName := by
    intro s hs
    simp [queryByDay] at hs

theorem aggregation_placeholders_exceed_args_witness :
    buildMetricsAggregationSQL sampleSQLHelpers queryByDay mvAdBids .DuckDB =
      .ok (sqlByDay, [.str "Europe/Copenhagen", .str "Europe/Copenhagen"]) ∧
    placeholders sqlByDay = 2 + 2 :=
  ⟨rfl, aggregation_placeholders_exceed_args sampleSQLHelpers queryByDay mvAdBids .DuckDB
    sqlByDay [.str "Europe/Copenhagen", .str "Europe/Copenhagen"] rfl
    queryByDay_questionFree rfl⟩

theorem unvisited_mono {K V : Type} [DecidableEq K] (heap : List (vertex K V))
    (v1 v2 : List K) (h : v1 ⊆ v2) : unvisited heap v2 ≤ unvisited heap v1 := by
  unfold unvisited
  apply Finset.card_le_card
  apply Finset.sdiff_subset_sdiff (Finset.Subset.refl _)
  intro x hx
  simp only [List.mem_toFinset] at hx ⊢
  exact h hx

theorem unvisited_cons {K V : Type} [DecidableEq K] (heap : List (vertex K V))
    (vis : List K) (k : K) (hk : k ∈ childKeys heap) (hn : k ∉ vis) :
    unvisited heap (k :: vis) < unvisited heap vis := by
  unfold unvisited
  apply Finset.card_lt_card
  rw [Finset.ssubset_iff_of_subset]
  · refine ⟨k, ?_, ?_⟩
    · simp [hk, hn]
    · simp
  · apply Finset.sdiff_subset_sdiff (Finset.Subset.refl _)
    intro x hx
    simp only [List.mem_toFinset, List.mem_cons] at hx ⊢
    exact Or.inr hx

theorem childKeys_of_get {K V : Type} (heap : List (vertex K V)) (c : Ptr) (cv : vertex K V)
    (h : heap.get? c = some cv) : ∀ e ∈ cv.children, e.1 ∈ childKeys heap := by
  intro e he
  simp only [childKeys, List.mem_flatMap, List.mem_map]
  exact ⟨cv, List.get?_mem h, e, he, rfl⟩

theorem visitChildren_returns {K V σ : Type} [DecidableEq K] (heap : List (vertex K V))
    (fn : σ → K → V → σ × GoError)
    (rec : List (K × Ptr) → List K → σ → Option (List K × σ × GoError)) (m : Nat)
    (hrec : ∀ cs vis s, (∀ e ∈ cs, e.1 ∈ childKeys heap) → unvisited heap vis < m →
      ∃ r, rec cs vis s = some r ∧ vis ⊆ r.1)
    (cs : List (K × Ptr)) :
    ∀ vis s, (∀ e ∈ cs, e.1 ∈ childKeys heap) → unvisited heap vis < m + 1 →
      ∃ r, visitChildren heap fn rec cs vis s = some r ∧ vis ⊆ r.1 := by
  induction cs with
  | nil =>
    intro vis s _ _
    exact ⟨_, rfl, List.Subset.refl _⟩
  | cons e rest ih =>
    intro vis s hcs hlt
    obtain ⟨ck, c⟩ := e
    have hrest : ∀ e ∈ rest, e.1 ∈ childKeys heap :=
      fun e he => hcs e (List.mem_cons_of_mem _ he)
    have hck : ck ∈ childKeys heap := hcs (ck, c) (List.mem_cons_self _ _)
    unfold visitChildren
    by_cases hv : ck ∈ vis
    · rw [if_pos hv]
      exact ih vis s hrest hlt
    · rw [if_neg hv]
      have hsub : vis ⊆ ck :: vis := List.subset_cons_self _ _
      have hlt1 : unvisited heap (ck :: vis) < m := by
        have := unvisited_cons heap vis ck hck hv
        omega
      have hcont : ∀ (vis2 : List K) (s2 : σ), ck :: vis ⊆ vis2 →
          ∃ r, visitChildren heap fn rec rest vis2 s2 = some r ∧ vis ⊆ r.1 := by
        intro vis2 s2 h2
        have hle := unvisited_mono heap _ _ h2
        obtain ⟨r, hr, hs⟩ := ih vis2 s2 hrest (by omega)
        exact ⟨r, hr, fun x hx => hs (h2 (hsub hx))⟩
      cases hget : heap.get? c with
      | none => exact ih vis s hrest hlt
      | some cv =>
        simp only
        cases hfn : fn s ck cv.val with
        | mk s1 err =>
          cases err with
          | none =>
            simp only
            obtain ⟨r2, hr2, hs2⟩ := hrec cv.children (ck :: vis) s1
              (childKeys_of_get heap c cv hget) hlt1
            obtain ⟨vis2, s2, e2⟩ := r2
            rw [hr2]
            cases e2 with
            | none => exact hcont vis2 s2 hs2
            | some e =>
              simp only
              split
              · exact hcont vis2 s2 hs2
              · exact ⟨_, rfl, fun x hx => hs2 (hsub hx)⟩
          | some e =>
            simp only
            split
            · exact hcont _ _ (List.Subset.refl _)
            · exact ⟨_, rfl, hsub⟩

theorem visit_returns {K V σ : Type} [DecidableEq K] (heap : List (vertex K V))
    (fn : σ → K → V → σ × GoError) (depth : Nat) :
    ∀ cs vis s, (∀ e ∈ cs, e.1 ∈ childKeys heap) → unvisited heap vis < depth →
      ∃ r, visit heap fn depth cs vis s = some r ∧ vis ⊆ r.1 := by
  induction depth with
  | zero =>
    intro cs vis s _ h
    omega
  | succ n ih =>
    intro cs vis s hcs h
    exact visitChildren_returns heap fn (visit heap fn n) n ih cs vis s hcs h

theorem unvisited_nil_lt {K V : Type} [DecidableEq K] (d : DAG K V) :
    unvisited d.heap [] < d.depth := by
  unfold unvisited DAG.depth
  have := List.toFinset_card_le (childKeys d.heap)
  simp only [List.toFinset_nil, Finset.sdiff_empty]
  omega

theorem lookup_deref {K V : Type} [DecidableEq K] (d : DAG K V) (k : K) (p : Ptr)
    (v : vertex K V) (h : d.lookup k = some (p, v)) :
    mapGet d.vertices k = some p ∧ d.heap.get? p = some v := by
  unfold DAG.lookup at h
  split at h
  · cases h
  · rename_i q hq
    unfold DAG.deref at h
    cases hg : d.heap.get? q with
    | none =>
      rw [hg] at h
      cases h
    | some w =>
      rw [hg] at h
      simp only [Option.map_some', Option.some.injEq, Prod.mk.injEq] at h
      obtain ⟨rfl, rfl⟩ := h
      exact ⟨hq, hg⟩

theorem Visit_terminates {K V σ : Type} [DecidableEq K] (d : DAG K V) (val : V)
    (fn : σ → K → V → σ × GoError) (s : σ) : d.Visit val fn s ≠ .timeout := by
  unfold DAG.Visit
  split
  · simp
  · rename_i p v hl
    split
    · simp
    · split
      · simp
      · obtain ⟨_, hg⟩ := lookup_deref d _ _ _ hl
        obtain ⟨r, hr, _⟩ := visit_returns d.heap fn d.depth v.children [] s
          (childKeys_of_get d.heap p v hg) (unvisited_nil_lt d)
        rw [hr]
        simp

theorem Add_terminates {K V : Type} [DecidableEq K] (d : DAG K V) (val : V)
    (parentVals : List V) : d.Add val parentVals ≠ .timeout := by
  unfold DAG.Add
  simp only
  split
  · simp
  · split
    · simp
    · split
      · rename_i hc
        split at hc
        · rename_i hlen
          cases hl : d.lookup (d.hash val) with
          | none => simp [hl] at hlen
          | some pv =>
            obtain ⟨p, v⟩ := pv
            simp only [hl] at hc
            obtain ⟨_, hg⟩ := lookup_deref d _ _ _ hl
            unfold DAG.findsCycle at hc
            obtain ⟨r, hr, _⟩ := visit_returns d.heap
              (fun (_ : Bool) ck _ =>
                if (mapGet (d.buildParents parentVals []) ck).isSome then (true, some ErrStop)
                else (false, none)) d.depth v.children [] false
              (childKeys_of_get d.heap p v hg) (unvisited_nil_lt d)
            rw [hr] at hc
            simp at hc
        · simp at hc
      · simp
      · simp

theorem Add_panics_iff {K V : Type} [DecidableEq K] (d : DAG K V) (val : V)
    (parentVals : List V) :
    d.Add val parentVals = .panic ↔ d.isPresent (d.hash val) = true := by
  unfold DAG.Add DAG.isPresent
  simp only
  cases hl : d.lookup (d.hash val) with
  | none =>
    simp only [Bool.false_eq_true, if_false, iff_false]
    split
    · simp
    · intro h
      split at h <;> cases h
  | some pv =>
    obtain ⟨p, v⟩ := pv
    simp only
    cases hp : v.present
    · simp only [Bool.false_eq_true, if_false, iff_false]
      split
      · simp
      · intro h
        split at h <;> cases h
    · simp

theorem Remove_panics_iff {K V : Type} [DecidableEq K] (d : DAG K V) (val : V) :
    d.Remove val = .panic ↔ d.isPresent (d.hash val) = false := by
  unfold DAG.Remove DAG.isPresent
  simp only
  cases hl : d.lookup (d.hash val) with
  | none => simp
  | some pv =>
    obtain ⟨p, v⟩ := pv
    simp only
    cases hp : v.present
    · simp
    · simp only [Bool.not_true, Bool.false_eq_true, if_false]
      constructor
      · intro h
        split at h
        · cases h
        · split at h <;> cases h
      · intro h
        cases h

theorem Parents_panics_iff {K V : Type} [DecidableEq K] (d : DAG K V) (val : V)
    (present : Bool) :
    d.Parents val present = .panic ↔ d.isPresent (d.hash val) = false := by
  unfold DAG.Parents DAG.isPresent
  cases hl : d.lookup (d.hash val) with
  | none => simp
  | some pv =>
    obtain ⟨p, v⟩ := pv
    simp only
    cases hp : v.present <;> simp

theorem Children_panics_iff {K V : Type} [DecidableEq K] (d : DAG K V) (val : V) :
    d.Children val = .panic ↔ d.isPresent (d.hash val) = false := by
  unfold DAG.Children DAG.isPresent
  cases hl : d.lookup (d.hash val) with
  | none => simp
  | some pv =>
    obtain ⟨p, v⟩ := pv
    simp only
    cases hp : v.present <;> simp

theorem Visit_panics_iff {K V σ : Type} [DecidableEq K] (d : DAG K V) (val : V)
    (fn : σ → K → V → σ × GoError) (s : σ) :
    d.Visit val fn s = .panic ↔ d.isPresent (d.hash val) = false := by
  unfold DAG.Visit DAG.isPresent
  cases hl : d.lookup (d.hash val) with
  | none => simp
  | some pv =>
    obtain ⟨p, v⟩ := pv
    simp only
    cases hp : v.present
    · simp
    · simp only [Bool.not_true, Bool.false_eq_true, if_false]
      constructor
      · intro h
        split at h
        · cases h
        · split at h <;> cases h
      · intro h
        cases h

/-- C23: the panics follow the flag of the vertex stored under the key: Add panics exactly
when a vertex is stored under the key with present set, and Remove, Parents, Children and
Visit panic exactly when none is stored or the stored one has present unset, as it is for a
vertex that is only referenced. The flag is not the history of the key, though: after the
calls of callsStaleParent vertex 1 has been added directly and was never removed, yet
Remove, Parents, Children and Visit panic on it and Add accepts it a second time. -/
theorem panics_follow_present_flag {K V σ : Type} [DecidableEq K] (d : DAG K V) (val : V)
    (parentVals : List V) (fn : σ → K → V → σ × GoError) (s : σ) :
    ((d.Add val parentVals = .panic ↔ d.isPresent (d.hash val) = true) ∧
      (d.Remove val = .panic ↔ d.isPresent (d.hash val) = false) ∧
      (∀ present, d.Parents val present = .panic ↔ d.isPresent (d.hash val) = false) ∧
      (d.Children val = .panic ↔ d.isPresent (d.hash val) = false) ∧
      (d.Visit val fn s = .panic ↔ d.isPresent (d.hash val) = false)) ∧
    ((dagEmpty.calls callsStaleParent).result = some [true, true, true, true] ∧
      (dagAfter callsStaleParent).isPresent 1 = false ∧
      ((dagAfter callsStaleParent).Remove 1).isPanic = true ∧
      ((dagAfter callsStaleParent).Parents 1 false).isPanic = true ∧
      ((dagAfter callsStaleParent).Children 1).isPanic = true ∧
      ((dagAfter callsStaleParent).Descendents 1).isPanic = true ∧
      ((dagAfter callsStaleParent).Add 1 []).result = some true) :=
  ⟨⟨Add_panics_iff d val parentVals, Remove_panics_iff d val,
      fun present => Parents_panics_iff d val present, Children_panics_iff d val,
      Visit_panics_iff d val fn s⟩,
   by decide⟩

/-- C27: the links of a present vertex are not always symmetric. After the calls of
callsReAdd vertex 2, removed and added again without parents, still has vertex 1 in its
parents map (Parents(2) returns 1) while vertex 1 has no children, and Roots does not
return vertex 2. -/
theorem readded_vertex_keeps_stale_parents :
    (dagEmpty.calls callsReAdd).result = some [true, true, true, true] ∧
    (dagAfter callsReAdd).Parents 2 false = .ok [1] ∧
    (dagAfter callsReAdd).Children 1 = .ok [] ∧
    (dagAfter callsReAdd).Roots = [1] ∧
    (dagAfter callsReAdd).isPresent 2 = true := by
  decide

/-- C28: a call of Add that returns false leaves the DAG as it was: the same map of
vertices and the same vertices, so that Roots, Parents, Children and Descendents return
what they returned before. -/
theorem Add_rejected_is_atomic {K V : Type} [DecidableEq K] (d d1 : DAG K V) (val : V)
    (parentVals : List V) (h : d.Add val parentVals = .ok (false, d1)) :
    d1 = d ∧ d1.vertices = d.vertices ∧ d1.heap = d.heap ∧ d1.Roots = d.Roots ∧
    (∀ x present, d1.Parents x present = d.Parents x present) ∧
    (∀ x, d1.Children x = d.Children x) ∧ (∀ x, d1.Descendents x = d.Descendents x) := by
  have hd : d1 = d := by
    unfold DAG.Add at h
    simp only at h
    split at h
    · cases h
    · split at h
      · simp only [Run.ok.injEq, Prod.mk.injEq, Bool.true_eq_false, false_and] at h
      · split at h
        · cases h
        · simp only [Run.ok.injEq, Prod.mk.injEq, true_and] at h
          exact h.symm
        · simp only [Run.ok.injEq, Prod.mk.injEq, Bool.true_eq_false, false_and] at h
  subst hd
  exact ⟨rfl, rfl, rfl, rfl, fun _ _ => rfl, fun _ => rfl, fun _ => rfl⟩

theorem Add_rejected_is_atomic_witness :
    dagOneEdge.Add 2 [1] = .ok (false, dagOneEdge) ∧ dagOneEdge.Roots = [] :=
  ⟨rfl, (Add_rejected_is_atomic dagOneEdge dagOneEdge 2 [1] (by rfl)).2.2.2.1⟩

theorem mem_mapSet_self {K α : Type} [DecidableEq K] (m : List (K × α)) (k : K) (a : α) :
    (k, a) ∈ mapSet m k a := by
  induction m with
  | nil => simp [mapSet]
  | cons e rest ih =>
    obtain ⟨k1, a1⟩ := e
    unfold mapSet
    split
    · simp
    · exact List.mem_cons_of_mem _ ih

theorem Add_self_parent_result {K V : Type} [DecidableEq K] (d : DAG K V) (val : V)
    (hfresh : mapGet d.vertices (d.hash val) = none) :
    d.Add val [val] = .ok (true,
      { hash := d.hash
        vertices := mapSet (mapSet d.vertices (d.hash val) d.heap.length) (d.hash val)
          (d.heap.length + 1)
        heap := d.heap ++
          [{ val := val, present := true, parents := [(d.hash val, d.heap.length + 1)],
             children := [] },
           { val := val, present := false, parents := [],
             children := [(d.hash val, d.heap.length)] }] }) := by
  have hl : d.lookup (d.hash val) = none := by
    unfold DAG.lookup
    rw [hfresh]
  unfold DAG.Add
  simp only [hl, List.length_cons, List.length_nil, Nat.add_one_ne_zero, if_false,
    Bool.false_eq_true, DAG.buildParents, hfresh, mapSet, gt_iff_lt, Nat.lt_irrefl,
    DAG.alloc, DAG.allocParents, DAG.setVertex, DAG.linkParents, List.length_append]
  simp [DAG.modify, List.getElem?_append_right, List.getElem_append_right, mapSet]

/-- C22: Add does not reject a vertex that is given as its own parent. For every DAG and
every value whose key is not in the map of vertices, Add(val, val) returns true, and the
graph it leaves has an edge from the key of the value to itself. -/
theorem Add_accepts_self_parent {K V : Type} [DecidableEq K] (d : DAG K V) (val : V)
    (hfresh : mapGet d.vertices (d.hash val) = none) :
    ∃ d1, d.Add val [val] = .ok (true, d1) ∧ (d.hash val, d.hash val) ∈ d1.edges := by
  refine ⟨_, Add_self_parent_result d val hfresh, ?_⟩
  simp only [DAG.edges, List.mem_flatMap]
  refine ⟨(d.hash val, d.heap.length + 1), mem_mapSet_self _ _ _, ?_⟩
  simp [DAG.deref, List.getElem?_append_right, List.getElem_append_right]

theorem Add_accepts_self_parent_witness :
    ∃ d1, dagEmpty.Add 1 [1] = .ok (true, d1) ∧ (1, 1) ∈ d1.edges :=
  Add_accepts_self_parent dagEmpty 1 rfl

theorem calls_append {K V : Type} [DecidableEq K] (d d1 d2 : DAG K V)
    (xs ys : List (DagCall V)) (bs1 bs2 : List Bool)
    (h1 : d.calls xs = .ok (bs1, d1)) (h2 : d1.calls ys = .ok (bs2, d2)) :
    d.calls (xs ++ ys) = .ok (bs1 ++ bs2, d2) := by
  induction xs generalizing d bs1 with
  | nil =>
    simp only [DAG.calls, Run.ok.injEq, Prod.mk.injEq] at h1
    obtain ⟨rfl, rfl⟩ := h1
    simpa using h2
  | cons c rest ih =>
    cases c with
    | Add val ps =>
      simp only [DAG.calls, List.cons_append] at h1 ⊢
      cases ha : d.Add val ps with
      | ok r =>
        obtain ⟨b, d3⟩ := r
        simp only [ha] at h1 ⊢
        cases hr : d3.calls rest with
        | ok r2 =>
          obtain ⟨bs3, d4⟩ := r2
          simp only [hr, Run.ok.injEq, Prod.mk.injEq] at h1
          obtain ⟨rfl, rfl⟩ := h1
          have hx := ih d3 bs3 hr
          rw [show rest.append ys = rest ++ ys from rfl, hx]
          rfl
        | panic => simp [hr] at h1
        | timeout => simp [hr] at h1
      | panic => simp [ha] at h1
      | timeout => simp [ha] at h1
    | Remove val =>
      simp only [DAG.calls, List.cons_append] at h1 ⊢
      cases ha : d.Remove val with
      | ok d3 =>
        simp only [ha] at h1 ⊢
        exact ih d3 bs1 h1
      | panic => simp [ha] at h1
      | timeout => simp [ha] at h1

theorem aliased_a : dagEmpty.calls [.Add 2 [1], .Add 3 [2], .Remove 2] =
    .ok ([true, true], dagAliased3) := by rfl
theorem aliased_b : dagAliased3.calls [.Add 9 [], .Add 5 [9], .Add 1 [5]] =
    .ok ([true, true, true], dagAliased6) := by rfl
theorem aliased_c : dagAliased6.calls [.Add 6 [1], .Add 2 [], .Remove 2] =
    .ok ([true, true], dagAliased9) := by rfl
theorem aliased_d : dagAliased9.calls [.Add 7 [9], .Add 1 [7], .Add 8 [1]] =
    .ok ([true, true, true], dagAliased) := by rfl
theorem aliased_calls : dagEmpty.calls callsAliasedKey =
    .ok ([true, true, true, true, true, true, true, true, true, true], dagAliased) :=
  calls_append _ _ _ [.Add 2 [1], .Add 3 [2], .Remove 2, .Add 9 [], .Add 5 [9], .Add 1 [5],
      .Add 6 [1], .Add 2 [], .Remove 2] [.Add 7 [9], .Add 1 [7], .Add 8 [1]] _ _
    (calls_append _ _ _ [.Add 2 [1], .Add 3 [2], .Remove 2, .Add 9 [], .Add 5 [9], .Add 1 [5]]
      [.Add 6 [1], .Add 2 [], .Remove 2] _ _
      (calls_append _ _ _ [.Add 2 [1], .Add 3 [2], .Remove 2] [.Add 9 [], .Add 5 [9], .Add 1 [5]]
        _ _ aliased_a aliased_b) aliased_c) aliased_d
/-- C24: Visit returns for every DAG, every vertex and every visitor, but Descendents is
not always the set of vertices below the vertex. It can contain the vertex itself: after
vertex 1 was added with itself as parent (which Add accepts) and added again,
Descendents(1) is the list with the one element 1. And it can miss a vertex: after the
calls of callsAliasedKey vertex 8 is a child of vertex 1, vertex 1 a child of vertex 7 and
vertex 7 a child of vertex 9, yet Descendents(9) does not contain vertex 8. -/
theorem Descendents_contains_vertex_itself {K V σ : Type} [DecidableEq K] (d : DAG K V)
    (val : V) (fn : σ → K → V → σ × GoError) (s : σ) :
    d.Visit val fn s ≠ .timeout ∧ d.Descendents val ≠ .timeout ∧
    ((dagEmpty.calls callsSelfParent).result = some [true, true] ∧
      (dagAfter callsSelfParent).Descendents 1 = .ok [1]) ∧
    (dagEmpty.calls callsAliasedKey =
        .ok ([true, true, true, true, true, true, true, true, true, true], dagAliased) ∧
      dagAliased.Children 9 = .ok [5, 7] ∧ dagAliased.Children 7 = .ok [1] ∧
      dagAliased.Children 1 = .ok [8] ∧ dagAliased.Descendents 9 = .ok [5, 1, 6, 7]) := by
  refine ⟨Visit_terminates d val fn s, ?_, by decide, aliased_calls, by decide⟩
  unfold DAG.Descendents
  have := Visit_terminates d val (fun (children : List V) _ v => (children ++ [v], none)) []
  split <;> simp_all

theorem soloRun_done (c : connection) (e : GoError) (rs : List GoError) :
    soloRun c (.done e) rs = ([], c, .done e) := by
  cases rs <;> simp [soloRun, stepAt]

theorem soloRun_holding (c : connection) (k : Call) (rs : List GoError) :
    soloRun c (.holding k) rs = ([], c, .holding k) := by
  cases rs <;> simp [soloRun, stepAt]

theorem soloRun_parked (c : connection) (k : Call) (rs : List GoError) :
    soloRun c (.parked k) rs = ([], c, .parked k) := by
  cases rs <;> simp [soloRun, stepAt]

theorem soloRun_relLR_append (c : connection) (err : GoError) (l : List GoError)
    (x y z : GoError) :
    soloRun c (.relLR err) (l ++ [x, y, z]) =
      ([.release .longRunning], { c with longRunningSem := c.longRunningSem.Release },
        .done err) := by
  cases l <;> simp [soloRun, stepAt, stageChange, Weighted.Release, soloRun_done]

theorem stageChange_releaseTx (c : connection) (tx : Bool) :
    stageChange c (releaseTx c tx) = [] := by
  cases tx <;> simp [stageChange, releaseTx]

theorem stageChange_releaseGate (c : connection) (err r : GoError) :
    stageChange c (releaseGate c err r).1 = [.release .conn] := by
  rw [releaseGate_eq]
  split <;> simp [stageChange]

theorem stageChange_semRelease (c : connection) (priority : Int) (longRunning tx : Bool) :
    stageChange c (semRelease c (.olap priority longRunning tx)) = [.release .olap] := by
  simp [stageChange, semRelease, Semaphore.Release]

theorem stageChange_lrRelease (c : connection) :
    stageChange c { c with longRunningSem := c.longRunningSem.Release } =
      [.release .longRunning] := by
  simp [stageChange, Weighted.Release]

theorem soloRun_release (c : connection) (priority : Int) (longRunning tx : Bool)
    (closeErr r : GoError) :
    soloRun c (.relClose (.olap priority longRunning tx)) [closeErr, r, none, none] =
      ([.release .conn, .release .olap] ++ lrBack longRunning,
        (runRelease c (.closure (.olap priority longRunning tx)) closeErr r).1,
        .done (runRelease c (.closure (.olap priority longRunning tx)) closeErr r).2) := by
  cases longRunning <;>
    simp [soloRun, stepAt, runRelease, release, Call.longRunning, Call.tx, soloRun_done,
      lrBack, stageChange_releaseTx, stageChange_releaseGate, stageChange_semRelease,
      stageChange_lrRelease]

/-- C25: a call of acquireOLAPConn that finds no connection in its context, run with nobody
else moving, is the run of the steps of the caller, and the stages are taken in the order
long-running slot (only if requested), OLAP slot, connection (the admission at the gate,
which raises dbConnCount): what was taken when the call blocks or returns the connection
is a prefix of that order. When the call returns an error, it is the error of the stage
that failed (the long-running wait, the OLAP wait, the gate, the transactional reopen or
Connx), and the slots taken before are given back, the OLAP slot before the long-running
slot. The release callback gives back the connection, then the OLAP slot, then the
long-running slot, and returns the error of the release closure of acquireConn. -/
theorem acquireOLAPConn_stage_order (c : connection) (env : CallEnv) (priority : Int)
    (longRunning tx : Bool) (hctx : env.ctxConn = none) :
    (∀ ev c1 p1,
      soloRun c (Call.entry (.olap priority longRunning tx))
        (soloResults c env longRunning tx) = (ev, c1, p1) →
      acquireOLAPConn c env priority longRunning tx = (c1, returnedAt env p1) ∧
      (ev <+: stagesTaken longRunning ∨ ∃ e, p1 = .done (some e)) ∧
      (∀ k, p1 = .holding k →
        k = .olap priority longRunning tx ∧ ev = stagesTaken longRunning) ∧
      (∀ err, p1 = .done err → err ≠ none ∧
        ((longRunning = true ∧ err = env.lrErr ∧ ev = []) ∨
         (err = env.semErr ∧ ev = lrTaken longRunning ++ lrBack longRunning) ∨
         (err = c.dbErr ∧
           ev = lrTaken longRunning ++ [.acquire .olap, .release .olap] ++
             lrBack longRunning) ∨
         ((err = env.reopenR ∨ err = env.connxR) ∧
           ev = lrTaken longRunning ++ [.acquire .olap, .acquire .conn, .release .olap] ++
             lrBack longRunning)))) ∧
    (∀ c2 closeErr r,
      soloRun c2 (.relClose (.olap priority longRunning tx)) [closeErr, r, none, none] =
        ([.release .conn, .release .olap] ++ lrBack longRunning,
          (runRelease c2 (.closure (.olap priority longRunning tx)) closeErr r).1,
          .done (runRelease c2 (.closure (.olap priority longRunning tx)) closeErr r).2) ∧
      (runRelease c2 (.closure (.olap priority longRunning tx)) closeErr r).2 =
        (release c2 tx closeErr r).2) := by
  refine ⟨?_, fun c2 closeErr r => ⟨soloRun_release c2 priority longRunning tx closeErr r, ?_⟩⟩
  · intro ev c1 p1 hrun
    cases longRunning <;>
      [(cases hs : env.semErr <;>
        [(by_cases ho : c.olapSem.held < c.olapSem.size <;>
          [(cases hd : c.dbErr <;>
            [(cases hr : c.dbReopen <;>
              [(cases tx <;>
                [(by_cases hw : c.txMu.writer = false <;>
                  [(cases hx : env.connxR); skip]);
                 (by_cases hw : c.txMu.readers = 0 ∧ c.txMu.writer = false <;>
                  [(by_cases hf : c.config.DBFilePath = "" <;>
                    [(cases hx : env.connxR);
                     (cases hy : env.reopenR <;> [(cases hx : env.connxR); skip])]);
                   skip])]);
               skip]);
             skip]);
           skip]);
         skip]);
       (cases hl : env.lrErr <;>
        [(by_cases hA : c.longRunningSem.cur + 1 ≤ c.longRunningSem.size <;>
          [(cases hs : env.semErr <;>
            [(by_cases ho : c.olapSem.held < c.olapSem.size <;>
              [(cases hd : c.dbErr <;>
                [(cases hr : c.dbReopen <;>
                  [(cases tx <;>
                    [(by_cases hw : c.txMu.writer = false <;>
                      [(cases hx : env.connxR); skip]);
                     (by_cases hw : c.txMu.readers = 0 ∧ c.txMu.writer = false <;>
                      [(by_cases hf : c.config.DBFilePath = "" <;>
                        [(cases hx : env.connxR);
                         (cases hy : env.reopenR <;> [(cases hx : env.connxR); skip])]);
                       skip])]);
                   skip]);
                 skip]);
               skip]);
             skip]);
           skip]);
         skip])]
    all_goals
      simp [soloRun, soloResults, stepAt, Call.entry, acquireOLAPConn, acquireOLAPConn.olap,
        acquireWrapped, acquireConn, acquireConn.finish, acquireGate, lockTx, needsTxReopen,
        txReopen, reopenDB, connx, releaseTx, semAcquire, semRelease, Weighted.Acquire,
        Weighted.Release, Semaphore.Acquire, Semaphore.Release, RWMutex.RLock,
        RWMutex.RUnlock, RWMutex.Lock, RWMutex.Unlock, stageChange, Call.longRunning, Call.tx,
        soloRun_done, soloRun_holding, soloRun_parked, soloRun_relLR_append, returnedAt,
        stagesTaken, lrTaken, lrBack, *] at hrun ⊢
      obtain ⟨rfl, rfl, rfl⟩ := hrun
      simp [returnedAt, *]
  · cases longRunning <;> simp [runRelease, Call.longRunning, Call.tx]

theorem acquireOLAPConn_stage_order_witness :
    soloRun (Open cfgFile) (Call.entry (.olap 3 true false))
        (soloResults (Open cfgFile) envConnxCancelled true false) =
      ([.acquire .longRunning, .acquire .olap, .acquire .conn, .release .olap,
        .release .longRunning], { Open cfgFile with dbConnCount := 1 },
        .done (some "context canceled")) ∧
    acquireOLAPConn (Open cfgFile) envConnxCancelled 3 true false =
      ({ Open cfgFile with dbConnCount := 1 }, .err "context canceled") :=
  ⟨by decide,
   ((acquireOLAPConn_stage_order (Open cfgFile) envConnxCancelled 3 true false rfl).1
      [.acquire .longRunning, .acquire .olap, .acquire .conn, .release .olap,
        .release .longRunning] { Open cfgFile with dbConnCount := 1 }
      (.done (some "context canceled")) (by decide)).1⟩

end Duckdb
